import Mathlib

/-!
# Oberon-S scanner (`obcScanner.c`): shallow embedding and verified properties

Characters are bytes, represented by natural numbers (`'A'` is 65, the end-of-line
sentinel NUL is 0).  A C string is the list of bytes found from a pointer onwards; a
read past the end of the list yields NUL.  The scanner's globals become the fields of
`State`; `scanError`, which calls `exit`, becomes the error `Err.scanError n`.
-/

namespace Oberon

/-! ## Token kinds -/

/-- Modelled from the spec: the token-kind enumeration lives in `obcScanner.h`, which is
not part of the sources.  The kinds are numbered by the position of their names in the
table `symbols` (source lines 17-27), which `nextSym` indexes with `sym`. -/
def MODULEsym : Int := 0
def BEGINsym : Int := 1
def ENDsym : Int := 2
def CONSTsym : Int := 3
def TYPEsym : Int := 4
def VARsym : Int := 5
def PROCEDUREsym : Int := 6
def ARRAYsym : Int := 7
def OFsym : Int := 8
def RECORDsym : Int := 9
def EXITsym : Int := 10
def RETURNsym : Int := 11
def IFsym : Int := 12
def THENsym : Int := 13
def ELSIFsym : Int := 14
def ELSEsym : Int := 15
def WHILEsym : Int := 16
def DOsym : Int := 17
def REPEATsym : Int := 18
def UNTILsym : Int := 19
def FORsym : Int := 20
def TOsym : Int := 21
def BYsym : Int := 22
def LOOPsym : Int := 23
def CASEsym : Int := 24
def ORsym : Int := 25
def DIVsym : Int := 26
def MODsym : Int := 27
def UNKNOWN : Int := 28
def PLUS : Int := 29
def MINUS : Int := 30
def TILDE : Int := 31
def EQUAL : Int := 32
def POUND : Int := 33
def LT : Int := 34
def LE : Int := 35
def GT : Int := 36
def GE : Int := 37
def AND : Int := 38
def Integer : Int := 39
def Ident : Int := 40
def MULT : Int := 41
def PER : Int := 42
def DOTDOT : Int := 43
def COMMA : Int := 44
def COLON : Int := 45
def SEMIC : Int := 46
def LBRAC : Int := 47
def RBRAC : Int := 48
def LPAREN : Int := 49
def RPAREN : Int := 50
def PIPE : Int := 51
def ASSGN : Int := 52

/-- Number of entries of the table `symbols` (source lines 17-27). -/
def NUM_SYMBOLS : Nat := 53

/-- The reserved words `resWrds` (source lines 7-14), each as its bytes without the
terminating NUL. -/
def resWrds : List (List Nat) :=
  [
    [77, 79, 68, 85, 76, 69],  -- MODULE
    [66, 69, 71, 73, 78],  -- BEGIN
    [69, 78, 68],  -- END
    [67, 79, 78, 83, 84],  -- CONST
    [84, 89, 80, 69],  -- TYPE
    [86, 65, 82],  -- VAR
    [80, 82, 79, 67, 69, 68, 85, 82, 69],  -- PROCEDURE
    [65, 82, 82, 65, 89],  -- ARRAY
    [79, 70],  -- OF
    [82, 69, 67, 79, 82, 68],  -- RECORD
    [69, 88, 73, 84],  -- EXIT
    [82, 69, 84, 85, 82, 78],  -- RETURN
    [73, 70],  -- IF
    [84, 72, 69, 78],  -- THEN
    [69, 76, 83, 73, 70],  -- ELSIF
    [69, 76, 83, 69],  -- ELSE
    [87, 72, 73, 76, 69],  -- WHILE
    [68, 79],  -- DO
    [82, 69, 80, 69, 65, 84],  -- REPEAT
    [85, 78, 84, 73, 76],  -- UNTIL
    [70, 79, 82],  -- FOR
    [84, 79],  -- TO
    [66, 89],  -- BY
    [76, 79, 79, 80],  -- LOOP
    [67, 65, 83, 69],  -- CASE
    [79, 82],  -- OR
    [68, 73, 86],  -- DIV
    [77, 79, 68]  -- MOD
  ]

/-- The C string stored for a literal: its bytes followed by NUL. -/
def cstr (w : List Nat) : List Nat := w ++ [0]

/-! ## Errors -/

/-- Ways a run of the scanner stops without returning: `scanError n` is the fatal
diagnostic (`exit(EXIT_FAILURE)`); the read errors are reads outside an array
(undefined behaviour in C); `outOfFuel` is an artefact of bounding the loops. -/
inductive Err where
  | scanError (n : Nat)
  | lineBufferRead (i : Nat)
  | tableRead (i : Nat)
  | symbolsRead (i : Int)
  | outOfFuel
  deriving DecidableEq, Repr

/-- Results of fallible operations can be compared. -/
instance instDecidableEqExcept {ε α : Type} [DecidableEq ε] [DecidableEq α] :
    DecidableEq (Except ε α) := fun a b =>
  match a, b with
  | .ok x, .ok y =>
    if h : x = y then isTrue (h ▸ rfl) else isFalse (fun h2 => h (Except.ok.inj h2))
  | .error x, .error y =>
    if h : x = y then isTrue (h ▸ rfl) else isFalse (fun h2 => h (Except.error.inj h2))
  | .ok _, .error _ => isFalse (fun h => Except.noConfusion h)
  | .error _, .ok _ => isFalse (fun h => Except.noConfusion h)

/-! ## Reserved-word lookup -/

/-- Source lines 420-440, `cmpWords`: compare two C strings byte by byte; 1 (`true`)
when both reach NUL together, 0 (`false`) at the first differing byte. -/
def cmpWords : List Nat → List Nat → Bool
  | c1 :: s1, c2 :: s2 =>
    if c1 = 0 ∧ c2 = 0 then true
    else if c1 = c2 then cmpWords s1 s2 else false
  | [], c2 :: _ => if c2 = 0 then true else false
  | c1 :: _, [] => if c1 = 0 then true else false
  | [], [] => true

/-- The loop of the linear `checkResWord` from index `i` over the remaining words. -/
def checkResWordLoop (token : List Nat) : List (List Nat) → Nat → Int
  | [], _ => Ident
  | w :: ws, i => if cmpWords token (cstr w) then (i : Int) else checkResWordLoop token ws (i + 1)

/-- Source lines 321-330, the linear `checkResWord` (build without `ENABLE_HASH`). -/
def checkResWord (token : List Nat) : Int :=
  checkResWordLoop token resWrds 0

def MIN_WORD_LEN : Nat := 2
def MAX_WORD_LEN : Nat := 9
def MAX_HASH_VALUE : Nat := 27
def NUM_HASH_VALS : Nat := 24

/-- Source lines 467-471, `hashVals`. -/
def hashVals : List Nat :=
  [21, 2, 6, 5, 1, 6, 13, 35, 18, 35, 35, 21,
   10, 9, 1, 1, 35, 2, 5, 1, 1, 13, 1, 35, 2]

/-- How one step of `hash` leaves the function early: `ret v` is `return v`, `oob i`
is a read of `hashVals` outside the table. -/
inductive HashStop where
  | ret (v : Nat)
  | oob (i : Nat)
  deriving DecidableEq, Repr

/-- The value `temp = (unsigned char)c - 65` of `hash`, held in an `unsigned int`. -/
def hashTemp (c : Nat) : Nat := (c % 256 + 2 ^ 32 - 65) % 2 ^ 32

/-- One of the three blocks of `hash`: `temp = ...; if (temp > NUM_HASH_VALS) return 0;
iVal += hashVals[temp];`. -/
def hashStep (iVal c : Nat) : Except HashStop Nat :=
  if hashTemp c > NUM_HASH_VALS then .error (.ret 0)
  else
    match hashVals[hashTemp c]? with
    | some v => .ok ((iVal + v) % 2 ^ 32)
    | none => .error (.oob (hashTemp c))

/-- The `return` of source line 500, on `unsigned int`. -/
def hashFinal (iVal : Nat) : Nat :=
  if iVal = 34 then iVal - 7 else (iVal + 2 ^ 32 - 4) % 2 ^ 32

/-- Body of `hash` (source lines 472-500) with its early returns explicit. -/
def hashBody (word : List Nat) (len : Nat) : Except HashStop Nat :=
  (if len = 2 ∨ len = 1 then .ok len else hashStep len (word.getD 2 0)) >>= fun v1 =>
  hashStep v1 (word.getD 0 0) >>= fun v2 =>
  hashStep v2 (word.getD (len - 1) 0) >>= fun v3 =>
  .ok (hashFinal v3)

/-- Source lines 463-501, `hash`. -/
def hash (word : List Nat) (len : Nat) : Except Err Nat :=
  match hashBody word len with
  | .ok v => .ok v
  | .error (.ret v) => .ok v
  | .error (.oob i) => .error (.tableRead i)

/-- An entry of `wordlist`: `struct resWrd` with its `name` and `token`. -/
structure ResWrd where
  name : List Nat
  token : Int
  deriving DecidableEq, Repr

/-- Source lines 513-543, `wordlist`. -/
def wordlist : List ResWrd :=
  [
    ⟨[84, 79], TOsym⟩,
    ⟨[79, 82], ORsym⟩,
    ⟨[66, 89], BYsym⟩,
    ⟨[84, 89, 80, 69], TYPEsym⟩,
    ⟨[68, 79], DOsym⟩,
    ⟨[79, 70], OFsym⟩,
    ⟨[82, 69, 80, 69, 65, 84], REPEATsym⟩,
    ⟨[69, 76, 83, 69], ELSEsym⟩,
    ⟨[80, 82, 79, 67, 69, 68, 85, 82, 69], PROCEDUREsym⟩,
    ⟨[70, 79, 82], FORsym⟩,
    ⟨[69, 78, 68], ENDsym⟩,
    ⟨[84, 72, 69, 78], THENsym⟩,
    ⟨[67, 65, 83, 69], CASEsym⟩,
    ⟨[69, 76, 83, 73, 70], ELSIFsym⟩,
    ⟨[82, 69, 84, 85, 82, 78], RETURNsym⟩,
    ⟨[82, 69, 67, 79, 82, 68], RECORDsym⟩,
    ⟨[86, 65, 82], VARsym⟩,
    ⟨[67, 79, 78, 83, 84], CONSTsym⟩,
    ⟨[77, 79, 68, 85, 76, 69], MODULEsym⟩,
    ⟨[77, 79, 68], MODsym⟩,
    ⟨[69, 88, 73, 84], EXITsym⟩,
    ⟨[87, 72, 73, 76, 69], WHILEsym⟩,
    ⟨[73, 70], IFsym⟩,
    ⟨[76, 79, 79, 80], LOOPsym⟩,
    ⟨[85, 78, 84, 73, 76], UNTILsym⟩,
    ⟨[66, 69, 71, 73, 78], BEGINsym⟩,
    ⟨[65, 82, 82, 65, 89], ARRAYsym⟩,
    ⟨[68, 73, 86], DIVsym⟩
  ]

/-- Source lines 506-568, the hash `checkResWord` (build with `ENABLE_HASH`): the
entry found, or `none` for the null pointer. -/
def checkResWordHash (word : List Nat) (len : Nat) : Except Err (Option ResWrd) :=
  if len ≤ MAX_WORD_LEN ∧ len ≥ MIN_WORD_LEN then
    match hash word len with
    | .error e => .error e
    | .ok key =>
      if key ≤ MAX_HASH_VALUE then
        match wordlist[key]? with
        | none => .error (.tableRead key)
        | some resWrdStruct =>
          if word.getD 0 0 = (cstr resWrdStruct.name).getD 0 0
              ∧ cmpWords (word.drop 1) ((cstr resWrdStruct.name).drop 1) then
            .ok (some resWrdStruct)
          else .ok none
      else .ok none
  else .ok none

/-! ## Scanner state -/

/-- Compile-time constants of `obcScanner.h`, which is not part of the sources: the two
buffer sizes and the two build switches. -/
structure Config where
  MAX_LINE_LEN : Nat
  MAX_VAR_LEN : Nat
  ENABLE_HASH : Bool
  ERROR_HANDLING : Bool
  deriving DecidableEq, Repr

/-- The globals of the scanner (source lines 29-46), the static `warningCount` of
`scanWarning`, and two ghost fields: `overrun` lists the indices of the writes made to
`varBuffer` at or beyond `MAX_VAR_LEN` (most recent first), `warnings` the numbers of
the warnings reported (most recent first).  `varBuffer` is the array together with the
bytes that follow it in memory, so that a write past the array is kept and recorded
rather than lost.  Such a write is undefined behaviour in C: a run whose `overrun` has
grown is followed here as if the bytes behind the array belonged to no other variable,
which need not be so in a compiled program (the source declares `varBuffPtr` right after
`varBuffer`, lines 31-34).  A run whose `overrun` is unchanged has made every store
inside the array. -/
structure State where
  lineBuffer : List Nat
  varBuffer : List Nat
  varBuffPtr : Nat
  lineBuffPtr : Nat
  prevLinePtr : Nat
  enable_output : Bool
  curLine : Nat
  sym : Int
  endOfLine : Int
  EOFflag : Bool
  ch : Nat
  file : List Nat
  warningCount : Nat
  overrun : List Nat
  warnings : List Nat
  deriving DecidableEq, Repr

/-- The state `main` starts from: zero-initialised globals, the input stream `input`,
and the build's default for `enable_output`. -/
def initState (c : Config) (output : Bool) (input : List Nat) : State :=
  { lineBuffer := List.replicate c.MAX_LINE_LEN 0
    varBuffer := List.replicate c.MAX_VAR_LEN 0
    varBuffPtr := 0
    lineBuffPtr := 0
    prevLinePtr := 0
    enable_output := output
    curLine := 0
    sym := 0
    endOfLine := 0
    EOFflag := false
    ch := 0
    file := input
    warningCount := 0
    overrun := []
    warnings := [] }

/-- Store `v` at index `i` of a memory region, extending the region with NUL bytes when
`i` lies beyond it.  Used for `varBuffer` only, where an index at or beyond `MAX_VAR_LEN`
is outside the array: `writeVar` records every such store. -/
def setPad (l : List Nat) (i v : Nat) : List Nat :=
  if i < l.length then l.set i v else l ++ List.replicate (i - l.length) 0 ++ [v]

/-- The assignment `varBuffer[i] = v`.  The source makes it without a bounds check; an
index `i >= MAX_VAR_LEN` lies outside `char varBuffer[MAX_VAR_LEN]` (source line 31) and
is recorded in `overrun`, the byte being kept in the region behind the array. -/
def writeVar (c : Config) (s : State) (i v : Nat) : State :=
  { s with
    varBuffer := setPad s.varBuffer i v
    overrun := if i < c.MAX_VAR_LEN then s.overrun else i :: s.overrun }

/-- The read `lineBuffer[i]`. -/
def readLine (s : State) (i : Nat) : Except Err Nat :=
  match s.lineBuffer[i]? with
  | some v => .ok v
  | none => .error (.lineBufferRead i)

/-- The statement `ch = lineBuffer[lineBuffPtr++];`. -/
def fetch (s : State) : Except Err State :=
  match readLine s s.lineBuffPtr with
  | .ok v => .ok { s with ch := v, lineBuffPtr := s.lineBuffPtr + 1 }
  | .error e => .error e

/-- The statement `varBuffer[varBuffPtr++] = ch;` (no bounds check in the source: the
store goes through `writeVar`, which records an index outside the array). -/
def storeCh (c : Config) (s : State) : State :=
  { writeVar c s s.varBuffPtr s.ch with varBuffPtr := s.varBuffPtr + 1 }

/-- Source lines 392-396, `nextChar`. -/
def nextChar (c : Config) (s : State) : Except Err State :=
  fetch (storeCh c s)

/-- A `while (cond) body` loop, bounded by `fuel` iterations. -/
def whileLoop (cond : State → Bool) (body : State → Except Err State) :
    Nat → State → Except Err State
  | 0, s => if cond s then .error .outOfFuel else .ok s
  | n + 1, s =>
    if cond s then
      match body s with
      | .ok s1 => whileLoop cond body n s1
      | .error e => .error e
    else .ok s

/-- A `do body while (cond)` loop, bounded by `fuel` iterations. -/
def doWhile (body : State → Except Err State) (cond : State → Bool) :
    Nat → State → Except Err State
  | 0, _ => .error .outOfFuel
  | n + 1, s =>
    match body s with
    | .ok s1 => if cond s1 then doWhile body cond n s1 else .ok s1
    | .error e => .error e

/-- Iterations that suffice for any loop that advances `lineBuffPtr` on each turn: the
read fails once the cursor leaves the buffer. -/
def lineFuel (c : Config) : Nat := c.MAX_LINE_LEN + 1

/-- Source lines 405-408, `isHexChar`. -/
def isHexChar (ch : Nat) : Bool := (48 ≤ ch ∧ ch ≤ 57) ∨ (65 ≤ ch ∧ ch ≤ 70)

/-- Source lines 410-413, `isAlpha`. -/
def isAlpha (ch : Nat) : Bool := (97 ≤ ch ∧ ch ≤ 122) ∨ (65 ≤ ch ∧ ch ≤ 90)

/-- Source lines 415-418, `isDigit`. -/
def isDigit (ch : Nat) : Bool := 48 ≤ ch ∧ ch ≤ 57

/-- The condition of the loop of `skipSep` (source line 401). -/
def isSep (ch : Nat) : Bool := ch = 32 ∨ ch = 11 ∨ ch = 13 ∨ ch = 9

/-- Source lines 399-403, `skipSep`. -/
def skipSep (c : Config) (s : State) : Except Err State :=
  whileLoop (fun s => isSep s.ch) fetch (lineFuel c) s

/-- The call `getc(file)` with its result stored in a `char`: the next byte and the
rest of the stream; at end of input the value is `EOF`, which a (signed) `char` holds
as the byte 255. -/
def getc (f : List Nat) : Nat × List Nat :=
  match f with
  | [] => (255, [])
  | x :: r => (x, r)

/-- The loop of `setLineBuffer` (source lines 93-108) from index `i`, with
`n = MAX_LINE_LEN - i` turns left; the result is the returned value and the state. -/
def setLineBufferLoop : Nat → Nat → State → Int × State
  | 0, _, s => (-1, s)
  | n + 1, i, s =>
    let r := getc s.file
    if r.1 = 10 then
      let s1 := { s with lineBuffer := s.lineBuffer.set i 0 }
      let r2 := getc r.2
      if r2.1 = 255 then ((i : Int), { s1 with EOFflag := true, file := r2.2 })
      else ((i : Int), { s1 with file := r.2 })
    else setLineBufferLoop n (i + 1) { s with lineBuffer := s.lineBuffer.set i r.1, file := r.2 }

/-- Source lines 89-109, `setLineBuffer`. -/
def setLineBuffer (c : Config) (s : State) : Int × State :=
  setLineBufferLoop c.MAX_LINE_LEN 0 s

/-- Source lines 76-87, `newLine` (the trace output of `printLine` is not modelled). -/
def newLine (c : Config) (s : State) : Except Err State :=
  let r := setLineBuffer c s
  let s1 := { r.2 with endOfLine := r.1 }
  if r.1 = -1 then .error (.scanError 2)
  else
    match fetch { s1 with lineBuffPtr := 0, curLine := s1.curLine + 1 } with
    | .ok s2 => skipSep c s2
    | .error e => .error e

/-- Source lines 373-390, `scanWarning`. -/
def scanWarning (warningNum : Nat) (s : State) : Except Err State :=
  if s.warningCount > 10 then .error (.scanError 4)
  else if warningNum = 0 then
    .ok { s with warningCount := s.warningCount + 1, warnings := 0 :: s.warnings }
  else if warningNum = 1 then .ok { s with warnings := 1 :: s.warnings }
  else .ok s

/-- Source lines 116-126 of `getAlphaToken`: the overflow check, the terminator and the
reserved-word lookup. -/
def alphaFinish (c : Config) (s1 : State) : Except Err State :=
  if s1.varBuffPtr > c.MAX_VAR_LEN then .error (.scanError 3)
  else
    let s2 := writeVar c s1 s1.varBuffPtr 0
    if c.ENABLE_HASH then
      match checkResWordHash s2.varBuffer s2.varBuffPtr with
      | .error e => .error e
      | .ok (some symStruct) => .ok { s2 with sym := symStruct.token }
      | .ok none => .ok { s2 with sym := Ident }
    else .ok { s2 with sym := checkResWord s2.varBuffer }

/-- Source lines 111-127, `getAlphaToken`. -/
def getAlphaToken (c : Config) (s : State) : Except Err State :=
  match whileLoop (fun s => isAlpha s.ch || isDigit s.ch) (nextChar c) (lineFuel c) s with
  | .error e => .error e
  | .ok s1 => alphaFinish c s1

/-- Source lines 135-146 of `getDigitToken`: the hexadecimal suffix. -/
def hexSuffix (c : Config) (s : State) : Except Err State :=
  if 65 ≤ s.ch ∧ s.ch ≤ 70 then
    match whileLoop (fun s => isHexChar s.ch) (nextChar c) (lineFuel c) s with
    | .error e => .error e
    | .ok s1 => if s1.ch ≠ 72 then .error (.scanError 1) else nextChar c s1
  else if s.ch = 72 then
    if s.varBuffPtr = 1 then
      match scanWarning 1 s with
      | .error e => .error e
      | .ok s1 => nextChar c s1
    else nextChar c s
  else .ok s

/-- Source lines 131-134 of `getDigitToken`: the leading zeros are passed over, the
decimal digits are stored. -/
def digitRun (c : Config) (s : State) : Except Err State :=
  match whileLoop (fun s => s.ch = 48) fetch (lineFuel c) s with
  | .error e => .error e
  | .ok s1 => whileLoop (fun s => isDigit s.ch) (nextChar c) (lineFuel c) s1

/-- Source lines 147-151 of `getDigitToken`: the overflow check and the terminator. -/
def digitFinish (c : Config) (s3 : State) : Except Err State :=
  if s3.varBuffPtr > c.MAX_VAR_LEN then .error (.scanError 3)
  else .ok { writeVar c s3 s3.varBuffPtr 0 with sym := Integer }

/-- Source lines 129-152, `getDigitToken`. -/
def getDigitToken (c : Config) (s : State) : Except Err State :=
  match digitRun c s with
  | .error e => .error e
  | .ok s2 =>
    match hexSuffix c s2 with
    | .error e => .error e
    | .ok s3 => digitFinish c s3

/-- Source lines 333-343, `doubleToken`. -/
def doubleToken (c : Config) (t1 t2 : Int) (chr : Nat) (s : State) : Except Err State :=
  match readLine s s.lineBuffPtr with
  | .error e => .error e
  | .ok v => if v = chr then nextChar c { s with sym := t2 } else .ok { s with sym := t1 }

/-- Source lines 250-266, `checkDirective` (the acknowledgment line is not modelled). -/
def checkDirective (s : State) : Except Err State :=
  match readLine s (s.lineBuffPtr + 1) with
  | .error e => .error e
  | .ok v =>
    if v = 115 then
      match readLine s (s.lineBuffPtr + 2) with
      | .error e => .error e
      | .ok d =>
        if d = 43 ∧ s.enable_output = false then .ok { s with enable_output := true }
        else if d = 45 ∧ s.enable_output = true then .ok { s with enable_output := false }
        else .ok s
    else .ok s

/-- The statements `if (enable_output) varBuffer[varBuffPtr++] = ch;
ch = lineBuffer[lineBuffPtr++];` shared by the comment routines. -/
def commentStep (c : Config) (s : State) : Except Err State :=
  fetch (if s.enable_output then storeCh c s else s)

/-- Source lines 268-278, `commentSkip`. -/
def commentSkip (c : Config) (s : State) : Except Err State :=
  doWhile (commentStep c) (fun s => !(s.ch = 0 || s.ch = 42 || s.ch = 40)) (lineFuel c) s

/-- Source lines 280-291, `commentNewLine`; `fuel` bounds the number of lines read. -/
def commentNewLine (c : Config) (fuel : Nat) (s : State) : Except Err State :=
  whileLoop (fun s => s.ch = 0)
    (fun s => newLine c { writeVar c s s.varBuffPtr 0 with varBuffPtr := 0 }) fuel s

/-- Source lines 293-304, `commentCheckClose`: the returned value and the state. -/
def commentCheckClose (c : Config) (s : State) : Except Err (Int × State) :=
  match readLine s s.lineBuffPtr with
  | .error e => .error e
  | .ok v =>
    if v = 41 then
      match commentStep c s with
      | .ok s1 => .ok (-1, s1)
      | .error e => .error e
    else .ok (0, s)

/-- The statement `sym = inComment();` for a given meaning of the call. -/
def assignSym (call : State → Except Err (Int × State)) (s : State) : Except Err State :=
  match call s with
  | .ok r => .ok { r.2 with sym := r.1 }
  | .error e => .error e

/-- The loop `do { sym = inComment(); } while (sym != -1);` of source lines 212-215 and
313-316. -/
def commentLoop (call : State → Except Err (Int × State)) (fuel : Nat) (s : State) :
    Except Err State :=
  doWhile (assignSym call) (fun s => s.sym ≠ -1) fuel s

/-- Source lines 306-318, `commentCheckOpen`, for a given meaning of the recursive
call of `inComment`. -/
def commentCheckOpen (c : Config) (call : State → Except Err (Int × State)) (fuel : Nat)
    (s : State) : Except Err State :=
  match readLine s s.lineBuffPtr with
  | .error e => .error e
  | .ok v =>
    if v = 42 then
      match commentStep c s with
      | .ok s1 => commentLoop call fuel s1
      | .error e => .error e
    else .ok s

/-- Source lines 236-248, `inComment`: the returned value and the state.  `fuel` bounds
the depth of the calls and the turns of the loops inside. -/
def inComment (c : Config) : Nat → State → Except Err (Int × State)
  | 0, _ => .error .outOfFuel
  | fuel + 1, s =>
    match (if s.sym = -1 then checkDirective s else .ok s) with
    | .error e => .error e
    | .ok s1 =>
      match commentSkip c s1 with
      | .error e => .error e
      | .ok s2 =>
        match commentNewLine c fuel s2 with
        | .error e => .error e
        | .ok s3 =>
          if s3.ch = 42 then commentCheckClose c s3
          else if s3.ch = 40 then
            match commentCheckOpen c (inComment c fuel) fuel s3 with
            | .ok s4 => .ok (0, s4)
            | .error e => .error e
          else .ok (0, s3)

/-- The `switch` of `getMiscToken` (source lines 156-228). -/
def miscSwitch (c : Config) (fuel : Nat) (s : State) : Except Err State :=
  if s.ch = 43 then .ok { s with sym := PLUS }
  else if s.ch = 45 then .ok { s with sym := MINUS }
  else if s.ch = 126 then .ok { s with sym := TILDE }
  else if s.ch = 61 then .ok { s with sym := EQUAL }
  else if s.ch = 35 then .ok { s with sym := POUND }
  else if s.ch = 38 then .ok { s with sym := AND }
  else if s.ch = 42 then .ok { s with sym := MULT }
  else if s.ch = 44 then .ok { s with sym := COMMA }
  else if s.ch = 59 then .ok { s with sym := SEMIC }
  else if s.ch = 91 then .ok { s with sym := LBRAC }
  else if s.ch = 93 then .ok { s with sym := RBRAC }
  else if s.ch = 124 then .ok { s with sym := PIPE }
  else if s.ch = 60 then doubleToken c LT LE 61 s
  else if s.ch = 62 then doubleToken c GT GE 61 s
  else if s.ch = 58 then doubleToken c COLON ASSGN 61 s
  else if s.ch = 46 then doubleToken c PER DOTDOT 46 s
  else if s.ch = 40 then
    match readLine s s.lineBuffPtr with
    | .error e => .error e
    | .ok v =>
      if v ≠ 42 then .ok { s with sym := LPAREN }
      else commentLoop (inComment c fuel) fuel { s with sym := -1 }
  else if s.ch = 41 then .ok { s with sym := RPAREN }
  else if c.ERROR_HANDLING then scanWarning 0 { s with sym := UNKNOWN }
  else .error (.scanError 0)

/-- Source lines 154-231, `getMiscToken`. -/
def getMiscToken (c : Config) (fuel : Nat) (s : State) : Except Err State :=
  match miscSwitch c fuel s with
  | .error e => .error e
  | .ok s1 =>
    match nextChar c s1 with
    | .error e => .error e
    | .ok s2 => .ok (writeVar c s2 s2.varBuffPtr 0)

/-- The last statement of `nextSym` (source lines 72-73): with output enabled the name
`symbols[sym]` is read. -/
def printSym (s : State) : Except Err State :=
  if s.enable_output then
    if 0 ≤ s.sym ∧ s.sym < NUM_SYMBOLS then .ok s else .error (.symbolsRead s.sym)
  else .ok s

/-- Source lines 49-74, `nextSym`; `fuel` bounds the calls of `nextSym` and the lines
read. -/
def nextSym (c : Config) : Nat → State → Except Err State
  | 0, _ => .error .outOfFuel
  | fuel + 1, s =>
    match whileLoop (fun s => s.ch = 0 && !s.EOFflag) (newLine c) fuel
        { s with varBuffPtr := 0 } with
    | .error e => .error e
    | .ok s1 =>
      match (if isAlpha s1.ch then getAlphaToken c s1
             else if isDigit s1.ch then getDigitToken c s1
             else getMiscToken c fuel s1) with
      | .error e => .error e
      | .ok s2 =>
        match skipSep c { s2 with prevLinePtr := s2.lineBuffPtr } with
        | .error e => .error e
        | .ok s3 =>
          if s3.sym = -1 ∧ s3.EOFflag = false then nextSym c fuel s3
          else printSym s3

/-- The loop of `main` (source lines 581-582). -/
def mainLoop (c : Config) (fuel : Nat) (s : State) : Except Err State :=
  whileLoop (fun s => !s.EOFflag || s.endOfLine + 1 ≠ (s.lineBuffPtr : Int))
    (nextSym c fuel) fuel s

/-! ## Shapes of lexemes -/

/-- A letter followed by letters and digits: the spellings `getAlphaToken` can collect. -/
def isIdentShape : List Nat → Bool
  | [] => false
  | a :: t => isAlpha a && t.all (fun b => isAlpha b || isDigit b)

/-- The memory region after the bytes of `run` are stored from index `i` on. -/
def writeRun : List Nat → Nat → List Nat → List Nat
  | l, _, [] => l
  | l, i, a :: r => writeRun (setPad l i a) (i + 1) r

/-- The record of out-of-range writes after a store at each of the indices `i`,
`i + 1`, ..., `i + n - 1`. -/
def overrunRun (c : Config) : List Nat → Nat → Nat → List Nat
  | o, _, 0 => o
  | o, i, n + 1 => overrunRun c (if i < c.MAX_VAR_LEN then o else i :: o) (i + 1) n

/-- The state after `nextChar` has consumed the characters `run` and stopped with `x`
as the current character. -/
def scanned (c : Config) (s : State) (run : List Nat) (x : Nat) : State :=
  { s with
    varBuffer := writeRun s.varBuffer s.varBuffPtr run
    overrun := overrunRun c s.overrun s.varBuffPtr run.length
    varBuffPtr := s.varBuffPtr + run.length
    ch := x
    lineBuffPtr := s.lineBuffPtr + run.length }

/-- The state after `n` characters were passed over without being stored, with `x` the
current character. -/
def skipped (s : State) (n : Nat) (x : Nat) : State :=
  { s with ch := x, lineBuffPtr := s.lineBuffPtr + n }

/-- The characters from the current one to the end of the line buffer. -/
def pending (s : State) : List Nat := s.ch :: s.lineBuffer.drop s.lineBuffPtr

/-- The line buffer after `setLineBuffer` stored the characters `line` from index `i` on
and the terminating NUL after them. -/
def storeLine : List Nat → Nat → List Nat → List Nat
  | l, i, [] => l.set i 0
  | l, i, a :: r => storeLine (l.set i a) (i + 1) r

/-- The state in which `setLineBuffer` returns after reading `line` and its newline,
`rest` being the input that follows. -/
def lineRead (s : State) (i : Nat) (line rest : List Nat) : State :=
  { s with
    lineBuffer := storeLine s.lineBuffer i line
    EOFflag := if (getc rest).1 = 255 then true else s.EOFflag
    file := if (getc rest).1 = 255 then (getc rest).2 else rest }

/-- The state in which `newLine` returns after reading `line` and its newline. -/
def afterNewLine (s : State) (line rest : List Nat) : State :=
  { lineRead s 0 line rest with
    endOfLine := (line.length : Int)
    curLine := s.curLine + 1
    ch := (line.dropWhile isSep).headD 0
    lineBuffPtr := (line.takeWhile isSep).length + 1 }

/-- The state in which `getAlphaToken` returns after collecting the spelling `run`, with
`x` the character that follows it. -/
def alphaDone (c : Config) (s : State) (run : List Nat) (x : Nat) : State :=
  { writeVar c (scanned c s run x) (s.varBuffPtr + run.length) 0 with
    sym := checkResWord (cstr run) }

/-- The state in which `getDigitToken` returns after passing over `k` leading zeros and
storing the lexeme `lex`, with `w` the character that follows the numeral. -/
def digitDone (c : Config) (s : State) (k : Nat) (lex : List Nat) (w : Nat) : State :=
  { writeVar c (skipped (scanned c s lex w) k w) (s.varBuffPtr + lex.length) 0 with
    sym := Integer }

/-- The state in which `getMiscToken` returns after a token of kind `t` with lexeme `lex`,
`w` being the character that follows it. -/
def miscDone (c : Config) (s : State) (t : Int) (lex : List Nat) (w : Nat) : State :=
  writeVar c (scanned c { s with sym := t } lex w) (s.varBuffPtr + lex.length) 0

/-- The two-character operators: first character, kind of the one-character token,
kind of the two-character token, second character (source lines 194-205). -/
def doubleTokens : List (Nat × Int × Int × Nat) :=
  [(60, LT, LE, 61), (62, GT, GE, 61), (58, COLON, ASSGN, 61), (46, PER, DOTDOT, 46)]

/-- The parser's use of the scanner: `n` successive calls of `nextSym`. -/
def nextSymTimes (c : Config) (fuel : Nat) : Nat → State → Except Err State
  | 0, s => .ok s
  | n + 1, s =>
    match nextSym c fuel s with
    | .ok s1 => nextSymTimes c fuel n s1
    | .error e => .error e

/-- The part of the state that only the comment directive and the token functions
change: `sym` and `enable_output` agree in the two states. -/
def sameMode (s s1 : State) : Prop :=
  s1.sym = s.sym ∧ s1.enable_output = s.enable_output

/-- A real token kind: an index into `symbols`, as opposed to the in-comment value -1. -/
def realKind (k : Int) : Prop := 0 ≤ k ∧ k ≤ 52

/-- The value of `enable_output` after the directive check at a comment opening whose
star is at the cursor (`checkDirective`, source lines 250-266). -/
def directiveValue (s : State) : Bool :=
  if readLine s (s.lineBuffPtr + 1) = .ok 115 ∧ readLine s (s.lineBuffPtr + 2) = .ok 43 then true
  else if readLine s (s.lineBuffPtr + 1) = .ok 115 ∧ readLine s (s.lineBuffPtr + 2) = .ok 45
    then false
  else s.enable_output

/-- The state a run returned, or `d` when it ended in an error. -/
def resultOr (r : Except Err State) (d : State) : State :=
  match r with
  | .ok t => t
  | .error _ => d

/-- Specification of comment skipping by nesting depth: the text that follows the close
marker matching a comment already opened, `d` being the number of comments opened inside
it and not yet closed; `none` when the line ends first.  The markers `(*` and `*)` are
read left to right. -/
def afterCommentSpec : Nat → List Nat → Option (List Nat)
  | _, [] => none
  | d, [_] => match d with
    | _ => none
  | d, a :: b :: rest =>
    if a = 42 ∧ b = 41 then (if d = 0 then some rest else afterCommentSpec (d - 1) rest)
    else if a = 40 ∧ b = 42 then afterCommentSpec (d + 1) rest
    else afterCommentSpec d (b :: rest)

/-- State `t` has the same line buffer as `s`, its cursor `k` positions further, and `x`
as current character. -/
def cursorAt (s t : State) (k x : Nat) : Prop :=
  t.ch = x ∧ t.lineBuffer = s.lineBuffer ∧ t.lineBuffPtr = s.lineBuffPtr + k

/-- The one-character tokens of `getMiscToken` other than `(`: character and kind
(source lines 158-193 and 218-220). -/
def singleTokens : List (Nat × Int) :=
  [(43, PLUS), (45, MINUS), (126, TILDE), (61, EQUAL), (35, POUND), (38, AND), (42, MULT),
   (44, COMMA), (59, SEMIC), (91, LBRAC), (93, RBRAC), (124, PIPE), (41, RPAREN)]

/-- The sum `iVal` that `hash` has accumulated when it reaches its `return` (source
lines 472-497), with the early returns explicit. -/
def hashSum (word : List Nat) (len : Nat) : Except HashStop Nat :=
  (if len = 2 ∨ len = 1 then .ok len else hashStep len (word.getD 2 0)) >>= fun v1 =>
  hashStep v1 (word.getD 0 0) >>= fun v2 =>
  hashStep v2 (word.getD (len - 1) 0)

/-- The state in which `getMiscToken` returns, in the build with `ERROR_HANDLING`, after
an unrecognised current character: the warning is counted and recorded, the character
is the lexeme, `w` is the character that follows. -/
def unknownDone (c : Config) (s : State) (w : Nat) : State :=
  writeVar c (scanned c
    { s with
      sym := UNKNOWN
      warningCount := s.warningCount + 1
      warnings := 0 :: s.warnings } [s.ch] w) (s.varBuffPtr + 1) 0

/-! ## Theorems

### Reserved-word lookup -/

theorem cmpWords_cstr (w r rest rest2 : List Nat) (hw : 0 ∉ w) (hr : 0 ∉ r) :
    cmpWords (w ++ 0 :: rest) (r ++ 0 :: rest2) = decide (w = r) := by
  induction w generalizing r with
  | nil =>
    cases r with
    | nil => simp [cmpWords]
    | cons b r =>
      have hb : b ≠ 0 := fun h => hr (by simp [h])
      simp [cmpWords, hb, Ne.symm hb]
  | cons a w ih =>
    have ha : a ≠ 0 := fun h => hw (by simp [h])
    have hw2 : 0 ∉ w := fun h => hw (by simp [h])
    cases r with
    | nil => simp [cmpWords, ha]
    | cons b r =>
      have hr2 : 0 ∉ r := fun h => hr (by simp [h])
      by_cases hab : a = b
      · subst hab
        simp [cmpWords, ha, ih r hw2 hr2]
      · simp [cmpWords, ha, hab]

theorem cmpWords_word (w r rest : List Nat) (hw : 0 ∉ w) (hr : 0 ∉ r) :
    cmpWords (w ++ 0 :: rest) (cstr r) = decide (w = r) := by
  have h := cmpWords_cstr w r rest [] hw hr
  simpa [cstr] using h

theorem checkResWordLoop_rest (w rest : List Nat) (hw : 0 ∉ w) :
    ∀ (ws : List (List Nat)) (i : Nat), (∀ r ∈ ws, 0 ∉ r) →
      checkResWordLoop (w ++ 0 :: rest) ws i = checkResWordLoop (cstr w) ws i := by
  intro ws
  induction ws with
  | nil => intro i _; simp [checkResWordLoop]
  | cons r ws ih =>
    intro i hws
    have hr : 0 ∉ r := hws r (by simp)
    have h2 : cmpWords (cstr w) (cstr r) = decide (w = r) := cmpWords_word w r [] hw hr
    rw [checkResWordLoop, checkResWordLoop, cmpWords_word w r rest hw hr, h2,
      ih (i + 1) (fun r hr => hws r (by simp [hr]))]

theorem checkResWordLoop_miss (w rest : List Nat) (hw : 0 ∉ w) :
    ∀ (ws : List (List Nat)) (i : Nat), (∀ r ∈ ws, 0 ∉ r) → w ∉ ws →
      checkResWordLoop (w ++ 0 :: rest) ws i = Ident := by
  intro ws
  induction ws with
  | nil => intro i _ _; simp [checkResWordLoop]
  | cons r ws ih =>
    intro i hws hmem
    have hr : 0 ∉ r := hws r (by simp)
    have hwr : ¬ w = r := fun h => hmem (by simp [h])
    have hm : w ∉ ws := fun h => hmem (by simp [h])
    rw [checkResWordLoop, cmpWords_word w r rest hw hr,
      ih (i + 1) (fun r hr => hws r (by simp [hr])) hm]
    simp [hwr]

theorem resWrds_no_nul : ∀ r ∈ resWrds, 0 ∉ r := by decide

/-- A step of `hash` that does not continue returns 0: it never reads outside
`hashVals`. -/
theorem hashStep_error (iVal ch : Nat) (e : HashStop) (h : hashStep iVal ch = .error e) :
    e = .ret 0 := by
  unfold hashStep at h
  by_cases hgt : hashTemp ch > NUM_HASH_VALS
  · rw [if_pos hgt] at h
    cases h; rfl
  · rw [if_neg hgt] at h
    have hlt : hashTemp ch < hashVals.length := by
      have h25 : hashVals.length = 25 := by decide
      have h24 : NUM_HASH_VALS = 24 := rfl
      omega
    rw [List.getElem?_eq_getElem hlt] at h
    cases h

theorem bind_eq_error {ε α β : Type} (x : Except ε α) (f : α → Except ε β) (e : ε)
    (h : (x >>= f) = .error e) : x = .error e ∨ ∃ v, x = .ok v ∧ f v = .error e := by
  cases x with
  | error e1 => left; simpa [bind, Except.bind] using h
  | ok v => right; exact ⟨v, rfl, by simpa [bind, Except.bind] using h⟩

theorem bind_eq_ok {ε α β : Type} (x : Except ε α) (f : α → Except ε β) (r : β)
    (h : (x >>= f) = .ok r) : ∃ v, x = .ok v ∧ f v = .ok r := by
  cases x with
  | error e1 => simp [bind, Except.bind] at h
  | ok v => exact ⟨v, rfl, by simpa [bind, Except.bind] using h⟩

theorem hashBody_error (word : List Nat) (len : Nat) (e : HashStop)
    (h : hashBody word len = .error e) : e = .ret 0 := by
  unfold hashBody at h
  rcases bind_eq_error _ _ _ h with h1 | ⟨v1, -, h⟩
  · by_cases hl : len = 2 ∨ len = 1
    · rw [if_pos hl] at h1; cases h1
    · rw [if_neg hl] at h1; exact hashStep_error _ _ _ h1
  · rcases bind_eq_error _ _ _ h with h2 | ⟨v2, -, h⟩
    · exact hashStep_error _ _ _ h2
    · rcases bind_eq_error _ _ _ h with h3 | ⟨v3, -, h⟩
      · exact hashStep_error _ _ _ h3
      · cases h

theorem hash_ok (word : List Nat) (len : Nat) : ∃ key, hash word len = .ok key := by
  unfold hash
  cases h : hashBody word len with
  | ok v => exact ⟨v, rfl⟩
  | error e =>
    have := hashBody_error word len e h
    subst this
    exact ⟨0, rfl⟩

theorem getD_append_left (w x : List Nat) (i : Nat) (h : i < w.length) :
    (w ++ x).getD i 0 = w.getD i 0 := by
  simp [List.getD, List.getElem?_append_left h]

theorem hashBody_rest (w rest : List Nat) (h2 : 2 ≤ w.length) :
    hashBody (w ++ 0 :: rest) w.length = hashBody (cstr w) w.length := by
  unfold hashBody cstr
  rw [getD_append_left w _ 0 (by omega), getD_append_left w _ 0 (by omega),
    getD_append_left w _ (w.length - 1) (by omega),
    getD_append_left w _ (w.length - 1) (by omega)]
  by_cases hl : w.length = 2 ∨ w.length = 1
  · rw [if_pos hl, if_pos hl]
  · rw [if_neg hl, if_neg hl, getD_append_left w _ 2 (by omega),
      getD_append_left w _ 2 (by omega)]

theorem hash_rest (w rest : List Nat) (h2 : 2 ≤ w.length) :
    hash (w ++ 0 :: rest) w.length = hash (cstr w) w.length := by
  unfold hash
  rw [hashBody_rest w rest h2]

/-- The confirmation comparison of the hash lookup succeeds exactly on the entry's own
spelling. -/
theorem confirm_iff (w rest name : List Nat) (hw : 0 ∉ w) (hn : 0 ∉ name) (hne : name ≠ [])
    (hwne : w ≠ []) :
    ((w ++ 0 :: rest).getD 0 0 = (cstr name).getD 0 0
      ∧ cmpWords ((w ++ 0 :: rest).drop 1) ((cstr name).drop 1) = true) ↔ w = name := by
  cases w with
  | nil => exact absurd rfl hwne
  | cons a t =>
    cases name with
    | nil => exact absurd rfl hne
    | cons b u =>
      have ht : 0 ∉ t := fun h => hw (by simp [h])
      have hu : 0 ∉ u := fun h => hn (by simp [h])
      have hc := cmpWords_cstr t u rest [] ht hu
      simp only [cstr, List.cons_append, List.getD_cons_zero, List.drop_succ_cons, List.drop_zero,
        hc, decide_eq_true_eq, List.cons.injEq]

theorem wordlist_names : ∀ e ∈ wordlist, 0 ∉ e.name ∧ e.name ≠ [] ∧ e.name ∈ resWrds := by
  decide

theorem wordlist_length : wordlist.length = 28 := by decide

/-- The hash lookup never fails, and what it finds is an entry of `wordlist` spelled
like the word. -/
theorem checkResWordHash_spec (w rest : List Nat) (hw : 0 ∉ w) :
    checkResWordHash (w ++ 0 :: rest) w.length = .ok none ∨
      ∃ e, e ∈ wordlist ∧ e.name = w ∧
        checkResWordHash (w ++ 0 :: rest) w.length = .ok (some e) := by
  unfold checkResWordHash
  by_cases hlen : w.length ≤ MAX_WORD_LEN ∧ w.length ≥ MIN_WORD_LEN
  · rw [if_pos hlen]
    have h2 : 2 ≤ w.length := hlen.2
    have hwne : w ≠ [] := by intro h; rw [h] at h2; simp at h2
    obtain ⟨key, hkey⟩ := hash_ok (w ++ 0 :: rest) w.length
    rw [hkey]
    by_cases hk : key ≤ MAX_HASH_VALUE
    · have hlt : key < wordlist.length := by
        rw [wordlist_length]; simp only [MAX_HASH_VALUE] at hk; omega
      simp only [if_pos hk, List.getElem?_eq_getElem hlt]
      have hmem : wordlist[key] ∈ wordlist := List.getElem_mem hlt
      obtain ⟨hn, hne, -⟩ := wordlist_names _ hmem
      have hiff := confirm_iff w rest wordlist[key].name hw hn hne hwne
      by_cases hc : w = wordlist[key].name
      · right
        refine ⟨wordlist[key], hmem, hc.symm, ?_⟩
        rw [if_pos (hiff.mpr hc)]
      · left
        rw [if_neg (fun h => hc (hiff.mp h))]
    · left
      simp only [if_neg hk]
  · left
    rw [if_neg hlen]

theorem checkResWordHash_rest (w rest : List Nat) (hw : 0 ∉ w) :
    checkResWordHash (w ++ 0 :: rest) w.length = checkResWordHash (cstr w) w.length := by
  have key : ∀ r1 r2 : List Nat, ∀ o,
      checkResWordHash (w ++ 0 :: r1) w.length = .ok o →
      checkResWordHash (w ++ 0 :: r2) w.length = .ok o := by
    intro r1 r2 o h
    unfold checkResWordHash at h ⊢
    by_cases hlen : w.length ≤ MAX_WORD_LEN ∧ w.length ≥ MIN_WORD_LEN
    · rw [if_pos hlen] at h ⊢
      have h2 : 2 ≤ w.length := hlen.2
      have hwne : w ≠ [] := by intro h; rw [h] at h2; simp at h2
      rw [hash_rest w r1 h2] at h
      rw [hash_rest w r2 h2]
      obtain ⟨key, hkey⟩ := hash_ok (cstr w) w.length
      rw [hkey] at h ⊢
      by_cases hk : key ≤ MAX_HASH_VALUE
      · have hlt : key < wordlist.length := by
          rw [wordlist_length]; simp only [MAX_HASH_VALUE] at hk; omega
        simp only [if_pos hk, List.getElem?_eq_getElem hlt] at h ⊢
        have hmem : wordlist[key] ∈ wordlist := List.getElem_mem hlt
        obtain ⟨hn, hne, -⟩ := wordlist_names _ hmem
        have hiff1 := confirm_iff w r1 wordlist[key].name hw hn hne hwne
        have hiff2 := confirm_iff w r2 wordlist[key].name hw hn hne hwne
        by_cases hc : w = wordlist[key].name
        · rw [if_pos (hiff1.mpr hc)] at h
          rw [if_pos (hiff2.mpr hc)]
          exact h
        · rw [if_neg (fun h => hc (hiff1.mp h))] at h
          rw [if_neg (fun h => hc (hiff2.mp h))]
          exact h
      · simp only [if_neg hk] at h ⊢
        exact h
    · rw [if_neg hlen] at h ⊢
      exact h
  rcases checkResWordHash_spec w rest hw with h | ⟨e, -, -, h⟩
  · rw [h]; exact (key rest [] _ h).symm
  · rw [h]; exact (key rest [] _ h).symm

theorem identShape_no_nul (w : List Nat) (h : isIdentShape w = true) : 0 ∉ w := by
  cases w with
  | nil => simp
  | cons a t =>
    simp only [isIdentShape, Bool.and_eq_true, List.all_eq_true] at h
    intro h0
    rcases List.mem_cons.mp h0 with h1 | h1
    · have := h.1; rw [← h1] at this; simp [isAlpha] at this
    · have := h.2 0 h1; simp [isAlpha, isDigit] at this

theorem resWrds_lookup_table :
    ∀ i : Fin 28, checkResWord (cstr (resWrds.getD i [])) = (i.val : Int)
      ∧ checkResWordHash (cstr (resWrds.getD i [])) (resWrds.getD i []).length
          = .ok (some ⟨resWrds.getD i [], (i.val : Int)⟩) := by
  decide

/-- C1: on each of the 28 reserved words the linear and the hash lookup give the same
token kind, the word's index in `resWrds`; on every other spelling made of a letter
followed by letters and digits the linear lookup gives `Ident` and the hash lookup the
null pointer. -/
theorem lookup_strategies_agree :
    (∀ (i : Nat) (hi : i < resWrds.length) (rest : List Nat),
      checkResWord (resWrds[i] ++ 0 :: rest) = (i : Int)
        ∧ checkResWordHash (resWrds[i] ++ 0 :: rest) resWrds[i].length
            = .ok (some ⟨resWrds[i], (i : Int)⟩))
    ∧ (∀ (w rest : List Nat), isIdentShape w = true → w ∉ resWrds →
      checkResWord (w ++ 0 :: rest) = Ident
        ∧ checkResWordHash (w ++ 0 :: rest) w.length = .ok none) := by
  constructor
  · intro i hi rest
    have hmem : resWrds[i] ∈ resWrds := List.getElem_mem hi
    have hz : 0 ∉ resWrds[i] := resWrds_no_nul _ hmem
    have h28 : i < 28 := hi
    have hget : resWrds.getD i [] = resWrds[i] := by
      simp [List.getD, List.getElem?_eq_getElem hi]
    have ht := resWrds_lookup_table ⟨i, h28⟩
    simp only [hget] at ht
    constructor
    · unfold checkResWord
      rw [checkResWordLoop_rest _ rest hz resWrds 0 resWrds_no_nul]
      exact ht.1
    · rw [checkResWordHash_rest _ rest hz]
      exact ht.2
  · intro w rest hshape hmem
    have hz : 0 ∉ w := identShape_no_nul w hshape
    constructor
    · exact checkResWordLoop_miss w rest hz resWrds 0 resWrds_no_nul hmem
    · rcases checkResWordHash_spec w rest hz with h | ⟨e, he, hname, -⟩
      · exact h
      · exact absurd (hname ▸ (wordlist_names e he).2.2) hmem

theorem lookup_strategies_agree_witness :
    (checkResWord ([69, 78, 68] ++ 0 :: [88]) = 2
      ∧ checkResWordHash ([69, 78, 68] ++ 0 :: [88]) 3 = .ok (some ⟨[69, 78, 68], 2⟩))
    ∧ (checkResWord ([120, 49] ++ 0 :: [88]) = Ident
      ∧ checkResWordHash ([120, 49] ++ 0 :: [88]) 2 = .ok none) :=
  ⟨lookup_strategies_agree.1 2 (by decide) [88],
   lookup_strategies_agree.2 [120, 49] [88] (by decide) (by decide)⟩

theorem readLine_of_drop (s : State) (i x : Nat) (rest : List Nat)
    (h : s.lineBuffer.drop i = x :: rest) : readLine s i = .ok x := by
  have hlt : i < s.lineBuffer.length := by
    by_contra hge
    rw [List.drop_eq_nil_of_le (by omega)] at h
    cases h
  have hx : s.lineBuffer[i] = x := by
    have := List.drop_eq_getElem_cons hlt
    rw [h] at this
    exact (List.cons.inj this).1.symm
  unfold readLine
  rw [List.getElem?_eq_getElem hlt, hx]

theorem drop_succ_of_drop (l : List Nat) (i x : Nat) (rest : List Nat)
    (h : l.drop i = x :: rest) : l.drop (i + 1) = rest := by
  have : l.drop (i + 1) = (l.drop i).drop 1 := by rw [List.drop_drop, Nat.add_comm]
  rw [this, h]; rfl

theorem fetch_of_drop (s : State) (x : Nat) (rest : List Nat)
    (h : s.lineBuffer.drop s.lineBuffPtr = x :: rest) :
    fetch s = .ok { s with ch := x, lineBuffPtr := s.lineBuffPtr + 1 } := by
  unfold fetch
  rw [readLine_of_drop s _ x rest h]

theorem nextChar_of_drop (c : Config) (s : State) (x : Nat) (rest : List Nat)
    (h : s.lineBuffer.drop s.lineBuffPtr = x :: rest) :
    nextChar c s = .ok (scanned c s [s.ch] x) := by
  unfold nextChar
  have h2 : (storeCh c s).lineBuffer.drop (storeCh c s).lineBuffPtr = x :: rest := h
  rw [fetch_of_drop _ x rest h2]
  rfl

theorem scanned_nil (c : Config) (s : State) : scanned c s [] s.ch = s := by
  cases s; rfl

theorem scanned_cons (c : Config) (s : State) (a y x : Nat) (r : List Nat) (ha : s.ch = a) :
    scanned c (scanned c s [s.ch] y) r x = scanned c s (a :: r) x := by
  subst ha
  cases s
  simp only [scanned, writeRun, overrunRun, List.length_cons, List.length_nil,
    State.mk.injEq, true_and, and_true]
  omega

/-- The loop `while (p(ch)) nextChar();` over a run of characters satisfying `p`. -/
theorem whileLoop_nextChar (c : Config) (p : Nat → Bool) :
    ∀ (run : List Nat) (s : State) (x : Nat) (rest : List Nat) (fuel : Nat),
      (∀ a ∈ run, p a = true) → p x = false → pending s = run ++ x :: rest →
      run.length ≤ fuel →
      whileLoop (fun s => p s.ch) (nextChar c) fuel s = .ok (scanned c s run x) := by
  intro run
  induction run with
  | nil =>
    intro s x rest fuel _ hx hp _
    simp only [pending, List.nil_append, List.cons.injEq] at hp
    have hc : p s.ch = false := by rw [hp.1]; exact hx
    rw [← hp.1, scanned_nil]
    cases fuel <;> simp [whileLoop, hc]
  | cons a r ih =>
    intro s x rest fuel hall hx hp hfuel
    simp only [pending, List.cons_append, List.cons.injEq] at hp
    obtain ⟨hch, hdrop⟩ := hp
    have hc : p s.ch = true := by rw [hch]; exact hall a (by simp)
    cases fuel with
    | zero => simp at hfuel
    | succ n =>
      obtain ⟨y, rest2, hy⟩ : ∃ y rest2, r ++ x :: rest = y :: rest2 := by
        cases r with
        | nil => exact ⟨x, rest, rfl⟩
        | cons b r2 => exact ⟨b, r2 ++ x :: rest, rfl⟩
      have hn := nextChar_of_drop c s y rest2 (hdrop.trans hy)
      have hp2 : pending (scanned c s [s.ch] y) = r ++ x :: rest := by
        simp only [pending, scanned, List.length_cons, List.length_nil]
        rw [hy, drop_succ_of_drop _ _ y rest2 (hdrop.trans hy)]
      have := ih (scanned c s [s.ch] y) x rest n (fun b hb => hall b (by simp [hb])) hx hp2
        (by simpa using hfuel)
      simp only [whileLoop, hc, if_true, hn, this]
      rw [scanned_cons c s a y x r hch]

theorem skipped_zero (s : State) : skipped s 0 s.ch = s := by
  cases s; rfl

theorem skipped_succ (s : State) (y x n : Nat) :
    skipped (skipped s 1 y) n x = skipped s (n + 1) x := by
  cases s
  simp only [skipped, State.mk.injEq, true_and, and_true]
  omega

/-- The loop `while (p(ch)) ch = lineBuffer[lineBuffPtr++];` over a run of characters
satisfying `p`. -/
theorem whileLoop_fetch (p : Nat → Bool) :
    ∀ (run : List Nat) (s : State) (x : Nat) (rest : List Nat) (fuel : Nat),
      (∀ a ∈ run, p a = true) → p x = false → pending s = run ++ x :: rest →
      run.length ≤ fuel →
      whileLoop (fun s => p s.ch) fetch fuel s = .ok (skipped s run.length x) := by
  intro run
  induction run with
  | nil =>
    intro s x rest fuel _ hx hp _
    simp only [pending, List.nil_append, List.cons.injEq] at hp
    have hc : p s.ch = false := by rw [hp.1]; exact hx
    rw [← hp.1, List.length_nil, skipped_zero]
    cases fuel <;> simp [whileLoop, hc]
  | cons a r ih =>
    intro s x rest fuel hall hx hp hfuel
    simp only [pending, List.cons_append, List.cons.injEq] at hp
    obtain ⟨hch, hdrop⟩ := hp
    have hc : p s.ch = true := by rw [hch]; exact hall a (by simp)
    cases fuel with
    | zero => simp at hfuel
    | succ n =>
      obtain ⟨y, rest2, hy⟩ : ∃ y rest2, r ++ x :: rest = y :: rest2 := by
        cases r with
        | nil => exact ⟨x, rest, rfl⟩
        | cons b r2 => exact ⟨b, r2 ++ x :: rest, rfl⟩
      have hn : fetch s = .ok (skipped s 1 y) := fetch_of_drop s y rest2 (hdrop.trans hy)
      have hp2 : pending (skipped s 1 y) = r ++ x :: rest := by
        simp only [pending, skipped]
        rw [hy, drop_succ_of_drop _ _ y rest2 (hdrop.trans hy)]
      have := ih (skipped s 1 y) x rest n (fun b hb => hall b (by simp [hb])) hx hp2
        (by simpa using hfuel)
      simp only [whileLoop, hc, if_true, hn, this]
      rw [skipped_succ, List.length_cons]

/-- A run that lies in the line buffer is no longer than the buffer. -/
theorem pending_run_length (s : State) (run : List Nat) (x : Nat) (rest : List Nat)
    (hp : pending s = run ++ x :: rest) : run.length ≤ s.lineBuffer.length := by
  have h := congrArg List.length hp
  simp only [pending, List.length_cons, List.length_append, List.length_drop] at h
  omega

theorem setPad_of_le (l : List Nat) (i v : Nat) (h : i ≤ l.length) :
    setPad l i v = l.take i ++ v :: l.drop (i + 1) := by
  unfold setPad
  by_cases hlt : i < l.length
  · rw [if_pos hlt, List.set_eq_take_append_cons_drop, if_pos hlt]
  · have he : i = l.length := by omega
    subst he
    simp

theorem setPad_length (l : List Nat) (i v : Nat) : i + 1 ≤ (setPad l i v).length := by
  unfold setPad
  by_cases hlt : i < l.length
  · rw [if_pos hlt, List.length_set]; omega
  · rw [if_neg hlt]; simp; omega

theorem writeRun_of_le : ∀ (run : List Nat) (l : List Nat) (i : Nat), i ≤ l.length →
    writeRun l i run = l.take i ++ run ++ l.drop (i + run.length) := by
  intro run
  induction run with
  | nil => intro l i _; simp [writeRun]
  | cons a r ih =>
    intro l i h
    rw [writeRun, ih _ _ (setPad_length l i a), setPad_of_le l i a h]
    have h1 : (l.take i ++ a :: l.drop (i + 1)).take (i + 1) = l.take i ++ [a] := by
      rw [List.take_append_eq_append_take]
      simp [List.length_take, Nat.min_eq_left h]
    have h2 : (l.take i ++ a :: l.drop (i + 1)).drop (i + 1 + r.length)
        = l.drop (i + (r.length + 1)) := by
      rw [List.drop_append_eq_append_drop]
      simp only [List.length_take, Nat.min_eq_left h]
      rw [List.drop_eq_nil_of_le (by simp [List.length_take]; omega)]
      have : i + 1 + r.length - i = r.length + 1 := by omega
      rw [this]
      simp only [List.nil_append, List.drop_succ_cons, List.drop_drop]
      congr 1; omega
    rw [h1, h2]
    simp

theorem overrunRun_fits (c : Config) : ∀ (n : Nat) (o : List Nat) (i : Nat),
    i + n ≤ c.MAX_VAR_LEN → overrunRun c o i n = o := by
  intro n
  induction n with
  | zero => intro o i _; rfl
  | succ n ih =>
    intro o i h
    rw [overrunRun, if_pos (by omega), ih o (i + 1) (by omega)]

theorem getc_cons (x : Nat) (r : List Nat) : getc (x :: r) = (x, r) := rfl

theorem setLineBufferLoop_line : ∀ (line : List Nat) (n i : Nat) (s : State) (rest : List Nat),
    10 ∉ line → s.file = line ++ 10 :: rest → line.length < n →
    setLineBufferLoop n i s = (((i + line.length : Nat) : Int), lineRead s i line rest) := by
  intro line
  induction line with
  | nil =>
    intro n i s rest _ hf hn
    cases n with
    | zero => simp at hn
    | succ n =>
      simp only [List.nil_append] at hf
      simp only [setLineBufferLoop, hf, getc_cons, if_true, List.length_nil, Nat.add_zero]
      by_cases h : (getc rest).1 = 255
      · rw [if_pos h]
        cases s
        simp [lineRead, storeLine, h]
      · rw [if_neg h]
        cases s
        simp [lineRead, storeLine, h]
  | cons a l ih =>
    intro n i s rest h10 hf hn
    cases n with
    | zero => simp at hn
    | succ n =>
      have ha : a ≠ 10 := fun h => h10 (by simp [h])
      have hl : 10 ∉ l := fun h => h10 (by simp [h])
      simp only [List.cons_append] at hf
      simp only [setLineBufferLoop, hf, getc_cons, ha, if_false]
      rw [ih n (i + 1) _ rest hl rfl (by simpa using hn)]
      cases s
      simp only [lineRead, storeLine, List.length_cons, Prod.mk.injEq, State.mk.injEq,
        and_true, true_and]
      push_cast
      omega

theorem setLineBufferLoop_long : ∀ (n i : Nat) (s : State) (pre rest : List Nat),
    10 ∉ pre → s.file = pre ++ rest → pre.length = n →
    (setLineBufferLoop n i s).1 = -1 := by
  intro n
  induction n with
  | zero => intro i s pre rest _ _ _; rfl
  | succ n ih =>
    intro i s pre rest h10 hf hn
    cases pre with
    | nil => simp at hn
    | cons a l =>
      have ha : a ≠ 10 := fun h => h10 (by simp [h])
      have hl : 10 ∉ l := fun h => h10 (by simp [h])
      simp only [List.cons_append] at hf
      simp only [setLineBufferLoop, hf, getc_cons, ha, if_false]
      exact ih (i + 1) _ l rest hl rfl (by simpa using hn)

theorem storeLine_length : ∀ (line l : List Nat) (i : Nat),
    (storeLine l i line).length = l.length := by
  intro line
  induction line with
  | nil => intro l i; simp [storeLine]
  | cons a r ih => intro l i; rw [storeLine, ih]; simp

theorem storeLine_eq : ∀ (line l : List Nat) (i : Nat), i + line.length < l.length →
    storeLine l i line = l.take i ++ line ++ 0 :: l.drop (i + line.length + 1) := by
  intro line
  induction line with
  | nil =>
    intro l i h
    simp only [List.length_nil, Nat.add_zero] at h
    simp [storeLine, List.set_eq_take_append_cons_drop, h]
  | cons a r ih =>
    intro l i h
    simp only [List.length_cons] at h
    rw [storeLine, ih _ _ (by rw [List.length_set]; omega)]
    have hi : i < l.length := by omega
    have h1 : (l.set i a).take (i + 1) = l.take i ++ [a] := by
      rw [List.set_eq_take_append_cons_drop, if_pos hi, List.take_append_eq_append_take]
      simp [List.length_take, Nat.min_eq_left (Nat.le_of_lt hi)]
    have h2 : (l.set i a).drop (i + 1 + r.length + 1) = l.drop (i + (r.length + 1) + 1) := by
      rw [List.drop_set_of_lt a l (by omega)]
      congr 1; omega
    rw [h1, h2]
    simp

theorem setLineBuffer_line (c : Config) (s : State) (line rest : List Nat)
    (h10 : 10 ∉ line) (hf : s.file = line ++ 10 :: rest) (hfit : line.length < c.MAX_LINE_LEN) :
    setLineBuffer c s = ((line.length : Int), lineRead s 0 line rest) := by
  unfold setLineBuffer
  rw [setLineBufferLoop_line line _ 0 s rest h10 hf hfit, Nat.zero_add]

theorem setLineBuffer_long (c : Config) (s : State) (line rest : List Nat)
    (h10 : 10 ∉ line) (hf : s.file = line ++ rest) (hlong : c.MAX_LINE_LEN ≤ line.length) :
    (setLineBuffer c s).1 = -1 := by
  unfold setLineBuffer
  refine setLineBufferLoop_long _ 0 s (line.take c.MAX_LINE_LEN)
    (line.drop c.MAX_LINE_LEN ++ rest) (fun h => h10 (List.mem_of_mem_take h)) ?_ ?_
  · rw [hf, ← List.append_assoc, List.take_append_drop]
  · rw [List.length_take, Nat.min_eq_left hlong]

theorem newLine_long (c : Config) (s : State) (line rest : List Nat)
    (h10 : 10 ∉ line) (hf : s.file = line ++ rest) (hlong : c.MAX_LINE_LEN ≤ line.length) :
    newLine c s = .error (.scanError 2) := by
  unfold newLine
  simp only [setLineBuffer_long c s line rest h10 hf hlong, if_true]

theorem takeWhile_sep_split (line tail : List Nat) :
    line ++ 0 :: tail = line.takeWhile isSep
      ++ (line.dropWhile isSep).headD 0 :: ((line.dropWhile isSep).tail ++
          (if line.dropWhile isSep = [] then tail else 0 :: tail)) := by
  conv_lhs => rw [← List.takeWhile_append_dropWhile isSep line]
  cases h : line.dropWhile isSep with
  | nil => simp
  | cons x r => simp

theorem dropWhile_sep_head (line : List Nat) :
    isSep ((line.dropWhile isSep).headD 0) = false := by
  cases h : line.dropWhile isSep with
  | nil => rfl
  | cons x r =>
    have := List.head_dropWhile_not isSep line (by rw [h]; simp)
    simp only [h, List.head_cons] at this
    simpa using this

theorem line_head_split (line tail : List Nat) :
    line ++ 0 :: tail
      = line.headD 0 :: (line.tail ++ (if line = [] then tail else 0 :: tail)) := by
  cases line <;> simp

/-- Reading the first character of a line (`ch = lineBuffer[lineBuffPtr++]`). -/
theorem fetch_line (s : State) (line tail : List Nat)
    (hd : s.lineBuffer.drop s.lineBuffPtr = line ++ 0 :: tail) :
    fetch s = .ok (skipped s 1 (line.headD 0)) :=
  fetch_of_drop s _ _ (hd.trans (line_head_split line tail))

/-- Skipping the separators before the first token of a line. -/
theorem skipSep_line (c : Config) (s : State) (line tail : List Nat)
    (hlen : s.lineBuffer.length ≤ c.MAX_LINE_LEN)
    (hd : s.lineBuffer.drop s.lineBuffPtr = line ++ 0 :: tail) :
    skipSep c (skipped s 1 (line.headD 0))
      = .ok (skipped s ((line.takeWhile isSep).length + 1) ((line.dropWhile isSep).headD 0)) := by
  have hy := line_head_split line tail
  have hp : pending (skipped s 1 (line.headD 0)) = line.takeWhile isSep
      ++ (line.dropWhile isSep).headD 0 :: ((line.dropWhile isSep).tail ++
          (if line.dropWhile isSep = [] then tail else 0 :: tail)) := by
    rw [← takeWhile_sep_split]
    simp only [pending, skipped]
    rw [hy, drop_succ_of_drop _ _ _ _ (hd.trans hy)]
  have hrun := pending_run_length _ _ _ _ hp
  have hl2 : (skipped s 1 (line.headD 0)).lineBuffer.length = s.lineBuffer.length := rfl
  unfold skipSep
  rw [whileLoop_fetch isSep _ _ _ _ (lineFuel c)
    (fun a ha => (List.mem_takeWhile_imp ha)) (dropWhile_sep_head line) hp
    (by simp only [lineFuel]; omega)]
  rw [skipped_succ]

theorem newLine_line (c : Config) (s : State) (line rest : List Nat)
    (hlen : s.lineBuffer.length = c.MAX_LINE_LEN) (h10 : 10 ∉ line)
    (hf : s.file = line ++ 10 :: rest) (hfit : line.length < c.MAX_LINE_LEN) :
    newLine c s = .ok (afterNewLine s line rest) := by
  unfold newLine
  rw [setLineBuffer_line c s line rest h10 hf hfit]
  have hne : ¬ ((line.length : Int) = -1) := by omega
  simp only [hne, if_false]
  have hlen2 : (lineRead s 0 line rest).lineBuffer.length ≤ c.MAX_LINE_LEN := by
    simp only [lineRead]; rw [storeLine_length]; omega
  have hd : (lineRead s 0 line rest).lineBuffer.drop 0
      = line ++ 0 :: s.lineBuffer.drop (line.length + 1) := by
    simp only [lineRead, List.drop_zero]
    rw [storeLine_eq line s.lineBuffer 0 (by omega)]
    simp
  rw [fetch_line _ line _ hd]
  simp only
  refine (skipSep_line c _ line (s.lineBuffer.drop (line.length + 1)) ?_ ?_).trans ?_
  · exact hlen2
  · exact hd
  · simp only [skipped, afterNewLine, Nat.zero_add, Except.ok.injEq, State.mk.injEq, and_true,
      true_and]
    rfl

/-- C3 (as amended): a source line of fewer than `MAX_LINE_LEN` characters before its line
terminator, in particular one of exactly `MAX_LINE_LEN - 1`, is accepted: `setLineBuffer`
returns its length and `newLine` returns with the line and its terminating NUL in the
buffer; a line of `MAX_LINE_LEN` characters or more, in particular one of
`MAX_LINE_LEN + 1`, ends in the fatal error `scanError(2)`. -/
theorem line_length_limit (c : Config) (s : State) (line rest : List Nat)
    (hlen : s.lineBuffer.length = c.MAX_LINE_LEN) (h10 : 10 ∉ line)
    (hf : s.file = line ++ 10 :: rest) :
    (line.length < c.MAX_LINE_LEN →
      (setLineBuffer c s).1 = (line.length : Int)
        ∧ ∃ s1, newLine c s = .ok s1 ∧ s1.endOfLine = (line.length : Int)
            ∧ s1.lineBuffer.take (line.length + 1) = line ++ [0])
    ∧ (c.MAX_LINE_LEN ≤ line.length →
      (setLineBuffer c s).1 = -1 ∧ newLine c s = .error (.scanError 2)) := by
  constructor
  · intro hfit
    refine ⟨by rw [setLineBuffer_line c s line rest h10 hf hfit], afterNewLine s line rest,
      newLine_line c s line rest hlen h10 hf hfit, rfl, ?_⟩
    simp only [afterNewLine, lineRead]
    rw [storeLine_eq line s.lineBuffer 0 (by omega)]
    simp [List.take_append_eq_append_take]
  · intro hlong
    exact ⟨setLineBuffer_long c s line (10 :: rest) h10 hf hlong,
      newLine_long c s line (10 :: rest) h10 hf hlong⟩

theorem line_length_limit_witness :
    ((setLineBuffer ⟨4, 8, false, false⟩
          (initState ⟨4, 8, false, false⟩ false [97, 98, 99, 10, 120, 10])).1 = 3
        ∧ ∃ s1, newLine ⟨4, 8, false, false⟩
            (initState ⟨4, 8, false, false⟩ false [97, 98, 99, 10, 120, 10]) = .ok s1
            ∧ s1.endOfLine = 3 ∧ s1.lineBuffer.take 4 = [97, 98, 99, 0])
    ∧ ((setLineBuffer ⟨4, 8, false, false⟩
          (initState ⟨4, 8, false, false⟩ false [97, 98, 99, 100, 101, 10, 120, 10])).1 = -1
        ∧ newLine ⟨4, 8, false, false⟩
            (initState ⟨4, 8, false, false⟩ false [97, 98, 99, 100, 101, 10, 120, 10])
            = .error (.scanError 2)) :=
  ⟨(line_length_limit ⟨4, 8, false, false⟩ (initState ⟨4, 8, false, false⟩ false
      [97, 98, 99, 10, 120, 10]) [97, 98, 99] [120, 10] (by decide) (by decide)
      (by decide)).1 (by decide),
   (line_length_limit ⟨4, 8, false, false⟩ (initState ⟨4, 8, false, false⟩ false
      [97, 98, 99, 100, 101, 10, 120, 10]) [97, 98, 99, 100, 101] [120, 10] (by decide)
      (by decide) (by decide)).2 (by decide)⟩

/-- C3, counterexample: with `MAX_LINE_LEN = 4` the line `abcd` of exactly four
characters is not accepted; `setLineBuffer` returns -1 and `newLine` ends in
`scanError(2)`. -/
theorem line_of_max_length_rejected :
    (setLineBuffer ⟨4, 8, false, false⟩
        (initState ⟨4, 8, false, false⟩ false [97, 98, 99, 100, 10, 120, 10])).1 = -1
      ∧ newLine ⟨4, 8, false, false⟩
          (initState ⟨4, 8, false, false⟩ false [97, 98, 99, 100, 10, 120, 10])
          = .error (.scanError 2) := by
  decide

theorem getAlphaToken_scan (c : Config) (s : State) (run : List Nat) (x : Nat)
    (rest : List Nat) (hlen : s.lineBuffer.length ≤ c.MAX_LINE_LEN)
    (hall : ∀ a ∈ run, (isAlpha a || isDigit a) = true) (hx : (isAlpha x || isDigit x) = false)
    (hp : pending s = run ++ x :: rest) :
    getAlphaToken c s = alphaFinish c (scanned c s run x) := by
  unfold getAlphaToken
  have hrun := pending_run_length s run x rest hp
  rw [whileLoop_nextChar c (fun a => isAlpha a || isDigit a) run s x rest (lineFuel c) hall hx hp
    (by simp only [lineFuel]; omega)]

theorem lexeme_buffer (vb run : List Nat) :
    setPad (writeRun vb 0 run) run.length 0 = run ++ 0 :: vb.drop (run.length + 1) := by
  rw [writeRun_of_le run vb 0 (Nat.zero_le _)]
  simp only [List.take_zero, List.nil_append, Nat.zero_add]
  rw [setPad_of_le _ _ _ (by simp)]
  simp [List.take_append_eq_append_take, List.drop_append_eq_append_drop, Nat.add_comm]

theorem wordlist_tokens : ∀ e ∈ wordlist, checkResWord (cstr e.name) = e.token := by decide

theorem resWrds_in_wordlist : ∀ w ∈ resWrds,
    checkResWordHash (cstr w) w.length ≠ .ok none := by decide

theorem alnum_no_nul (w : List Nat) (h : ∀ a ∈ w, (isAlpha a || isDigit a) = true) :
    0 ∉ w := by
  intro h0
  have := h 0 h0
  simp [isAlpha, isDigit] at this

/-- The token kind the hash build assigns is the one the linear build assigns. -/
theorem hash_kind (w tail : List Nat) (hw : 0 ∉ w) :
    (checkResWordHash (w ++ 0 :: tail) w.length = .ok none ∧ checkResWord (cstr w) = Ident)
    ∨ ∃ e, checkResWordHash (w ++ 0 :: tail) w.length = .ok (some e)
        ∧ e.token = checkResWord (cstr w) := by
  rcases checkResWordHash_spec w tail hw with h | ⟨e, he, hname, h⟩
  · left
    refine ⟨h, ?_⟩
    by_cases hm : w ∈ resWrds
    · rw [checkResWordHash_rest w tail hw] at h
      exact absurd h (resWrds_in_wordlist w hm)
    · exact checkResWordLoop_miss w [] hw resWrds 0 resWrds_no_nul hm
  · right
    exact ⟨e, h, by rw [← hname]; exact (wordlist_tokens e he).symm⟩

theorem alphaFinish_scanned (c : Config) (s : State) (run : List Nat) (x : Nat)
    (h0 : s.varBuffPtr = 0) (hall : ∀ a ∈ run, (isAlpha a || isDigit a) = true) :
    alphaFinish c (scanned c s run x)
      = if run.length > c.MAX_VAR_LEN then .error (.scanError 3)
        else .ok (alphaDone c s run x) := by
  have hw : 0 ∉ run := alnum_no_nul run hall
  unfold alphaFinish
  have hptr : (scanned c s run x).varBuffPtr = run.length := by simp [scanned, h0]
  rw [hptr]
  by_cases hgt : run.length > c.MAX_VAR_LEN
  · rw [if_pos hgt, if_pos hgt]
  · rw [if_neg hgt, if_neg hgt]
    have hvb : (writeVar c (scanned c s run x) run.length 0).varBuffer
        = run ++ 0 :: s.varBuffer.drop (run.length + 1) := by
      simp only [writeVar, scanned, h0]
      exact lexeme_buffer s.varBuffer run
    have hvp : (writeVar c (scanned c s run x) run.length 0).varBuffPtr = run.length := hptr
    have hlin : checkResWord (run ++ 0 :: s.varBuffer.drop (run.length + 1))
        = checkResWord (cstr run) := by
      unfold checkResWord
      exact checkResWordLoop_rest run _ hw resWrds 0 resWrds_no_nul
    cases hH : c.ENABLE_HASH with
    | false =>
      simp only [Bool.false_eq_true, if_false, hlin, alphaDone, h0, Nat.zero_add, hvb, hvp]
    | true =>
      simp only [if_true, hvb, hvp]
      rcases hash_kind run (s.varBuffer.drop (run.length + 1)) hw with ⟨h1, h2⟩ | ⟨e, h1, h2⟩
      · rw [h1]
        simp only [alphaDone, h0, Nat.zero_add, h2, hvb, hvp]
      · rw [h1]
        simp only [alphaDone, h0, Nat.zero_add, h2, hvb, hvp]

theorem writeRun_append : ∀ (r1 r2 l : List Nat) (i : Nat),
    writeRun (writeRun l i r1) (i + r1.length) r2 = writeRun l i (r1 ++ r2) := by
  intro r1
  induction r1 with
  | nil => intro r2 l i; simp [writeRun]
  | cons a r ih =>
    intro r2 l i
    have e : i + (a :: r).length = i + 1 + r.length := by simp only [List.length_cons]; omega
    rw [e]
    exact ih r2 (setPad l i a) (i + 1)

theorem overrunRun_add (c : Config) : ∀ (n m : Nat) (o : List Nat) (i : Nat),
    overrunRun c (overrunRun c o i n) (i + n) m = overrunRun c o i (n + m) := by
  intro n
  induction n with
  | zero => intro m o i; simp [overrunRun]
  | succ n ih =>
    intro m o i
    have h : n + 1 + m = (n + m) + 1 := by omega
    rw [h]
    simp only [overrunRun]
    rw [← ih m _ (i + 1)]
    congr 1; omega

theorem scanned_append (c : Config) (s : State) (r1 r2 : List Nat) (y w : Nat) :
    scanned c (scanned c s r1 y) r2 w = scanned c s (r1 ++ r2) w := by
  cases s
  simp only [scanned, writeRun_append, overrunRun_add, List.length_append, State.mk.injEq,
    true_and, and_true]
  omega

theorem scanned_skipped (c : Config) (s : State) (k d : Nat) (run : List Nat) (w : Nat) :
    scanned c (skipped s k d) run w = skipped (scanned c s run w) k w := by
  cases s
  simp only [scanned, skipped, State.mk.injEq, true_and, and_true]
  omega

/-- After a run has been consumed the cursor stands on the character that follows it. -/
theorem pending_advance (s t : State) (pre : List Nat) (x : Nat) (rest : List Nat)
    (hp : pending s = pre ++ x :: rest) (hb : t.lineBuffer = s.lineBuffer)
    (hptr : t.lineBuffPtr = s.lineBuffPtr + pre.length) (hch : t.ch = x) :
    pending t = x :: rest := by
  simp only [pending, hb, hptr, hch, List.cons.injEq, true_and]
  have h : s.lineBuffer.drop s.lineBuffPtr = (pre ++ x :: rest).tail := by
    rw [← hp]; rfl
  rw [← List.drop_drop, h]
  cases pre with
  | nil => simp only [pending, List.nil_append] at hp ⊢; simp
  | cons a r => simp

theorem pending_scanned (c : Config) (s : State) (run : List Nat) (x : Nat) (rest : List Nat)
    (hp : pending s = run ++ x :: rest) : pending (scanned c s run x) = x :: rest :=
  pending_advance s _ run x rest hp rfl rfl rfl

theorem pending_skipped (s : State) (run : List Nat) (x : Nat) (rest : List Nat)
    (hp : pending s = run ++ x :: rest) : pending (skipped s run.length x) = x :: rest :=
  pending_advance s _ run x rest hp rfl rfl rfl

/-- The two loops that open `getDigitToken`: the leading zeros `zs` are passed over and
the decimal digits `ds` are stored. -/
theorem digitRun_scan (c : Config) (s : State) (zs ds : List Nat) (y : Nat) (rest : List Nat)
    (hlen : s.lineBuffer.length ≤ c.MAX_LINE_LEN)
    (hz : ∀ a ∈ zs, a = 48) (hd : ∀ a ∈ ds, isDigit a = true) (hd0 : ds.head? ≠ some 48)
    (hy : isDigit y = false) (hp : pending s = zs ++ ds ++ y :: rest) :
    digitRun c s = .ok (skipped (scanned c s ds y) zs.length y) := by
  unfold digitRun
  obtain ⟨d0, rest0, h0, hd0n⟩ : ∃ d0 rest0, ds ++ y :: rest = d0 :: rest0 ∧ d0 ≠ 48 := by
    cases ds with
    | nil =>
      refine ⟨y, rest, rfl, ?_⟩
      intro h; rw [h] at hy; simp [isDigit] at hy
    | cons b r => exact ⟨b, r ++ y :: rest, rfl, fun h => hd0 (by simp [h])⟩
  have hp1 : pending s = zs ++ d0 :: rest0 := by rw [hp, List.append_assoc, h0]
  have hrun1 := pending_run_length s zs d0 rest0 hp1
  rw [whileLoop_fetch (fun a => decide (a = 48)) zs s d0 rest0 (lineFuel c)
    (fun a ha => by simp [hz a ha]) (by simp [hd0n]) hp1 (by simp only [lineFuel]; omega)]
  simp only
  have hp2 : pending (skipped s zs.length d0) = ds ++ y :: rest := by
    rw [pending_skipped s zs d0 rest0 hp1, h0]
  have hrun2 := pending_run_length _ ds y rest hp2
  have hl : (skipped s zs.length d0).lineBuffer.length = s.lineBuffer.length := rfl
  rw [whileLoop_nextChar c isDigit ds _ y rest (lineFuel c) hd hy hp2
    (by simp only [lineFuel]; omega), scanned_skipped]

theorem nextChar_at (c : Config) (t : State) (a w : Nat) (rest : List Nat)
    (hp : pending t = a :: w :: rest) : nextChar c t = .ok (scanned c t [a] w) := by
  simp only [pending, List.cons.injEq] at hp
  rw [nextChar_of_drop c t w rest hp.2, hp.1]

/-- No hexadecimal suffix: the character after the digits is neither `A`-`F` nor `H`. -/
theorem hexSuffix_none (c : Config) (t : State) (hAF : ¬ (65 ≤ t.ch ∧ t.ch ≤ 70))
    (hH : t.ch ≠ 72) : hexSuffix c t = .ok t := by
  unfold hexSuffix
  rw [if_neg hAF, if_neg hH]

theorem digitFinish_scanned (c : Config) (s : State) (k : Nat) (lex : List Nat) (w : Nat) :
    digitFinish c (skipped (scanned c s lex w) k w)
      = if s.varBuffPtr + lex.length > c.MAX_VAR_LEN then .error (.scanError 3)
        else .ok (digitDone c s k lex w) := rfl

/-- A decimal numeral: leading zeros `zs`, digits `ds`, then a character `y` that is
neither a digit, nor `A`-`F`, nor `H`. -/
theorem getDigitToken_dec (c : Config) (s : State) (zs ds : List Nat) (y : Nat)
    (rest : List Nat) (hlen : s.lineBuffer.length ≤ c.MAX_LINE_LEN)
    (hz : ∀ a ∈ zs, a = 48) (hd : ∀ a ∈ ds, isDigit a = true) (hd0 : ds.head? ≠ some 48)
    (hy : isDigit y = false) (hAF : ¬ (65 ≤ y ∧ y ≤ 70)) (hH : y ≠ 72)
    (hp : pending s = zs ++ ds ++ y :: rest) :
    getDigitToken c s = digitFinish c (skipped (scanned c s ds y) zs.length y) := by
  unfold getDigitToken
  rw [digitRun_scan c s zs ds y rest hlen hz hd hd0 hy hp]
  simp only
  rw [hexSuffix_none c _ hAF hH]

theorem take_lexeme (lex tail : List Nat) :
    (lex ++ 0 :: tail).take (lex.length + 1) = lex ++ [0] := by
  rw [List.take_append_eq_append_take]
  simp

theorem identShape_alnum (run : List Nat) (h : isIdentShape run = true) :
    ∀ a ∈ run, (isAlpha a || isDigit a) = true := by
  cases run with
  | nil => simp
  | cons b t =>
    simp only [isIdentShape, Bool.and_eq_true, List.all_eq_true] at h
    intro a ha
    rcases List.mem_cons.mp ha with h1 | h1
    · rw [h1, h.1]; rfl
    · exact h.2 a h1

/-! ### Stores at the end of the lexeme buffer -/

theorem overrunRun_one_past (c : Config) (o : List Nat) :
    overrunRun c o 0 (c.MAX_VAR_LEN + 1) = c.MAX_VAR_LEN :: o := by
  rw [← overrunRun_add c c.MAX_VAR_LEN 1 o 0, overrunRun_fits c c.MAX_VAR_LEN o 0 (by omega)]
  simp [overrunRun]

theorem scanned_overrun (c : Config) (s : State) (run : List Nat) (x : Nat)
    (h0 : s.varBuffPtr = 0) :
    (run.length ≤ c.MAX_VAR_LEN → (scanned c s run x).overrun = s.overrun)
    ∧ (run.length = c.MAX_VAR_LEN + 1 →
        (scanned c s run x).overrun = c.MAX_VAR_LEN :: s.overrun) := by
  constructor
  · intro h
    simp only [scanned, h0]
    exact overrunRun_fits c run.length s.overrun 0 (by omega)
  · intro h
    simp only [scanned, h0, h]
    exact overrunRun_one_past c s.overrun

theorem alphaDone_overrun (c : Config) (s : State) (run : List Nat) (x : Nat)
    (h0 : s.varBuffPtr = 0) :
    (run.length < c.MAX_VAR_LEN → (alphaDone c s run x).overrun = s.overrun)
    ∧ (run.length = c.MAX_VAR_LEN →
        (alphaDone c s run x).overrun = c.MAX_VAR_LEN :: s.overrun) := by
  have hs := (scanned_overrun c s run x h0).1
  constructor
  · intro h
    show (writeVar c (scanned c s run x) (s.varBuffPtr + run.length) 0).overrun = s.overrun
    rw [h0, Nat.zero_add]
    simp only [writeVar, if_pos h]
    exact hs (by omega)
  · intro h
    show (writeVar c (scanned c s run x) (s.varBuffPtr + run.length) 0).overrun
      = c.MAX_VAR_LEN :: s.overrun
    rw [h0, Nat.zero_add]
    simp only [writeVar, h, Nat.lt_irrefl, if_false]
    rw [hs (by omega)]

theorem digitDone_overrun (c : Config) (s : State) (k : Nat) (lex : List Nat) (w : Nat)
    (h0 : s.varBuffPtr = 0) :
    (lex.length < c.MAX_VAR_LEN → (digitDone c s k lex w).overrun = s.overrun)
    ∧ (lex.length = c.MAX_VAR_LEN →
        (digitDone c s k lex w).overrun = c.MAX_VAR_LEN :: s.overrun) := by
  have hs := (scanned_overrun c s lex w h0).1
  constructor
  · intro h
    show (writeVar c (skipped (scanned c s lex w) k w) (s.varBuffPtr + lex.length) 0).overrun
      = s.overrun
    rw [h0, Nat.zero_add]
    simp only [writeVar, if_pos h]
    exact hs (by omega)
  · intro h
    show (writeVar c (skipped (scanned c s lex w) k w) (s.varBuffPtr + lex.length) 0).overrun
      = c.MAX_VAR_LEN :: s.overrun
    rw [h0, Nat.zero_add]
    simp only [writeVar, h, Nat.lt_irrefl, if_false]
    exact congrArg _ (hs (by omega))

/-- C4, the defect: `getAlphaToken` and `getDigitToken` make the check
`varBuffPtr > MAX_VAR_LEN` after their loop has stored the whole lexeme, and store the
terminator after it.  For an identifier, or a decimal numeral without leading zeros, of
`MAX_VAR_LEN + 1` characters the last character has been stored at index `MAX_VAR_LEN`,
outside `varBuffer`, when the check is made; for one of exactly `MAX_VAR_LEN` characters
the loop stays inside the array, the check passes and the terminator is stored at index
`MAX_VAR_LEN`.  (`overrun` lists the indices of the stores made outside the array.) -/
theorem lexeme_stored_before_check (c : Config) (s : State)
    (hlen : s.lineBuffer.length ≤ c.MAX_LINE_LEN) (h0 : s.varBuffPtr = 0) :
    (∀ (run : List Nat) (x : Nat) (rest : List Nat), isIdentShape run = true →
      (isAlpha x || isDigit x) = false → pending s = run ++ x :: rest →
      ∃ t, whileLoop (fun s => isAlpha s.ch || isDigit s.ch) (nextChar c) (lineFuel c) s
            = .ok t
        ∧ getAlphaToken c s = alphaFinish c t
        ∧ (run.length = c.MAX_VAR_LEN + 1 → t.overrun = c.MAX_VAR_LEN :: s.overrun)
        ∧ (run.length = c.MAX_VAR_LEN → t.overrun = s.overrun
            ∧ ∃ s1, getAlphaToken c s = .ok s1
                ∧ s1.overrun = c.MAX_VAR_LEN :: s.overrun))
    ∧ (∀ (ds : List Nat) (y : Nat) (rest : List Nat), (∀ a ∈ ds, isDigit a = true) →
      ds.head? ≠ some 48 → isDigit y = false → ¬ (65 ≤ y ∧ y ≤ 70) → y ≠ 72 →
      pending s = ds ++ y :: rest →
      ∃ t, digitRun c s = .ok t
        ∧ getDigitToken c s = digitFinish c t
        ∧ (ds.length = c.MAX_VAR_LEN + 1 → t.overrun = c.MAX_VAR_LEN :: s.overrun)
        ∧ (ds.length = c.MAX_VAR_LEN → t.overrun = s.overrun
            ∧ ∃ s1, getDigitToken c s = .ok s1
                ∧ s1.overrun = c.MAX_VAR_LEN :: s.overrun)) := by
  constructor
  · intro run x rest hshape hx hp
    have hall := identShape_alnum run hshape
    have hrun := pending_run_length s run x rest hp
    have hloop := whileLoop_nextChar c (fun a => isAlpha a || isDigit a) run s x rest
      (lineFuel c) hall hx hp (by simp only [lineFuel]; omega)
    have hso := scanned_overrun c s run x h0
    refine ⟨scanned c s run x, hloop, getAlphaToken_scan c s run x rest hlen hall hx hp,
      hso.2, ?_⟩
    intro hn
    refine ⟨hso.1 (by omega), alphaDone c s run x, ?_, (alphaDone_overrun c s run x h0).2 hn⟩
    rw [getAlphaToken_scan c s run x rest hlen hall hx hp, alphaFinish_scanned c s run x h0 hall,
      if_neg (by omega)]
  · intro ds y rest hd hd0 hy hAF hH hp
    have hp2 : pending s = ([] : List Nat) ++ ds ++ y :: rest := by simpa using hp
    have hrun := digitRun_scan c s [] ds y rest hlen (by simp) hd hd0 hy hp2
    have hdec := getDigitToken_dec c s [] ds y rest hlen (by simp) hd hd0 hy hAF hH hp2
    have hso := scanned_overrun c s ds y h0
    refine ⟨skipped (scanned c s ds y) ([] : List Nat).length y, hrun, hdec, hso.2, ?_⟩
    intro hn
    refine ⟨hso.1 (by omega), digitDone c s ([] : List Nat).length ds y, ?_,
      (digitDone_overrun c s _ ds y h0).2 hn⟩
    rw [hdec, digitFinish_scanned, h0, Nat.zero_add, if_neg (by omega)]

theorem lexeme_stored_before_check_witness :
    ∃ t, digitRun ⟨16, 8, false, false⟩
          (afterNewLine (initState ⟨16, 8, false, false⟩ false
            [49, 50, 51, 52, 53, 54, 55, 56, 57, 59, 10])
            [49, 50, 51, 52, 53, 54, 55, 56, 57, 59] []) = .ok t
      ∧ getDigitToken ⟨16, 8, false, false⟩
          (afterNewLine (initState ⟨16, 8, false, false⟩ false
            [49, 50, 51, 52, 53, 54, 55, 56, 57, 59, 10])
            [49, 50, 51, 52, 53, 54, 55, 56, 57, 59] []) = digitFinish ⟨16, 8, false, false⟩ t
      ∧ t.overrun = [8] := by
  obtain ⟨t, h1, h2, h3, -⟩ := (lexeme_stored_before_check ⟨16, 8, false, false⟩
    (afterNewLine (initState ⟨16, 8, false, false⟩ false
      [49, 50, 51, 52, 53, 54, 55, 56, 57, 59, 10])
      [49, 50, 51, 52, 53, 54, 55, 56, 57, 59] []) (by decide) (by decide)).2
    [49, 50, 51, 52, 53, 54, 55, 56, 57] 59 [0, 0, 0, 0, 0, 0] (by decide) (by decide)
    (by decide) (by decide) (by decide) (by decide)
  exact ⟨t, h1, h2, h3 (by decide)⟩

/-- C5, the defect: an identifier of exactly `MAX_VAR_LEN` characters passes the check
`varBuffPtr > MAX_VAR_LEN` of `getAlphaToken`, whose terminator is then written at index
`MAX_VAR_LEN`, one past the end of `varBuffer`. -/
theorem terminator_written_past_varBuffer (c : Config) (s : State) (run : List Nat) (x : Nat)
    (rest : List Nat) (hlen : s.lineBuffer.length ≤ c.MAX_LINE_LEN) (h0 : s.varBuffPtr = 0)
    (ho : s.overrun = []) (hshape : isIdentShape run = true)
    (hx : (isAlpha x || isDigit x) = false) (hp : pending s = run ++ x :: rest)
    (hn : run.length = c.MAX_VAR_LEN) :
    ∃ s1, getAlphaToken c s = .ok s1 ∧ s1.overrun = [c.MAX_VAR_LEN] := by
  have hall := identShape_alnum run hshape
  rw [getAlphaToken_scan c s run x rest hlen hall hx hp, alphaFinish_scanned c s run x h0 hall,
    if_neg (by omega)]
  refine ⟨_, rfl, ?_⟩
  simp only [alphaDone, writeVar, scanned, h0, ho, Nat.zero_add]
  rw [overrunRun_fits c run.length [] 0 (by omega), if_neg (by omega), hn]

theorem terminator_written_past_varBuffer_witness :
    ∃ s1, getAlphaToken ⟨16, 8, false, false⟩
        (afterNewLine (initState ⟨16, 8, false, false⟩ false
          [97, 98, 99, 100, 101, 102, 103, 104, 59, 10])
          [97, 98, 99, 100, 101, 102, 103, 104, 59] []) = .ok s1
      ∧ s1.overrun = [8] :=
  terminator_written_past_varBuffer ⟨16, 8, false, false⟩
    (afterNewLine (initState ⟨16, 8, false, false⟩ false
      [97, 98, 99, 100, 101, 102, 103, 104, 59, 10])
      [97, 98, 99, 100, 101, 102, 103, 104, 59] [])
    [97, 98, 99, 100, 101, 102, 103, 104] 59 [0, 0, 0, 0, 0, 0, 0]
    (by decide) (by decide) (by decide) (by decide) (by decide) (by decide) (by decide)

theorem miscSwitch_double (c : Config) (fuel : Nat) (s : State) (a : Nat) (t1 t2 : Int)
    (chr : Nat) (ha : (a, t1, t2, chr) ∈ doubleTokens) (hch : s.ch = a) :
    miscSwitch c fuel s = doubleToken c t1 t2 chr s := by
  simp only [doubleTokens, List.mem_cons, Prod.mk.injEq, List.mem_singleton, List.not_mem_nil,
    or_false] at ha
  rcases ha with ⟨h1, h2, h3, h4⟩ | ⟨h1, h2, h3, h4⟩ | ⟨h1, h2, h3, h4⟩ | ⟨h1, h2, h3, h4⟩ <;>
    subst h1 h2 h3 h4 <;> simp [miscSwitch, hch]

theorem miscDone_varBuffer (c : Config) (s : State) (t : Int) (lex : List Nat) (w : Nat)
    (h0 : s.varBuffPtr = 0) :
    (miscDone c s t lex w).varBuffer = lex ++ 0 :: s.varBuffer.drop (lex.length + 1) := by
  simp only [miscDone, writeVar, scanned, h0, Nat.zero_add]
  exact lexeme_buffer s.varBuffer lex

/-- `getMiscToken` when the switch stores nothing: the current character becomes the
lexeme. -/
theorem getMiscToken_single (c : Config) (fuel : Nat) (s : State) (t : Int) (a w : Nat)
    (rest : List Nat) (hsw : miscSwitch c fuel s = .ok { s with sym := t })
    (hp : pending s = a :: w :: rest) :
    getMiscToken c fuel s = .ok (miscDone c s t [a] w) := by
  unfold getMiscToken
  rw [hsw]
  simp only
  rw [nextChar_at c { s with sym := t } a w rest hp]
  rfl

/-- A two-character operator: the first character followed by its expected follower. -/
theorem getMiscToken_double (c : Config) (fuel : Nat) (s : State) (a : Nat) (t1 t2 : Int)
    (chr w : Nat) (rest : List Nat) (ha : (a, t1, t2, chr) ∈ doubleTokens)
    (hp : pending s = a :: chr :: w :: rest) :
    getMiscToken c fuel s = .ok (miscDone c s t2 [a, chr] w) := by
  have hch : s.ch = a := by simp only [pending, List.cons.injEq] at hp; exact hp.1
  have hd : s.lineBuffer.drop s.lineBuffPtr = chr :: w :: rest := by
    simp only [pending, List.cons.injEq] at hp; exact hp.2
  unfold getMiscToken
  rw [miscSwitch_double c fuel s a t1 t2 chr ha hch]
  unfold doubleToken
  rw [readLine_of_drop s _ chr (w :: rest) hd]
  simp only [if_true]
  rw [nextChar_at c { s with sym := t2 } a chr (w :: rest) hp]
  simp only
  rw [nextChar_at c _ chr w rest (pending_scanned c { s with sym := t2 } [a] chr (w :: rest)
    hp), scanned_append]
  rfl

/-- A one-character operator that could have been the start of a two-character one. -/
theorem getMiscToken_double_single (c : Config) (fuel : Nat) (s : State) (a : Nat)
    (t1 t2 : Int) (chr y : Nat) (rest : List Nat) (ha : (a, t1, t2, chr) ∈ doubleTokens)
    (hy : y ≠ chr) (hp : pending s = a :: y :: rest) :
    getMiscToken c fuel s = .ok (miscDone c s t1 [a] y) := by
  have hch : s.ch = a := by simp only [pending, List.cons.injEq] at hp; exact hp.1
  have hd : s.lineBuffer.drop s.lineBuffPtr = y :: rest := by
    simp only [pending, List.cons.injEq] at hp; exact hp.2
  unfold getMiscToken
  rw [miscSwitch_double c fuel s a t1 t2 chr ha hch]
  unfold doubleToken
  rw [readLine_of_drop s _ y rest hd]
  simp only [hy, if_false]
  rw [nextChar_at c { s with sym := t1 } a y rest hp]
  rfl

/-- C8: with the lexeme buffer empty and the cursor on the first character, `getMiscToken`
resolves `<=`, `>=`, `:=`, `..` to `LE`, `GE`, `ASSGN`, `DOTDOT` and `<`, `>`, `:`, `.`
not followed by their follower to `LT`, `GT`, `COLON`, `PER`; the lexeme is the one or two
characters, the current character becomes the one after them, the cursor advances by as
many positions, and the eight kinds are pairwise distinct. -/
theorem double_tokens_resolved (c : Config) (fuel : Nat) (s : State) (h0 : s.varBuffPtr = 0) :
    (∀ (a : Nat) (t1 t2 : Int) (chr : Nat),
      (a, t1, t2, chr) ∈ [(60, LT, LE, 61), (62, GT, GE, 61), (58, COLON, ASSGN, 61),
        (46, PER, DOTDOT, 46)] →
      (∀ (w : Nat) (rest : List Nat), pending s = a :: chr :: w :: rest →
        ∃ s1, getMiscToken c fuel s = .ok s1 ∧ s1.sym = t2
          ∧ s1.varBuffer.take 3 = [a, chr, 0] ∧ s1.varBuffPtr = 2 ∧ s1.ch = w
          ∧ s1.lineBuffPtr = s.lineBuffPtr + 2)
      ∧ (∀ (y : Nat) (rest : List Nat), y ≠ chr → pending s = a :: y :: rest →
        ∃ s1, getMiscToken c fuel s = .ok s1 ∧ s1.sym = t1
          ∧ s1.varBuffer.take 2 = [a, 0] ∧ s1.varBuffPtr = 1 ∧ s1.ch = y
          ∧ s1.lineBuffPtr = s.lineBuffPtr + 1))
    ∧ [LE, LT, GE, GT, ASSGN, COLON, DOTDOT, PER].Nodup := by
  refine ⟨?_, by decide⟩
  intro a t1 t2 chr ha
  constructor
  · intro w rest hp
    refine ⟨_, getMiscToken_double c fuel s a t1 t2 chr w rest ha hp, rfl, ?_, ?_, rfl, rfl⟩
    · rw [miscDone_varBuffer c s t2 [a, chr] w h0]; rfl
    · simp [miscDone, writeVar, scanned, h0]
  · intro y rest hy hp
    refine ⟨_, getMiscToken_double_single c fuel s a t1 t2 chr y rest ha hy hp, rfl, ?_, ?_,
      rfl, rfl⟩
    · rw [miscDone_varBuffer c s t1 [a] y h0]; rfl
    · simp [miscDone, writeVar, scanned, h0]

theorem double_tokens_resolved_witness :
    (∃ s1, getMiscToken ⟨8, 4, false, false⟩ 0
        (afterNewLine (initState ⟨8, 4, false, false⟩ false [58, 61, 120, 10]) [58, 61, 120] [])
        = .ok s1 ∧ s1.sym = ASSGN ∧ s1.varBuffer.take 3 = [58, 61, 0] ∧ s1.varBuffPtr = 2
        ∧ s1.ch = 120 ∧ s1.lineBuffPtr = 1 + 2)
    ∧ (∃ s1, getMiscToken ⟨8, 4, false, false⟩ 0
        (afterNewLine (initState ⟨8, 4, false, false⟩ false [58, 120, 10]) [58, 120] [])
        = .ok s1 ∧ s1.sym = COLON ∧ s1.varBuffer.take 2 = [58, 0] ∧ s1.varBuffPtr = 1
        ∧ s1.ch = 120 ∧ s1.lineBuffPtr = 1 + 1) :=
  ⟨((double_tokens_resolved ⟨8, 4, false, false⟩ 0
      (afterNewLine (initState ⟨8, 4, false, false⟩ false [58, 61, 120, 10]) [58, 61, 120] [])
      (by decide)).1 58 COLON ASSGN 61 (by decide)).1 120 [0, 0, 0, 0, 0] (by decide),
   ((double_tokens_resolved ⟨8, 4, false, false⟩ 0
      (afterNewLine (initState ⟨8, 4, false, false⟩ false [58, 120, 10]) [58, 120] [])
      (by decide)).1 58 COLON ASSGN 61 (by decide)).2 120 [0, 0, 0, 0, 0, 0] (by decide)
      (by decide)⟩

theorem sameMode_refl (s : State) : sameMode s s := ⟨rfl, rfl⟩

theorem sameMode_trans {s s1 s2 : State} (h1 : sameMode s s1) (h2 : sameMode s1 s2) :
    sameMode s s2 := ⟨h2.1.trans h1.1, h2.2.trans h1.2⟩

theorem sameMode_via (s1 : State) {s s2 : State} (h1 : sameMode s s1) (h2 : sameMode s1 s2) :
    sameMode s s2 := sameMode_trans h1 h2

/-- An invariant of the body of a `while` loop holds when the loop returns. -/
theorem whileLoop_inv (I : State → Prop) (cond : State → Bool)
    (body : State → Except Err State)
    (hbody : ∀ s s1, I s → body s = .ok s1 → I s1) :
    ∀ (fuel : Nat) (s s1 : State), I s → whileLoop cond body fuel s = .ok s1 → I s1 := by
  intro fuel
  induction fuel with
  | zero =>
    intro s s1 hI h
    unfold whileLoop at h
    by_cases hc : cond s = true
    · rw [if_pos hc] at h; cases h
    · rw [if_neg hc] at h; cases h; exact hI
  | succ n ih =>
    intro s s1 hI h
    unfold whileLoop at h
    by_cases hc : cond s = true
    · rw [if_pos hc] at h
      cases hb : body s with
      | error e => rw [hb] at h; cases h
      | ok s2 =>
        rw [hb] at h
        exact ih s2 s1 (hbody s s2 hI hb) h
    · rw [if_neg hc] at h; cases h; exact hI

/-- A `do ... while` loop: `I` holds before each turn, `Q` after each turn, and the
condition is false when the loop returns. -/
theorem doWhile_inv (I Q : State → Prop) (body : State → Except Err State)
    (cond : State → Bool)
    (hbody : ∀ s s1, I s → body s = .ok s1 → Q s1)
    (hcont : ∀ s1, Q s1 → cond s1 = true → I s1) :
    ∀ (fuel : Nat) (s s1 : State), I s → doWhile body cond fuel s = .ok s1 →
      Q s1 ∧ cond s1 = false := by
  intro fuel
  induction fuel with
  | zero => intro s s1 _ h; cases h
  | succ n ih =>
    intro s s1 hI h
    unfold doWhile at h
    cases hb : body s with
    | error e => rw [hb] at h; cases h
    | ok s2 =>
      rw [hb] at h
      simp only at h
      by_cases hc : cond s2 = true
      · rw [if_pos hc] at h
        exact ih s2 s1 (hcont s2 (hbody s s2 hI hb) hc) h
      · rw [if_neg hc] at h
        have e : s2 = s1 := Except.ok.inj h
        rw [← e]
        exact ⟨hbody s s2 hI hb, by simpa using hc⟩

theorem fetch_ok (s s1 : State) (h : fetch s = .ok s1) :
    ∃ v, s1 = { s with ch := v, lineBuffPtr := s.lineBuffPtr + 1 } := by
  unfold fetch at h
  cases hr : readLine s s.lineBuffPtr with
  | error e => rw [hr] at h; cases h
  | ok v => rw [hr] at h; cases h; exact ⟨v, rfl⟩

theorem fetch_sameMode (s s1 : State) (h : fetch s = .ok s1) : sameMode s s1 := by
  obtain ⟨v, rfl⟩ := fetch_ok s s1 h
  exact ⟨rfl, rfl⟩

theorem nextChar_sameMode (c : Config) (s s1 : State) (h : nextChar c s = .ok s1) :
    sameMode s s1 :=
  sameMode_via (storeCh c s) ⟨rfl, rfl⟩ (fetch_sameMode _ _ h)

theorem commentStep_sameMode (c : Config) (s s1 : State) (h : commentStep c s = .ok s1) :
    sameMode s s1 := by
  unfold commentStep at h
  by_cases ho : s.enable_output = true
  · rw [if_pos ho] at h
    exact sameMode_via (storeCh c s) ⟨rfl, rfl⟩ (fetch_sameMode _ _ h)
  · rw [if_neg ho] at h
    exact fetch_sameMode _ _ h

theorem whileLoop_sameMode (cond : State → Bool) (body : State → Except Err State)
    (hbody : ∀ s s1, body s = .ok s1 → sameMode s s1) (fuel : Nat) (s s1 : State)
    (h : whileLoop cond body fuel s = .ok s1) : sameMode s s1 :=
  whileLoop_inv (fun t => sameMode s t) cond body
    (fun t t1 ht hb => sameMode_trans ht (hbody t t1 hb)) fuel s s1 (sameMode_refl s) h

theorem skipSep_sameMode (c : Config) (s s1 : State) (h : skipSep c s = .ok s1) :
    sameMode s s1 :=
  whileLoop_sameMode _ _ fetch_sameMode _ s s1 h

theorem setLineBufferLoop_sameMode : ∀ (n i : Nat) (s : State),
    sameMode s (setLineBufferLoop n i s).2 := by
  intro n
  induction n with
  | zero => intro i s; exact ⟨rfl, rfl⟩
  | succ n ih =>
    intro i s
    unfold setLineBufferLoop
    simp only
    by_cases h10 : (getc s.file).1 = 10
    · rw [if_pos h10]
      by_cases h255 : (getc (getc s.file).2).1 = 255
      · rw [if_pos h255]; exact ⟨rfl, rfl⟩
      · rw [if_neg h255]; exact ⟨rfl, rfl⟩
    · rw [if_neg h10]
      exact sameMode_via _ ⟨rfl, rfl⟩ (ih _ _)

theorem newLine_sameMode (c : Config) (s s1 : State) (h : newLine c s = .ok s1) :
    sameMode s s1 := by
  unfold newLine at h
  simp only at h
  by_cases he : (setLineBuffer c s).1 = -1
  · rw [if_pos he] at h; cases h
  · rw [if_neg he] at h
    have h0 : sameMode s (setLineBuffer c s).2 := setLineBufferLoop_sameMode _ _ _
    split at h
    · rename_i s3 hf
      have hB := fetch_sameMode _ _ hf
      exact sameMode_trans (sameMode_trans (sameMode_trans h0 ⟨rfl, rfl⟩) hB)
        (skipSep_sameMode c s3 s1 h)
    · cases h

theorem scanWarning_sameMode (n : Nat) (s s1 : State) (h : scanWarning n s = .ok s1) :
    sameMode s s1 := by
  unfold scanWarning at h
  by_cases hw : s.warningCount > 10
  · rw [if_pos hw] at h; cases h
  · rw [if_neg hw] at h
    by_cases h0 : n = 0
    · rw [if_pos h0] at h; cases h; exact ⟨rfl, rfl⟩
    · rw [if_neg h0] at h
      by_cases h1 : n = 1
      · rw [if_pos h1] at h; cases h; exact ⟨rfl, rfl⟩
      · rw [if_neg h1] at h; cases h; exact ⟨rfl, rfl⟩

theorem checkResWordLoop_range (token : List Nat) : ∀ (ws : List (List Nat)) (i : Nat),
    checkResWordLoop token ws i = Ident
      ∨ ((i : Int) ≤ checkResWordLoop token ws i
          ∧ checkResWordLoop token ws i < ((i + ws.length : Nat) : Int)) := by
  intro ws
  induction ws with
  | nil => intro i; left; rfl
  | cons w ws ih =>
    intro i
    unfold checkResWordLoop
    by_cases hc : cmpWords token (cstr w) = true
    · rw [if_pos hc]
      right
      simp only [List.length_cons]
      omega
    · rw [if_neg hc]
      rcases ih (i + 1) with h | ⟨h1, h2⟩
      · left; exact h
      · right
        simp only [List.length_cons]
        push_cast at h1 h2 ⊢
        omega

theorem checkResWord_kind (token : List Nat) : realKind (checkResWord token) := by
  unfold checkResWord realKind
  rcases checkResWordLoop_range token resWrds 0 with h | ⟨h1, h2⟩
  · rw [h]; decide
  · have : resWrds.length = 28 := by decide
    rw [this] at h2
    push_cast at h1 h2
    omega

theorem wordlist_kinds : ∀ e ∈ wordlist, 0 ≤ e.token ∧ e.token ≤ 52 := by decide

theorem checkResWordHash_mem (word : List Nat) (len : Nat) (e : ResWrd)
    (h : checkResWordHash word len = .ok (some e)) : e ∈ wordlist := by
  unfold checkResWordHash at h
  split at h
  · split at h
    · cases h
    · split at h
      · split at h
        · cases h
        · rename_i key hk k r hr
          split at h
          · have : r = e := by injection h with h; injection h
            rw [← this]
            exact List.getElem?_mem hr
          · cases h
      · cases h
  · cases h

theorem realKind_Ident : realKind Ident := by
  unfold realKind; decide

theorem alphaFinish_frame (c : Config) (s s1 : State) (h : alphaFinish c s = .ok s1) :
    realKind s1.sym ∧ s1.enable_output = s.enable_output := by
  unfold alphaFinish at h
  split at h
  · cases h
  · simp only at h
    split at h
    · split at h
      · cases h
      · rename_i e he
        have hk := wordlist_kinds e (checkResWordHash_mem _ _ e he)
        cases h
        exact ⟨hk, rfl⟩
      · cases h
        exact ⟨realKind_Ident, rfl⟩
    · cases h
      exact ⟨checkResWord_kind _, rfl⟩

theorem getAlphaToken_frame (c : Config) (s s1 : State) (h : getAlphaToken c s = .ok s1) :
    realKind s1.sym ∧ s1.enable_output = s.enable_output := by
  unfold getAlphaToken at h
  split at h
  · cases h
  · rename_i s2 hl
    have h1 := whileLoop_sameMode _ _ (nextChar_sameMode c) _ s s2 hl
    have h2 := alphaFinish_frame c s2 s1 h
    exact ⟨h2.1, h2.2.trans h1.2⟩

theorem hexSuffix_sameMode (c : Config) (s s1 : State) (h : hexSuffix c s = .ok s1) :
    sameMode s s1 := by
  unfold hexSuffix at h
  split at h
  · split at h
    · cases h
    · rename_i s2 hl
      have h1 := whileLoop_sameMode _ _ (nextChar_sameMode c) _ s s2 hl
      split at h
      · cases h
      · exact sameMode_trans h1 (nextChar_sameMode c _ _ h)
  · split at h
    · split at h
      · split at h
        · cases h
        · rename_i s2 hw
          exact sameMode_trans (scanWarning_sameMode 1 s s2 hw) (nextChar_sameMode c _ _ h)
      · exact nextChar_sameMode c _ _ h
    · cases h; exact sameMode_refl _

theorem getDigitToken_frame (c : Config) (s s1 : State) (h : getDigitToken c s = .ok s1) :
    s1.sym = Integer ∧ s1.enable_output = s.enable_output := by
  unfold getDigitToken at h
  split at h
  · cases h
  · rename_i s2 hr
    unfold digitRun at hr
    split at hr
    · cases hr
    · rename_i s0 hz
      have h0 := whileLoop_sameMode _ _ fetch_sameMode _ s s0 hz
      have h1 := whileLoop_sameMode _ _ (nextChar_sameMode c) _ s0 s2 hr
      split at h
      · cases h
      · rename_i s3 hx
        have h2 := hexSuffix_sameMode c s2 s3 hx
        unfold digitFinish at h
        split at h
        · cases h
        · cases h
          exact ⟨rfl, (h2.2.trans h1.2).trans h0.2⟩

theorem doubleToken_frame (c : Config) (t1 t2 : Int) (chr : Nat) (s s1 : State)
    (h : doubleToken c t1 t2 chr s = .ok s1) :
    (s1.sym = t1 ∨ s1.sym = t2) ∧ s1.enable_output = s.enable_output := by
  unfold doubleToken at h
  split at h
  · cases h
  · split at h
    · have := nextChar_sameMode c _ _ h
      exact ⟨Or.inr this.1, this.2⟩
    · cases h
      exact ⟨Or.inl rfl, rfl⟩

/-- The comment loop returns only with `sym = -1`. -/
theorem commentLoop_exit (call : State → Except Err (Int × State)) (fuel : Nat) (s s1 : State)
    (h : commentLoop call fuel s = .ok s1) : s1.sym = -1 := by
  unfold commentLoop at h
  have := (doWhile_inv (fun _ => True) (fun _ => True) _ _ (fun _ _ _ _ => trivial)
    (fun _ _ _ => trivial) fuel s s1 trivial h).2
  simpa using this

/-- Outside comments the switch of `getMiscToken` yields a real token kind and leaves
`enable_output` alone. -/
theorem miscSwitch_plain (c : Config) (fuel : Nat) (s s1 : State)
    (hnc : ¬ (s.ch = 40 ∧ readLine s s.lineBuffPtr = .ok 42))
    (h : miscSwitch c fuel s = .ok s1) :
    realKind s1.sym ∧ s1.enable_output = s.enable_output := by
  unfold miscSwitch at h
  by_cases h43 : s.ch = 43
  · rw [if_pos h43] at h; cases h; exact ⟨by dsimp only [realKind]; decide, rfl⟩
  rw [if_neg h43] at h
  by_cases h45 : s.ch = 45
  · rw [if_pos h45] at h; cases h; exact ⟨by dsimp only [realKind]; decide, rfl⟩
  rw [if_neg h45] at h
  by_cases h126 : s.ch = 126
  · rw [if_pos h126] at h; cases h; exact ⟨by dsimp only [realKind]; decide, rfl⟩
  rw [if_neg h126] at h
  by_cases h61 : s.ch = 61
  · rw [if_pos h61] at h; cases h; exact ⟨by dsimp only [realKind]; decide, rfl⟩
  rw [if_neg h61] at h
  by_cases h35 : s.ch = 35
  · rw [if_pos h35] at h; cases h; exact ⟨by dsimp only [realKind]; decide, rfl⟩
  rw [if_neg h35] at h
  by_cases h38 : s.ch = 38
  · rw [if_pos h38] at h; cases h; exact ⟨by dsimp only [realKind]; decide, rfl⟩
  rw [if_neg h38] at h
  by_cases h42 : s.ch = 42
  · rw [if_pos h42] at h; cases h; exact ⟨by dsimp only [realKind]; decide, rfl⟩
  rw [if_neg h42] at h
  by_cases h44 : s.ch = 44
  · rw [if_pos h44] at h; cases h; exact ⟨by dsimp only [realKind]; decide, rfl⟩
  rw [if_neg h44] at h
  by_cases h59 : s.ch = 59
  · rw [if_pos h59] at h; cases h; exact ⟨by dsimp only [realKind]; decide, rfl⟩
  rw [if_neg h59] at h
  by_cases h91 : s.ch = 91
  · rw [if_pos h91] at h; cases h; exact ⟨by dsimp only [realKind]; decide, rfl⟩
  rw [if_neg h91] at h
  by_cases h93 : s.ch = 93
  · rw [if_pos h93] at h; cases h; exact ⟨by dsimp only [realKind]; decide, rfl⟩
  rw [if_neg h93] at h
  by_cases h124 : s.ch = 124
  · rw [if_pos h124] at h; cases h; exact ⟨by dsimp only [realKind]; decide, rfl⟩
  rw [if_neg h124] at h
  by_cases h60 : s.ch = 60
  · rw [if_pos h60] at h
    have := doubleToken_frame c _ _ _ s s1 h
    refine ⟨?_, this.2⟩
    rcases this.1 with e | e <;> rw [e] <;> unfold realKind <;> decide
  rw [if_neg h60] at h
  by_cases h62 : s.ch = 62
  · rw [if_pos h62] at h
    have := doubleToken_frame c _ _ _ s s1 h
    refine ⟨?_, this.2⟩
    rcases this.1 with e | e <;> rw [e] <;> unfold realKind <;> decide
  rw [if_neg h62] at h
  by_cases h58 : s.ch = 58
  · rw [if_pos h58] at h
    have := doubleToken_frame c _ _ _ s s1 h
    refine ⟨?_, this.2⟩
    rcases this.1 with e | e <;> rw [e] <;> unfold realKind <;> decide
  rw [if_neg h58] at h
  by_cases h46 : s.ch = 46
  · rw [if_pos h46] at h
    have := doubleToken_frame c _ _ _ s s1 h
    refine ⟨?_, this.2⟩
    rcases this.1 with e | e <;> rw [e] <;> unfold realKind <;> decide
  rw [if_neg h46] at h
  by_cases h40 : s.ch = 40
  · rw [if_pos h40] at h
    cases hv : readLine s s.lineBuffPtr with
    | error e => rw [hv] at h; cases h
    | ok v =>
      rw [hv] at h
      simp only at h
      by_cases hv42 : v = 42
      · exact absurd ⟨h40, by rw [hv, hv42]⟩ hnc
      · rw [if_pos hv42] at h
        cases h; exact ⟨by dsimp only [realKind]; decide, rfl⟩
  rw [if_neg h40] at h
  by_cases h41 : s.ch = 41
  · rw [if_pos h41] at h; cases h; exact ⟨by dsimp only [realKind]; decide, rfl⟩
  rw [if_neg h41] at h
  by_cases hE : c.ERROR_HANDLING = true
  · rw [if_pos hE] at h
    have := scanWarning_sameMode 0 _ s1 h
    refine ⟨?_, this.2⟩
    rw [this.1]
    dsimp only [realKind]; decide
  · rw [if_neg hE] at h; cases h

/-- On `(` followed by `*` the switch of `getMiscToken` is the comment loop. -/
theorem miscSwitch_comment (c : Config) (fuel : Nat) (s : State) (h40 : s.ch = 40)
    (h42 : readLine s s.lineBuffPtr = .ok 42) :
    miscSwitch c fuel s = commentLoop (inComment c fuel) fuel { s with sym := -1 } := by
  unfold miscSwitch
  rw [h40, h42]
  rfl

/-- The switch of `getMiscToken` yields a real token kind or the in-comment value. -/
theorem miscSwitch_kind (c : Config) (fuel : Nat) (s s1 : State)
    (h : miscSwitch c fuel s = .ok s1) : s1.sym = -1 ∨ realKind s1.sym := by
  by_cases hnc : s.ch = 40 ∧ readLine s s.lineBuffPtr = .ok 42
  · left
    rw [miscSwitch_comment c fuel s hnc.1 hnc.2] at h
    exact commentLoop_exit _ _ _ _ h
  · right
    exact (miscSwitch_plain c fuel s s1 hnc h).1

theorem getMiscToken_kind (c : Config) (fuel : Nat) (s s1 : State)
    (h : getMiscToken c fuel s = .ok s1) : s1.sym = -1 ∨ realKind s1.sym := by
  unfold getMiscToken at h
  split at h
  · cases h
  · rename_i s2 hs
    split at h
    · cases h
    · rename_i s3 hn
      have h1 := miscSwitch_kind c fuel s s2 hs
      have h2 := nextChar_sameMode c s2 s3 hn
      cases h
      simp only [writeVar]
      rw [h2.1]
      exact h1

theorem printSym_ok (s s1 : State) (h : printSym s = .ok s1) : s1 = s := by
  unfold printSym at h
  split at h
  · split at h
    · cases h; rfl
    · cases h
  · cases h; rfl

theorem token_kind (c : Config) (fuel : Nat) (s s1 : State)
    (h : (if isAlpha s.ch then getAlphaToken c s
          else if isDigit s.ch then getDigitToken c s
          else getMiscToken c fuel s) = .ok s1) :
    s1.sym = -1 ∨ realKind s1.sym := by
  split at h
  · exact Or.inr (getAlphaToken_frame c s s1 h).1
  · split at h
    · right
      rw [(getDigitToken_frame c s s1 h).1]
      unfold realKind; decide
    · exact getMiscToken_kind c fuel s s1 h

/-- A call of `nextSym` that returns leaves `sym` equal to a real token kind or, with
`EOFflag` set, to the in-comment value -1: the guard `sym == -1 && !EOFflag` of source
line 66 repeats the call only before the last line has been read. -/
theorem nextSym_returns_token_before_eof (c : Config) :
    ∀ (fuel : Nat) (s s1 : State), nextSym c fuel s = .ok s1 →
      (0 ≤ s1.sym ∧ s1.sym ≤ 52) ∨ (s1.sym = -1 ∧ s1.EOFflag = true) := by
  intro fuel
  induction fuel with
  | zero => intro s s1 h; cases h
  | succ n ih =>
    intro s s1 h
    unfold nextSym at h
    split at h
    · cases h
    · rename_i s2 hl
      split at h
      · cases h
      · rename_i s3 ht
        split at h
        · cases h
        · rename_i s4 hs
          have hk := token_kind c n s2 s3 ht
          have hm := skipSep_sameMode c _ s4 hs
          have hsym : s4.sym = s3.sym := hm.1
          by_cases hc : s4.sym = -1 ∧ s4.EOFflag = false
          · rw [if_pos hc] at h
            exact ih s4 s1 h
          · rw [if_neg hc] at h
            have e := printSym_ok s4 s1 h
            rw [e]
            rw [← hsym] at hk
            rcases hk with hk | hk
            · right
              refine ⟨hk, ?_⟩
              cases hE : s4.EOFflag with
              | true => rfl
              | false => exact absurd ⟨hk, hE⟩ hc
            · left; exact hk

theorem doWhile_sameMode (body : State → Except Err State) (cond : State → Bool)
    (hbody : ∀ s s1, body s = .ok s1 → sameMode s s1) (fuel : Nat) (s s1 : State)
    (h : doWhile body cond fuel s = .ok s1) : sameMode s s1 :=
  (doWhile_inv (fun t => sameMode s t) (fun t => sameMode s t) body cond
    (fun t t1 ht hb => sameMode_trans ht (hbody t t1 hb)) (fun _ ht _ => ht) fuel s s1
    (sameMode_refl s) h).1

theorem commentSkip_sameMode (c : Config) (s s1 : State) (h : commentSkip c s = .ok s1) :
    sameMode s s1 :=
  doWhile_sameMode _ _ (commentStep_sameMode c) _ s s1 h

theorem commentNewLine_sameMode (c : Config) (fuel : Nat) (s s1 : State)
    (h : commentNewLine c fuel s = .ok s1) : sameMode s s1 :=
  whileLoop_sameMode _ _
    (fun t t1 ht => sameMode_via { writeVar c t t.varBuffPtr 0 with varBuffPtr := 0 }
      ⟨rfl, rfl⟩ (newLine_sameMode c _ t1 ht)) fuel s s1 h

theorem commentCheckClose_frame (c : Config) (s : State) (r : Int) (s1 : State)
    (h : commentCheckClose c s = .ok (r, s1)) : s1.enable_output = s.enable_output := by
  unfold commentCheckClose at h
  split at h
  · cases h
  · split at h
    · split at h
      · rename_i s2 hs
        have := commentStep_sameMode c s s2 hs
        cases h
        exact this.2
      · cases h
    · cases h; rfl

/-- Inside a comment, once `sym` is no longer -1, `inComment` leaves `enable_output`
alone: the directive is looked for at the opening of the top-level comment only. -/
theorem inComment_frame (c : Config) : ∀ (fuel : Nat) (s : State) (r : Int) (s1 : State),
    s.sym ≠ -1 → inComment c fuel s = .ok (r, s1) → s1.enable_output = s.enable_output := by
  intro fuel
  induction fuel with
  | zero => intro s r s1 _ h; cases h
  | succ n ih =>
    intro s r s1 hsym h
    unfold inComment at h
    rw [if_neg hsym] at h
    simp only at h
    split at h
    · cases h
    · rename_i s2 hskip
      have h2 := commentSkip_sameMode c s s2 hskip
      split at h
      · cases h
      · rename_i s3 hnl
        have h3 := sameMode_trans h2 (commentNewLine_sameMode c n s2 s3 hnl)
        split at h
        · rw [commentCheckClose_frame c s3 r s1 h, h3.2]
        · split at h
          · split at h
            · rename_i s4 hopen
              have e : s4 = s1 := by injection h with h; injection h
              rw [← e]
              unfold commentCheckOpen at hopen
              split at hopen
              · cases hopen
              · split at hopen
                · split at hopen
                  · rename_i s5 hstep
                    have h5 := sameMode_trans h3 (commentStep_sameMode c s3 s5 hstep)
                    unfold commentLoop at hopen
                    have := (doWhile_inv
                      (fun t => t.sym ≠ -1 ∧ t.enable_output = s.enable_output)
                      (fun t => t.enable_output = s.enable_output) _ _
                      (fun t t1 ht hb => by
                        unfold assignSym at hb
                        split at hb
                        · rename_i p hp
                          cases hb
                          exact (ih t p.1 p.2 ht.1 hp).trans ht.2
                        · cases hb)
                      (fun t1 hq hc => ⟨by simpa using hc, hq⟩) n s5 s4
                      ⟨by rw [h5.1]; exact hsym, h5.2⟩ hopen).1
                    exact this
                  · cases hopen
                · cases hopen
                  exact h3.2
            · cases h
          · have e : s3 = s1 := by injection h with h; injection h
            rw [← e]; exact h3.2

theorem checkDirective_ok (s s1 : State) (h : checkDirective s = .ok s1) :
    s1 = { s with enable_output := directiveValue s } := by
  unfold checkDirective at h
  unfold directiveValue
  cases hv : readLine s (s.lineBuffPtr + 1) with
  | error e => rw [hv] at h; cases h
  | ok v =>
    rw [hv] at h
    simp only at h
    by_cases h115 : v = 115
    · rw [if_pos h115] at h
      cases hd : readLine s (s.lineBuffPtr + 2) with
      | error e => rw [hd] at h; cases h
      | ok d =>
        rw [hd] at h
        simp only at h
        subst h115
        by_cases h43 : d = 43
        · subst h43
          cases ho : s.enable_output with
          | false =>
            simp only [ho, and_self, if_true] at h
            cases h
            simp
          | true =>
            simp only [ho, Bool.true_eq_false, and_false, if_false, Nat.reduceEqDiff,
              false_and] at h
            cases h
            cases s
            simp only at ho
            simp [ho]
        · by_cases h45 : d = 45
          · subst h45
            cases ho : s.enable_output with
            | false =>
              simp only [ho, Nat.reduceEqDiff, false_and, if_false, Bool.false_eq_true,
                and_false] at h
              cases h
              cases s
              simp only at ho
              simp [ho]
            | true =>
              simp only [ho, Nat.reduceEqDiff, false_and, if_false, and_self, if_true] at h
              cases h
              simp
          · simp only [h43, h45, false_and, if_false] at h
            cases h
            cases s
            simp [h43, h45]
    · rw [if_neg h115] at h
      cases h
      cases s
      simp [h115]

theorem readLine_ok_drop (s : State) (i v : Nat) (h : readLine s i = .ok v) :
    ∃ rest, s.lineBuffer.drop i = v :: rest := by
  unfold readLine at h
  cases hg : s.lineBuffer[i]? with
  | none => rw [hg] at h; cases h
  | some x =>
    rw [hg] at h
    have e : x = v := by injection h
    subst e
    obtain ⟨hlt, hx⟩ := List.getElem?_eq_some_iff.mp hg
    exact ⟨s.lineBuffer.drop (i + 1), by rw [List.drop_eq_getElem_cons hlt, hx]⟩

/-- The first step of `commentSkip` at a comment opening lands on the star of the opening
marker and stops there. -/
theorem commentSkip_at_open (c : Config) (s : State)
    (h42 : readLine s s.lineBuffPtr = .ok 42) :
    ∃ s1, commentSkip c s = .ok s1 ∧ s1.ch = 42 ∧ sameMode s s1 := by
  obtain ⟨rest, hd⟩ := readLine_ok_drop s _ 42 h42
  have hstep : ∃ s1, commentStep c s = .ok s1 ∧ s1.ch = 42 := by
    unfold commentStep
    by_cases ho : s.enable_output = true
    · rw [if_pos ho]
      exact ⟨_, fetch_of_drop (storeCh c s) 42 rest hd, rfl⟩
    · rw [if_neg ho]
      exact ⟨_, fetch_of_drop s 42 rest hd, rfl⟩
  obtain ⟨s1, hs1, hch⟩ := hstep
  refine ⟨s1, ?_, hch, commentStep_sameMode c s s1 hs1⟩
  unfold commentSkip lineFuel doWhile
  rw [hs1]
  simp [hch]

/-- The first call of `inComment` for a top-level comment: the directive is checked and
nothing else touches `enable_output`. -/
theorem inComment_first (c : Config) (fuel : Nat) (s : State) (r : Int) (s1 : State)
    (hsym : s.sym = -1) (h42 : readLine s s.lineBuffPtr = .ok 42)
    (h : inComment c fuel s = .ok (r, s1)) : s1.enable_output = directiveValue s := by
  cases fuel with
  | zero => cases h
  | succ n =>
    unfold inComment at h
    rw [if_pos hsym] at h
    cases hD : checkDirective s with
    | error e => rw [hD] at h; cases h
    | ok sD =>
      rw [hD] at h
      simp only at h
      have hDe := checkDirective_ok s sD hD
      have h42D : readLine sD sD.lineBuffPtr = .ok 42 := by rw [hDe]; exact h42
      obtain ⟨s2, hs2, hch, hm⟩ := commentSkip_at_open c sD h42D
      rw [hs2] at h
      simp only at h
      have hnl : commentNewLine c n s2 = .ok s2 := by
        unfold commentNewLine
        cases n <;> simp [whileLoop, hch]
      rw [hnl] at h
      simp only [hch, if_true] at h
      rw [commentCheckClose_frame c s2 r s1 h, hm.2, hDe]

/-- Scanning a top-level comment: `sym` is left at -1 and `enable_output` at the value
set by the directive check at the opening. -/
theorem getMiscToken_comment (c : Config) (fuel : Nat) (s s1 : State) (h40 : s.ch = 40)
    (h42 : readLine s s.lineBuffPtr = .ok 42) (h : getMiscToken c fuel s = .ok s1) :
    s1.sym = -1 ∧ s1.enable_output = directiveValue s := by
  unfold getMiscToken at h
  rw [miscSwitch_comment c fuel s h40 h42] at h
  split at h
  · cases h
  · rename_i s2 hloop
    split at h
    · cases h
    · rename_i s3 hn
      have hm := nextChar_sameMode c s2 s3 hn
      have e : writeVar c s3 s3.varBuffPtr 0 = s1 := by injection h
      rw [← e]
      have hexit := commentLoop_exit _ _ _ _ hloop
      refine ⟨hm.1.trans hexit, hm.2.trans ?_⟩
      unfold commentLoop at hloop
      cases fuel with
      | zero => cases hloop
      | succ n =>
        unfold doWhile at hloop
        split at hloop
        · rename_i sA hA
          unfold assignSym at hA
          split at hA
          · rename_i p hp
            have hfirst := inComment_first c (n + 1) { s with sym := -1 } p.1 p.2 rfl h42 hp
            have hAe : sA.enable_output = directiveValue s := by
              cases hA
              exact hfirst
            split at hloop
            · rename_i hc
              have := (doWhile_inv
                (fun t => t.sym ≠ -1 ∧ t.enable_output = directiveValue s)
                (fun t => t.enable_output = directiveValue s) _ _
                (fun t t1 ht hb => by
                  unfold assignSym at hb
                  split at hb
                  · rename_i q hq
                    cases hb
                    exact (inComment_frame c (n + 1) t q.1 q.2 ht.1 hq).trans ht.2
                  · cases hb)
                (fun t1 hq hc => ⟨by simpa using hc, hq⟩) n sA s2
                ⟨by simpa using hc, hAe⟩ hloop).1
              exact this
            · cases hloop
              exact hAe
          · cases hA
        · cases hloop

/-- C6, the failing input: on the line `(*) x *) y` the comment that opens at the cursor is
closed, by nesting depth, by the `*)` before `y`, so the next token should be `Ident y`;
`nextSym` returns `Ident` with lexeme `x`, having taken the star of the opening marker and
the `)` after it for the close marker. -/
theorem comment_closed_by_its_own_star :
    afterCommentSpec 0 [41, 32, 120, 32, 42, 41, 32, 121] = some [32, 121]
    ∧ (nextSym ⟨16, 8, false, false⟩ 3
        (initState ⟨16, 8, false, false⟩ false
          [40, 42, 41, 32, 120, 32, 42, 41, 32, 121, 10, 122, 10])).map
        (fun s => (s.sym, s.varBuffer.take 2, pending s))
        = .ok (Ident, [120, 0], [42, 41, 32, 121, 0, 0, 0, 0, 0, 0]) := by
  decide

/-- The example of the claim: on `(* outer (* inner *) still outer *) x` the next token
is `Ident x`, as the specification by nesting depth says. -/
theorem nested_comment_example :
    afterCommentSpec 0 [32, 111, 117, 116, 101, 114, 32, 40, 42, 32, 105, 110, 110, 101, 114,
        32, 42, 41, 32, 115, 116, 105, 108, 108, 32, 111, 117, 116, 101, 114, 32, 42, 41, 32,
        120] = some [32, 120]
    ∧ (nextSym ⟨40, 8, false, false⟩ 12
        (initState ⟨40, 8, false, false⟩ false
          [40, 42, 32, 111, 117, 116, 101, 114, 32, 40, 42, 32, 105, 110, 110, 101, 114,
           32, 42, 41, 32, 115, 116, 105, 108, 108, 32, 111, 117, 116, 101, 114, 32, 42, 41, 32,
           120, 10, 122, 10])).map
        (fun s => (s.sym, s.varBuffer.take 2, s.ch)) = .ok (Ident, [120, 0], 0) := by
  decide

theorem commentStep_at (c : Config) (s : State) (y : Nat) (rest : List Nat)
    (hd : s.lineBuffer.drop s.lineBuffPtr = y :: rest) :
    ∃ t, commentStep c s = .ok t ∧ cursorAt s t 1 y := by
  unfold commentStep
  by_cases ho : s.enable_output = true
  · rw [if_pos ho]
    exact ⟨_, fetch_of_drop (storeCh c s) y rest hd, rfl, rfl, rfl⟩
  · rw [if_neg ho]
    exact ⟨_, fetch_of_drop s y rest hd, rfl, rfl, rfl⟩

/-- The loop of `commentSkip` over comment text `body` free of NUL, `*` and `(`, up to the
first such character `x`. -/
theorem commentSkip_run (c : Config) : ∀ (body : List Nat) (s : State) (x : Nat)
    (rest : List Nat) (fuel : Nat), (∀ a ∈ body, a ≠ 0 ∧ a ≠ 42 ∧ a ≠ 40) →
    (x = 0 ∨ x = 42 ∨ x = 40) → s.lineBuffer.drop s.lineBuffPtr = body ++ x :: rest →
    body.length + 1 ≤ fuel →
    ∃ t, doWhile (commentStep c) (fun s => !(s.ch = 0 || s.ch = 42 || s.ch = 40)) fuel s = .ok t
      ∧ cursorAt s t (body.length + 1) x := by
  intro body
  induction body with
  | nil =>
    intro s x rest fuel _ hx hd hf
    obtain ⟨t, ht, hc⟩ := commentStep_at c s x rest hd
    cases fuel with
    | zero => simp at hf
    | succ n =>
      refine ⟨t, ?_, hc⟩
      unfold doWhile
      rw [ht]
      have : (!(decide (t.ch = 0) || decide (t.ch = 42) || decide (t.ch = 40))) = false := by
        rw [hc.1]; rcases hx with h | h | h <;> simp [h]
      simp only [this, Bool.false_eq_true, if_false]
  | cons a r ih =>
    intro s x rest fuel hall hx hd hf
    obtain ⟨t, ht, hc⟩ := commentStep_at c s a (r ++ x :: rest) hd
    cases fuel with
    | zero => simp at hf
    | succ n =>
      have hd2 : t.lineBuffer.drop t.lineBuffPtr = r ++ x :: rest := by
        rw [hc.2.1, hc.2.2]
        exact drop_succ_of_drop _ _ a _ hd
      obtain ⟨u, hu, hcu⟩ := ih t x rest n (fun b hb => hall b (by simp [hb])) hx hd2
        (by simp only [List.length_cons] at hf; omega)
      refine ⟨u, ?_, hcu.1, hcu.2.1.trans hc.2.1, ?_⟩
      · unfold doWhile
        rw [ht]
        have ha := hall a (by simp)
        have : (!(decide (t.ch = 0) || decide (t.ch = 42) || decide (t.ch = 40))) = true := by
          rw [hc.1]; simp [ha.1, ha.2.1, ha.2.2]
        simp only [this, if_true]
        exact hu
      · rw [hcu.2.2, hc.2.2]; simp only [List.length_cons]; omega

theorem readLine_drop_eq (s t : State) (i : Nat) (hb : t.lineBuffer = s.lineBuffer) :
    readLine t i = readLine s i := by
  unfold readLine; rw [hb]

theorem checkDirective_total (s : State) (v d : Nat)
    (hv : readLine s (s.lineBuffPtr + 1) = .ok v) (hd : readLine s (s.lineBuffPtr + 2) = .ok d) :
    checkDirective s = .ok { s with enable_output := directiveValue s } := by
  have key : ∃ s1, checkDirective s = .ok s1 := by
    unfold checkDirective
    rw [hv]
    simp only
    by_cases h115 : v = 115
    · rw [if_pos h115, hd]
      simp only
      by_cases h1 : d = 43 ∧ s.enable_output = false
      · rw [if_pos h1]; exact ⟨_, rfl⟩
      · rw [if_neg h1]
        by_cases h2 : d = 45 ∧ s.enable_output = true
        · rw [if_pos h2]; exact ⟨_, rfl⟩
        · rw [if_neg h2]; exact ⟨_, rfl⟩
    · rw [if_neg h115]; exact ⟨_, rfl⟩
  obtain ⟨s1, h1⟩ := key
  rw [h1, checkDirective_ok s s1 h1]

theorem commentNewLine_skip (c : Config) (n : Nat) (t : State) (h : t.ch ≠ 0) :
    commentNewLine c n t = .ok t := by
  unfold commentNewLine
  cases n <;> simp [whileLoop, h]

theorem drop_add_of_drop (l : List Nat) (i k : Nat) (L : List Nat) (h : l.drop i = L) :
    l.drop (i + k) = L.drop k := by
  rw [← h, List.drop_drop, Nat.add_comm]

theorem commentSkip_of_run (c : Config) (body : List Nat) (s : State) (x : Nat)
    (rest : List Nat) (hlen : s.lineBuffer.length ≤ c.MAX_LINE_LEN)
    (hbody : ∀ a ∈ body, a ≠ 0 ∧ a ≠ 42 ∧ a ≠ 40) (hx : x = 0 ∨ x = 42 ∨ x = 40)
    (hd : s.lineBuffer.drop s.lineBuffPtr = body ++ x :: rest) :
    ∃ t, commentSkip c s = .ok t ∧ cursorAt s t (body.length + 1) x := by
  unfold commentSkip
  refine commentSkip_run c body s x rest (lineFuel c) hbody hx hd ?_
  have h := congrArg List.length hd
  simp only [List.length_drop, List.length_append, List.length_cons] at h
  simp only [lineFuel]
  omega

/-- The first call of `inComment` for a top-level comment whose `(*` is not directly
followed by `)`: it returns 0 with the cursor just after the opening marker. -/
theorem inComment_opening (c : Config) (m : Nat) (s : State) (v d : Nat) (rest : List Nat)
    (hlen : s.lineBuffer.length ≤ c.MAX_LINE_LEN) (hsym : s.sym = -1)
    (hd : s.lineBuffer.drop s.lineBuffPtr = 42 :: v :: d :: rest) (hv : v ≠ 41) :
    ∃ t, inComment c (m + 1) s = .ok (0, t) ∧ cursorAt s t 1 42 ∧ t.sym = -1 := by
  have h1 : readLine s (s.lineBuffPtr + 1) = .ok v :=
    readLine_of_drop s _ v (d :: rest) (drop_add_of_drop _ _ 1 _ hd)
  have h2 : readLine s (s.lineBuffPtr + 2) = .ok d :=
    readLine_of_drop s _ d rest (drop_add_of_drop _ _ 2 _ hd)
  obtain ⟨t, ht, hc⟩ := commentSkip_of_run c [] { s with enable_output := directiveValue s } 42
    (v :: d :: rest) hlen (by simp) (by simp) hd
  have htm := commentSkip_sameMode c _ t ht
  refine ⟨t, ?_, ⟨hc.1, hc.2.1, hc.2.2⟩, htm.1.trans hsym⟩
  unfold inComment
  rw [if_pos hsym, checkDirective_total s v d h1 h2]
  simp only
  rw [ht]
  simp only
  rw [commentNewLine_skip c m t (by rw [hc.1]; decide)]
  simp only [hc.1, if_true]
  unfold commentCheckClose
  have hr : readLine t t.lineBuffPtr = .ok v := by
    rw [readLine_drop_eq _ t _ hc.2.1, hc.2.2]
    exact h1
  rw [hr]
  simp only [hv, if_false]

/-- A call of `inComment` inside a comment, over text `body` free of markers that is
followed by the close marker: it returns -1 with the cursor on the `)`. -/
theorem inComment_closing (c : Config) (m : Nat) (s : State) (body : List Nat) (w : Nat)
    (rest : List Nat) (hlen : s.lineBuffer.length ≤ c.MAX_LINE_LEN) (hsym : s.sym ≠ -1)
    (hbody : ∀ a ∈ body, a ≠ 0 ∧ a ≠ 42 ∧ a ≠ 40)
    (hd : s.lineBuffer.drop s.lineBuffPtr = body ++ 42 :: 41 :: w :: rest) :
    ∃ t, inComment c (m + 1) s = .ok (-1, t) ∧ cursorAt s t (body.length + 2) 41 := by
  obtain ⟨t, ht, hc⟩ := commentSkip_of_run c body s 42 (41 :: w :: rest) hlen hbody (by simp) hd
  have hdt : t.lineBuffer.drop t.lineBuffPtr = 41 :: w :: rest := by
    rw [hc.2.1, hc.2.2, drop_add_of_drop _ _ (body.length + 1) _ hd]
    simp
  obtain ⟨u, hu, hcu⟩ := commentStep_at c t 41 (w :: rest) hdt
  refine ⟨u, ?_, hcu.1, hcu.2.1.trans hc.2.1, by rw [hcu.2.2, hc.2.2]; omega⟩
  unfold inComment
  rw [if_neg hsym]
  simp only
  rw [ht]
  simp only
  rw [commentNewLine_skip c m t (by rw [hc.1]; decide)]
  simp only [hc.1, if_true]
  unfold commentCheckClose
  rw [readLine_of_drop t _ 41 (w :: rest) hdt]
  simp only [if_true]
  rw [hu]

/-- A top-level comment on one line whose text `body` holds no `*`, `(` or NUL and does
not start with `)` is scanned to its end: `getMiscToken` returns with the current
character the one that follows the close marker. -/
theorem getMiscToken_simple_comment (c : Config) (fuel : Nat) (s : State) (body : List Nat)
    (w : Nat) (rest : List Nat) (hlen : s.lineBuffer.length ≤ c.MAX_LINE_LEN)
    (hbody : ∀ a ∈ body, a ≠ 0 ∧ a ≠ 42 ∧ a ≠ 40) (hb0 : body.head? ≠ some 41)
    (hp : pending s = 40 :: 42 :: (body ++ 42 :: 41 :: w :: rest)) (hfuel : 2 ≤ fuel) :
    ∃ s1, getMiscToken c fuel s = .ok s1 ∧ s1.ch = w := by
  obtain ⟨m, rfl⟩ : ∃ m, fuel = m + 2 := ⟨fuel - 2, by omega⟩
  simp only [pending, List.cons.injEq] at hp
  obtain ⟨h40, hd⟩ := hp
  have h42 : readLine s s.lineBuffPtr = .ok 42 := readLine_of_drop s _ 42 _ hd
  obtain ⟨v, d, rest2, hvd, hv⟩ : ∃ v d rest2,
      body ++ 42 :: 41 :: w :: rest = v :: d :: rest2 ∧ v ≠ 41 := by
    cases body with
    | nil => exact ⟨42, 41, w :: rest, rfl, by decide⟩
    | cons a r =>
      have ha : a ≠ 41 := fun h => hb0 (by simp [h])
      cases r with
      | nil => exact ⟨a, 42, 41 :: w :: rest, rfl, ha⟩
      | cons b r2 => exact ⟨a, b, r2 ++ 42 :: 41 :: w :: rest, rfl, ha⟩
  obtain ⟨t1, ht1, hc1, hs1⟩ := inComment_opening c (m + 1) { s with sym := -1 } v d rest2 hlen
    rfl (by rw [← hvd]; exact hd) hv
  have hdA : ({ t1 with sym := 0 } : State).lineBuffer.drop
      ({ t1 with sym := 0 } : State).lineBuffPtr = body ++ 42 :: 41 :: w :: rest := by
    show t1.lineBuffer.drop t1.lineBuffPtr = _
    rw [hc1.2.1, hc1.2.2]
    exact drop_succ_of_drop _ _ 42 _ hd
  obtain ⟨t3, ht3, hc3⟩ := inComment_closing c (m + 1) { t1 with sym := 0 } body w rest
    (by show t1.lineBuffer.length ≤ _; rw [hc1.2.1]; exact hlen)
    (by show (0 : Int) ≠ -1; decide) hbody hdA
  have hdB : ({ t3 with sym := -1 } : State).lineBuffer.drop
      ({ t3 with sym := -1 } : State).lineBuffPtr = w :: rest := by
    show t3.lineBuffer.drop t3.lineBuffPtr = _
    rw [hc3.2.1, hc3.2.2, drop_add_of_drop _ _ (body.length + 2) _ hdA]
    simp
  have hloop : commentLoop (inComment c (m + 2)) (m + 2) { s with sym := -1 }
      = .ok { t3 with sym := -1 } := by
    unfold commentLoop doWhile assignSym
    rw [ht1]
    simp only [ne_eq, decide_not, Bool.not_eq_true', decide_eq_false_iff_not]
    have hne : ¬ ((0 : Int) = -1) := by decide
    simp only [hne, not_false_eq_true, if_true]
    unfold doWhile
    rw [ht3]
    simp
  unfold getMiscToken
  rw [miscSwitch_comment c (m + 2) s h40 h42, hloop]
  simp only
  rw [nextChar_of_drop c _ w rest hdB]
  exact ⟨_, rfl, rfl⟩

/-- C11 as stated fails: a call `scanWarning(1)` (unnecessary hex specifier) returns and
leaves the warning counter as it was, so not every returning call adds one to it. -/
theorem hex_warning_not_counted :
    ¬ (∀ (n : Nat) (s s1 : State), n ≤ 1 → scanWarning n s = .ok s1 →
        s1.warningCount = s.warningCount + 1) := by
  intro h
  have h1 := h 1 (initState ⟨8, 4, false, true⟩ false []) _ (by decide) rfl
  revert h1
  decide

/-- C11, amended: a returning call `scanWarning(0)` adds one to the warning counter, a
returning call `scanWarning(1)` leaves the counter unchanged and records its warning, and
once the counter exceeds the threshold 10 every call of `scanWarning`, whatever its
number, ends in `scanError(4)`; below that every call returns. -/
theorem warning_counter (n : Nat) (s : State) :
    (10 < s.warningCount → scanWarning n s = .error (.scanError 4))
    ∧ (s.warningCount ≤ 10 →
        ∃ s1, scanWarning n s = .ok s1
          ∧ (n = 0 → s1.warningCount = s.warningCount + 1 ∧ s1.warnings = 0 :: s.warnings)
          ∧ (n = 1 → s1.warningCount = s.warningCount ∧ s1.warnings = 1 :: s.warnings)
          ∧ (1 < n → s1 = s)) := by
  constructor
  · intro h
    unfold scanWarning
    rw [if_pos h]
  · intro h
    unfold scanWarning
    rw [if_neg (by omega)]
    by_cases h0 : n = 0
    · rw [if_pos h0]
      exact ⟨_, rfl, fun _ => ⟨rfl, rfl⟩, fun h1 => by omega, fun h1 => by omega⟩
    · rw [if_neg h0]
      by_cases h1 : n = 1
      · rw [if_pos h1]
        exact ⟨_, rfl, fun h => absurd h h0, fun _ => ⟨rfl, rfl⟩, fun h2 => by omega⟩
      · rw [if_neg h1]
        exact ⟨_, rfl, fun h => absurd h h0, fun h => absurd h h1, fun _ => rfl⟩

theorem warning_counter_witness :
    (∃ s1, scanWarning 1 (initState ⟨8, 4, false, true⟩ false []) = .ok s1
      ∧ (1 = 0 → s1.warningCount = (initState ⟨8, 4, false, true⟩ false []).warningCount + 1
          ∧ s1.warnings = 0 :: (initState ⟨8, 4, false, true⟩ false []).warnings)
      ∧ (1 = 1 → s1.warningCount = (initState ⟨8, 4, false, true⟩ false []).warningCount
          ∧ s1.warnings = 1 :: (initState ⟨8, 4, false, true⟩ false []).warnings)
      ∧ (1 < 1 → s1 = initState ⟨8, 4, false, true⟩ false [])) :=
  (warning_counter 1 (initState ⟨8, 4, false, true⟩ false [])).2 (by decide)

/-! ### Identifiers and keywords -/

theorem checkResWord_index (i : Nat) (hi : i < resWrds.length) :
    checkResWord (cstr resWrds[i]) = (i : Int) := by
  have h28 : i < 28 := hi
  have hget : resWrds.getD i [] = resWrds[i] := by
    simp [List.getD, List.getElem?_eq_getElem hi]
  have ht := (resWrds_lookup_table ⟨i, h28⟩).1
  simpa only [hget] using ht

theorem checkResWord_other (run : List Nat) (hz : 0 ∉ run) (hm : run ∉ resWrds) :
    checkResWord (cstr run) = Ident :=
  checkResWordLoop_miss run [] hz resWrds 0 resWrds_no_nul hm

/-- C12: with the current character a letter, `run` the maximal run of letters and
digits that starts there and `x` the character after it: when `run` and its terminator
fit in `varBuffer` (`run` is shorter than `MAX_VAR_LEN`), `getAlphaToken` (in both builds,
linear and hash lookup) returns with the lexeme `run`, NUL-terminated, in `varBuffer`,
`ch = x`, the cursor advanced by the length of `run`, `sym` the index of `run` in
`resWrds` when it is one of the 28 reserved words and `Ident` otherwise, and no store
outside the array.  The defect: when `run` has exactly `MAX_VAR_LEN` characters, which
the check `varBuffPtr > MAX_VAR_LEN` lets pass, the terminator is stored at index
`MAX_VAR_LEN`, outside `varBuffer`, before the reserved-word lookup is made.  (`overrun`
lists the indices of the stores made outside the array.) -/
theorem alpha_token_lexeme_and_kind (c : Config) (s : State) (run : List Nat) (x : Nat)
    (rest : List Nat) (hlen : s.lineBuffer.length ≤ c.MAX_LINE_LEN) (h0 : s.varBuffPtr = 0)
    (hshape : isIdentShape run = true) (hx : (isAlpha x || isDigit x) = false)
    (hp : pending s = run ++ x :: rest) :
    (run.length < c.MAX_VAR_LEN →
      ∃ s1, getAlphaToken c s = .ok s1
        ∧ s1.varBuffer.take (run.length + 1) = cstr run
        ∧ s1.varBuffPtr = run.length
        ∧ s1.ch = x
        ∧ s1.lineBuffPtr = s.lineBuffPtr + run.length
        ∧ (∀ (i : Nat) (hi : i < resWrds.length), run = resWrds[i] → s1.sym = (i : Int))
        ∧ (run ∉ resWrds → s1.sym = Ident)
        ∧ s1.overrun = s.overrun)
    ∧ (run.length = c.MAX_VAR_LEN →
      ∃ s1, getAlphaToken c s = .ok s1 ∧ s1.overrun = c.MAX_VAR_LEN :: s.overrun) := by
  have hall := identShape_alnum run hshape
  have hz : 0 ∉ run := identShape_no_nul run hshape
  constructor
  · intro hfit
    rw [getAlphaToken_scan c s run x rest hlen hall hx hp, alphaFinish_scanned c s run x h0 hall,
      if_neg (by omega)]
    refine ⟨_, rfl, ?_, ?_, rfl, rfl, ?_, ?_, (alphaDone_overrun c s run x h0).1 hfit⟩
    · have : (alphaDone c s run x).varBuffer
          = run ++ 0 :: s.varBuffer.drop (run.length + 1) := by
        simp only [alphaDone, writeVar, scanned, h0, Nat.zero_add]
        exact lexeme_buffer s.varBuffer run
      rw [this, take_lexeme, cstr]
    · simp only [alphaDone, writeVar, scanned, h0, Nat.zero_add]
    · intro i hi hr
      show checkResWord (cstr run) = (i : Int)
      rw [hr]
      exact checkResWord_index i hi
    · intro hm
      exact checkResWord_other run hz hm
  · intro hn
    rw [getAlphaToken_scan c s run x rest hlen hall hx hp, alphaFinish_scanned c s run x h0 hall,
      if_neg (by omega)]
    exact ⟨_, rfl, (alphaDone_overrun c s run x h0).2 hn⟩

theorem alpha_token_lexeme_and_kind_witness :
    (∃ s1, getAlphaToken ⟨16, 8, true, false⟩
        (afterNewLine (initState ⟨16, 8, true, false⟩ false [69, 78, 68, 59, 10])
          [69, 78, 68, 59] []) = .ok s1
      ∧ s1.varBuffer.take ([69, 78, 68].length + 1) = cstr [69, 78, 68]
      ∧ s1.varBuffPtr = [69, 78, 68].length
      ∧ s1.ch = 59
      ∧ s1.lineBuffPtr
          = (afterNewLine (initState ⟨16, 8, true, false⟩ false [69, 78, 68, 59, 10])
              [69, 78, 68, 59] []).lineBuffPtr + [69, 78, 68].length
      ∧ (∀ (i : Nat) (hi : i < resWrds.length), [69, 78, 68] = resWrds[i] → s1.sym = (i : Int))
      ∧ ([69, 78, 68] ∉ resWrds → s1.sym = Ident)
      ∧ s1.overrun
          = (afterNewLine (initState ⟨16, 8, true, false⟩ false [69, 78, 68, 59, 10])
              [69, 78, 68, 59] []).overrun)
    ∧ ∃ s1, getAlphaToken ⟨16, 4, true, false⟩
        (afterNewLine (initState ⟨16, 4, true, false⟩ false [84, 72, 69, 78, 59, 10])
          [84, 72, 69, 78, 59] []) = .ok s1
      ∧ s1.overrun = 4 :: (afterNewLine (initState ⟨16, 4, true, false⟩ false
          [84, 72, 69, 78, 59, 10]) [84, 72, 69, 78, 59] []).overrun :=
  ⟨(alpha_token_lexeme_and_kind ⟨16, 8, true, false⟩
      (afterNewLine (initState ⟨16, 8, true, false⟩ false [69, 78, 68, 59, 10])
        [69, 78, 68, 59] [])
      [69, 78, 68] 59 [0, 0, 0, 0, 0, 0, 0, 0, 0, 0, 0, 0] (by decide) (by decide) (by decide)
      (by decide) (by decide)).1 (by decide),
   (alpha_token_lexeme_and_kind ⟨16, 4, true, false⟩
      (afterNewLine (initState ⟨16, 4, true, false⟩ false [84, 72, 69, 78, 59, 10])
        [84, 72, 69, 78, 59] [])
      [84, 72, 69, 78] 59 [0, 0, 0, 0, 0, 0, 0, 0, 0, 0, 0] (by decide) (by decide) (by decide)
      (by decide) (by decide)).2 (by decide)⟩

/-! ### Numerals and their leading zeros -/

theorem miscSwitch_single_token (c : Config) (fuel : Nat) (s : State) (a : Nat) (t : Int)
    (ha : (a, t) ∈ singleTokens) (hch : s.ch = a) :
    miscSwitch c fuel s = .ok { s with sym := t } := by
  simp only [singleTokens, List.mem_cons, Prod.mk.injEq, List.mem_singleton, List.not_mem_nil,
    or_false] at ha
  rcases ha with ⟨h1, h2⟩ | ⟨h1, h2⟩ | ⟨h1, h2⟩ | ⟨h1, h2⟩ | ⟨h1, h2⟩ | ⟨h1, h2⟩ | ⟨h1, h2⟩
    | ⟨h1, h2⟩ | ⟨h1, h2⟩ | ⟨h1, h2⟩ | ⟨h1, h2⟩ | ⟨h1, h2⟩ | ⟨h1, h2⟩ <;>
    subst h1 h2 <;> simp [miscSwitch, hch]

theorem miscSwitch_lparen (c : Config) (fuel : Nat) (s : State) (y : Nat) (hch : s.ch = 40)
    (hr : readLine s s.lineBuffPtr = .ok y) (hy : y ≠ 42) :
    miscSwitch c fuel s = .ok { s with sym := LPAREN } := by
  simp [miscSwitch, hch, hr, hy]

/-- C15: with the lexeme buffer empty, `getMiscToken` maps each of the characters
`+ - ~ = # & * , ; [ ] | )`, and `(` when the next character is not `*`, to its own token
kind, leaves that one character as the NUL-terminated lexeme, makes the next character
current and advances the cursor by one; the 14 kinds are pairwise distinct.  On `(`
followed by `*` the switch runs the comment loop from `sym = -1`, and if `getMiscToken`
returns, `sym` is -1 and not `LPAREN`. -/
theorem single_tokens_mapped (c : Config) (fuel : Nat) (s : State) (h0 : s.varBuffPtr = 0) :
    (∀ (a : Nat) (t : Int),
      (a, t) ∈ [(43, PLUS), (45, MINUS), (126, TILDE), (61, EQUAL), (35, POUND), (38, AND),
        (42, MULT), (44, COMMA), (59, SEMIC), (91, LBRAC), (93, RBRAC), (124, PIPE),
        (41, RPAREN)] →
      ∀ (w : Nat) (rest : List Nat), pending s = a :: w :: rest →
        ∃ s1, getMiscToken c fuel s = .ok s1 ∧ s1.sym = t
          ∧ s1.varBuffer.take 2 = [a, 0] ∧ s1.varBuffPtr = 1 ∧ s1.ch = w
          ∧ s1.lineBuffPtr = s.lineBuffPtr + 1)
    ∧ (∀ (w : Nat) (rest : List Nat), w ≠ 42 → pending s = 40 :: w :: rest →
        ∃ s1, getMiscToken c fuel s = .ok s1 ∧ s1.sym = LPAREN
          ∧ s1.varBuffer.take 2 = [40, 0] ∧ s1.varBuffPtr = 1 ∧ s1.ch = w
          ∧ s1.lineBuffPtr = s.lineBuffPtr + 1)
    ∧ [PLUS, MINUS, TILDE, EQUAL, POUND, AND, MULT, COMMA, SEMIC, LBRAC, RBRAC, PIPE, RPAREN,
        LPAREN].Nodup
    ∧ (∀ (rest : List Nat), pending s = 40 :: 42 :: rest →
        miscSwitch c fuel s = commentLoop (inComment c fuel) fuel { s with sym := -1 }
        ∧ ∀ s1, getMiscToken c fuel s = .ok s1 → s1.sym = -1 ∧ s1.sym ≠ LPAREN) := by
  refine ⟨?_, ?_, by decide, ?_⟩
  · intro a t ha w rest hp
    have hch : s.ch = a := by simp only [pending, List.cons.injEq] at hp; exact hp.1
    refine ⟨_, getMiscToken_single c fuel s t a w rest
      (miscSwitch_single_token c fuel s a t ha hch) hp, rfl, ?_, ?_, rfl, rfl⟩
    · rw [miscDone_varBuffer c s t [a] w h0]; rfl
    · simp [miscDone, writeVar, scanned, h0]
  · intro w rest hw hp
    have hch : s.ch = 40 := by simp only [pending, List.cons.injEq] at hp; exact hp.1
    have hd : s.lineBuffer.drop s.lineBuffPtr = w :: rest := by
      simp only [pending, List.cons.injEq] at hp; exact hp.2
    refine ⟨_, getMiscToken_single c fuel s LPAREN 40 w rest
      (miscSwitch_lparen c fuel s w hch (readLine_of_drop s _ w rest hd) hw) hp, rfl, ?_, ?_,
      rfl, rfl⟩
    · rw [miscDone_varBuffer c s LPAREN [40] w h0]; rfl
    · simp [miscDone, writeVar, scanned, h0]
  · intro rest hp
    have hch : s.ch = 40 := by simp only [pending, List.cons.injEq] at hp; exact hp.1
    have hd : s.lineBuffer.drop s.lineBuffPtr = 42 :: rest := by
      simp only [pending, List.cons.injEq] at hp; exact hp.2
    have h42 : readLine s s.lineBuffPtr = .ok 42 := readLine_of_drop s _ 42 rest hd
    refine ⟨miscSwitch_comment c fuel s hch h42, ?_⟩
    intro s1 h
    have hs := (getMiscToken_comment c fuel s s1 hch h42 h).1
    exact ⟨hs, by rw [hs]; decide⟩

theorem single_tokens_mapped_witness :
    (∃ s1, getMiscToken ⟨8, 4, false, false⟩ 0
        (afterNewLine (initState ⟨8, 4, false, false⟩ false [59, 120, 10]) [59, 120] [])
        = .ok s1 ∧ s1.sym = SEMIC ∧ s1.varBuffer.take 2 = [59, 0] ∧ s1.varBuffPtr = 1
        ∧ s1.ch = 120 ∧ s1.lineBuffPtr = 1 + 1)
    ∧ (∃ s1, getMiscToken ⟨8, 4, false, false⟩ 0
        (afterNewLine (initState ⟨8, 4, false, false⟩ false [40, 120, 10]) [40, 120] [])
        = .ok s1 ∧ s1.sym = LPAREN ∧ s1.varBuffer.take 2 = [40, 0] ∧ s1.varBuffPtr = 1
        ∧ s1.ch = 120 ∧ s1.lineBuffPtr = 1 + 1) :=
  ⟨(single_tokens_mapped ⟨8, 4, false, false⟩ 0
      (afterNewLine (initState ⟨8, 4, false, false⟩ false [59, 120, 10]) [59, 120] [])
      (by decide)).1 59 SEMIC (by decide) 120 [0, 0, 0, 0, 0, 0] (by decide),
   (single_tokens_mapped ⟨8, 4, false, false⟩ 0
      (afterNewLine (initState ⟨8, 4, false, false⟩ false [40, 120, 10]) [40, 120] [])
      (by decide)).2.1 120 [0, 0, 0, 0, 0, 0] (by decide) (by decide)⟩

/-! ### The hash function on the reserved words -/

/-- C16: `hash` is a minimal perfect hash on the 28 reserved words: applied to the name
at index `k` of `wordlist` (with its length) it returns `k`; hence the 28 keys are
pairwise distinct and are exactly the values 0 to `MAX_HASH_VALUE` = 27.  `DIV` sums to
`iVal = 34`, the special case of the `return`, and gets key 27; no other reserved word
sums to 34. -/
theorem hash_minimal_perfect :
    (∀ k : Fin 28, hash (cstr (wordlist.getD k ⟨[], 0⟩).name)
        (wordlist.getD k ⟨[], 0⟩).name.length = .ok k.val)
    ∧ wordlist.length = MAX_HASH_VALUE + 1
    ∧ (wordlist.map (fun e => hash (cstr e.name) e.name.length)).Nodup
    ∧ wordlist.map (fun e => hash (cstr e.name) e.name.length)
        = (List.range (MAX_HASH_VALUE + 1)).map Except.ok
    ∧ (wordlist.map (fun e => e.name)).Perm resWrds
    ∧ hashSum (cstr [68, 73, 86]) 3 = .ok 34
    ∧ hash (cstr [68, 73, 86]) 3 = .ok 27
    ∧ (∀ e ∈ wordlist, hashSum (cstr e.name) e.name.length = .ok 34 → e.name = [68, 73, 86])
    ∧ (∀ (word : List Nat) (len : Nat),
        hashBody word len = hashSum word len >>= fun v => .ok (hashFinal v)) := by
  refine ⟨?_, ?_, ?_, ?_, ?_, ?_, ?_, ?_, ?_⟩
  · decide
  · decide
  · decide
  · decide
  · decide
  · decide
  · decide
  · decide
  · intro word len
    unfold hashBody hashSum
    simp only [bind_assoc]

/-! ### The hash lookup stays in bounds -/

theorem pow32 : (2 : Nat) ^ 32 = 4294967296 := by norm_num

theorem hashTemp_range (ch : Nat) :
    (65 ≤ ch % 256 ∧ ch % 256 ≤ 89 → hashTemp ch = ch % 256 - 65 ∧ hashTemp ch ≤ 24)
    ∧ (¬ (65 ≤ ch % 256 ∧ ch % 256 ≤ 89) → hashTemp ch > 24) := by
  unfold hashTemp
  rw [pow32]
  constructor
  · intro h
    omega
  · intro h
    omega

theorem hashVals_entries : ∀ i : Nat, i < 25 →
    hashVals[i]? = some (hashVals.getD i 0) ∧ 1 ≤ hashVals.getD i 0
      ∧ hashVals.getD i 0 ≤ 35 := by
  decide

theorem hashStep_in_range (iVal ch : Nat) (h : 65 ≤ ch % 256 ∧ ch % 256 ≤ 89) :
    hashStep iVal ch = .ok ((iVal + hashVals.getD (ch % 256 - 65) 0) % 2 ^ 32) := by
  have ht := (hashTemp_range ch).1 h
  unfold hashStep
  rw [if_neg (by rw [ht.1]; simp only [NUM_HASH_VALS]; omega), ht.1,
    (hashVals_entries (ch % 256 - 65) (by omega)).1]

theorem hashStep_out_of_range (iVal ch : Nat) (h : ¬ (65 ≤ ch % 256 ∧ ch % 256 ≤ 89)) :
    hashStep iVal ch = .error (.ret 0) := by
  have ht := (hashTemp_range ch).2 h
  unfold hashStep
  rw [if_pos (by simp only [NUM_HASH_VALS]; omega)]

theorem hashStep_grows (iVal ch v : Nat) (hi : iVal ≤ 1000) (h : hashStep iVal ch = .ok v) :
    iVal + 1 ≤ v ∧ v ≤ iVal + 35 := by
  by_cases hr : 65 ≤ ch % 256 ∧ ch % 256 ≤ 89
  · rw [hashStep_in_range iVal ch hr] at h
    have hv : (iVal + hashVals.getD (ch % 256 - 65) 0) % 2 ^ 32 = v := Except.ok.inj h
    have he := hashVals_entries (ch % 256 - 65) (by omega)
    rw [Nat.mod_eq_of_lt (by rw [pow32]; omega)] at hv
    omega
  · rw [hashStep_out_of_range iVal ch hr] at h
    cases h

theorem hashSum_bounds (word : List Nat) (len v : Nat) (hmin : 2 ≤ len) (hmax : len ≤ 9)
    (h : hashSum word len = .ok v) : 4 ≤ v ∧ v ≤ 114 := by
  unfold hashSum at h
  obtain ⟨v1, h1, h⟩ := bind_eq_ok _ _ _ h
  obtain ⟨v2, h2, h3⟩ := bind_eq_ok _ _ _ h
  have hv1 : 2 ≤ v1 ∧ v1 ≤ 44 ∧ (len ≠ 2 → 4 ≤ v1) := by
    by_cases hl : len = 2 ∨ len = 1
    · rw [if_pos hl] at h1
      have : len = v1 := Except.ok.inj h1
      omega
    · rw [if_neg hl] at h1
      have := hashStep_grows _ _ _ (by omega) h1
      omega
  have hv2 := hashStep_grows _ _ _ (by omega) h2
  have hv3 := hashStep_grows _ _ _ (by omega) h3
  omega

theorem hashFinal_exact (v : Nat) (h4 : 4 ≤ v) (h : v ≤ 114) :
    hashFinal v = if v = 34 then 27 else v - 4 := by
  unfold hashFinal
  by_cases h34 : v = 34
  · rw [if_pos h34, if_pos h34, h34]
  · rw [if_neg h34, if_neg h34, pow32]
    omega

/-- C17: for every spelling `word` and length `len` with `MIN_WORD_LEN <= len <=
MAX_WORD_LEN` the hash `checkResWord` returns and stays inside its tables: a step of
`hash` reads `hashVals` at `ch - 65` when the byte `ch` is one of `A`..`Y`, an index in
0..24, and returns 0 before reading otherwise; `hash` has no read outside `hashVals`; the
sum it reaches lies between 4 and 114, so the final subtraction `iVal - 4` does not wrap
around; `hash` returns a key, a key above `MAX_HASH_VALUE` gives the null pointer, a key
up to `MAX_HASH_VALUE` selects an entry of `wordlist` that exists, and the result is that
entry when the confirmation comparison succeeds and the null pointer when it fails.  For
a NUL-terminated spelling the entry found is spelled like the word. -/
theorem hash_lookup_in_bounds (word : List Nat) (len : Nat) (hmin : MIN_WORD_LEN ≤ len)
    (hmax : len ≤ MAX_WORD_LEN) :
    (∀ (iVal ch : Nat),
      (65 ≤ ch % 256 ∧ ch % 256 ≤ 89 →
        ch % 256 - 65 < hashVals.length
        ∧ hashStep iVal ch = .ok ((iVal + hashVals.getD (ch % 256 - 65) 0) % 2 ^ 32))
      ∧ (¬ (65 ≤ ch % 256 ∧ ch % 256 ≤ 89) → hashStep iVal ch = .error (.ret 0)))
    ∧ (∀ i, hashBody word len ≠ .error (.oob i))
    ∧ (∀ v, hashSum word len = .ok v →
        4 ≤ v ∧ v ≤ 114 ∧ hashFinal v = (if v = 34 then 27 else v - 4)
        ∧ hashBody word len = .ok (hashFinal v))
    ∧ (∃ key, hash word len = .ok key
        ∧ (MAX_HASH_VALUE < key → checkResWordHash word len = .ok none)
        ∧ (key ≤ MAX_HASH_VALUE → ∃ e, wordlist[key]? = some e
            ∧ checkResWordHash word len
              = if word.getD 0 0 = (cstr e.name).getD 0 0
                    ∧ cmpWords (word.drop 1) ((cstr e.name).drop 1) = true
                then .ok (some e) else .ok none))
    ∧ (∀ (w rest : List Nat), word = w ++ 0 :: rest → len = w.length → 0 ∉ w →
        checkResWordHash word len = .ok none
        ∨ ∃ e, e ∈ wordlist ∧ e.name = w ∧ checkResWordHash word len = .ok (some e)) := by
  have hmin2 : 2 ≤ len := hmin
  have hmax9 : len ≤ 9 := hmax
  refine ⟨?_, ?_, ?_, ?_, ?_⟩
  · intro iVal ch
    refine ⟨fun h => ⟨?_, hashStep_in_range iVal ch h⟩, hashStep_out_of_range iVal ch⟩
    have h25 : hashVals.length = 25 := by decide
    omega
  · intro i h
    have := hashBody_error word len _ h
    cases this
  · intro v h
    have hb := hashSum_bounds word len v hmin2 hmax9 h
    refine ⟨hb.1, hb.2, hashFinal_exact v hb.1 hb.2, ?_⟩
    have hbody : hashBody word len = hashSum word len >>= fun v => .ok (hashFinal v) := by
      unfold hashBody hashSum
      simp only [bind_assoc]
    rw [hbody, h]
    rfl
  · obtain ⟨key, hkey⟩ := hash_ok word len
    refine ⟨key, hkey, ?_, ?_⟩
    · intro hk
      unfold checkResWordHash
      rw [if_pos ⟨hmax, hmin⟩, hkey]
      simp only
      rw [if_neg (by omega)]
    · intro hk
      have hlt : key < wordlist.length := by
        rw [wordlist_length]; simp only [MAX_HASH_VALUE] at hk; omega
      refine ⟨wordlist[key], List.getElem?_eq_getElem hlt, ?_⟩
      unfold checkResWordHash
      rw [if_pos ⟨hmax, hmin⟩, hkey]
      simp only
      rw [if_pos hk, List.getElem?_eq_getElem hlt]
  · intro w rest hw hl hz
    subst hw hl
    exact checkResWordHash_spec w rest hz

theorem hash_lookup_in_bounds_witness :
    checkResWordHash ([200, 3, 66] ++ 0 :: [7]) [200, 3, 66].length = .ok none
    ∨ ∃ e, e ∈ wordlist ∧ e.name = [200, 3, 66]
        ∧ checkResWordHash ([200, 3, 66] ++ 0 :: [7]) [200, 3, 66].length = .ok (some e) :=
  (hash_lookup_in_bounds ([200, 3, 66] ++ 0 :: [7]) [200, 3, 66].length (by decide)
    (by decide)).2.2.2.2 [200, 3, 66] [7] rfl rfl (by decide)

/-! ### The end-of-line sentinel on the last line -/

theorem whileLoop_once (cond : State → Bool) (body : State → Except Err State)
    (n : Nat) (s s1 : State) (hc : cond s = true) (hb : body s = .ok s1)
    (hc1 : cond s1 = false) : whileLoop cond body (n + 1) s = .ok s1 := by
  cases n <;> simp [whileLoop, hc, hb, hc1]

theorem miscSwitch_sentinel (c : Config) (fuel : Nat) (s : State) (hch : s.ch = 0) :
    miscSwitch c fuel s
      = if c.ERROR_HANDLING then scanWarning 0 { s with sym := UNKNOWN }
        else .error (.scanError 0) := by
  simp [miscSwitch, hch]

theorem getMiscToken_sentinel_strict (c : Config) (fuel : Nat) (s : State) (hch : s.ch = 0)
    (hE : c.ERROR_HANDLING = false) : getMiscToken c fuel s = .error (.scanError 0) := by
  unfold getMiscToken
  rw [miscSwitch_sentinel c fuel s hch, hE]
  rfl

theorem getMiscToken_sentinel_lenient (c : Config) (fuel : Nat) (s : State) (v : Nat)
    (rest : List Nat) (hch : s.ch = 0) (hE : c.ERROR_HANDLING = true)
    (hw : s.warningCount ≤ 10) (hd : s.lineBuffer.drop s.lineBuffPtr = v :: rest) :
    getMiscToken c fuel s = .ok (unknownDone c s v) := by
  unfold getMiscToken
  rw [miscSwitch_sentinel c fuel s hch, hE, if_pos rfl]
  unfold scanWarning
  rw [if_neg (show ¬ ({ s with sym := UNKNOWN } : State).warningCount > 10 from by
    show ¬ s.warningCount > 10; omega), if_pos rfl]
  simp only
  rw [nextChar_at c _ s.ch v rest (by simp only [pending, hd])]
  rfl

theorem skipSep_none (c : Config) (s : State) (h : isSep s.ch = false) :
    skipSep c s = .ok s := by
  unfold skipSep lineFuel whileLoop
  simp [h]

theorem printSym_real (s : State) (h : 0 ≤ s.sym ∧ s.sym < NUM_SYMBOLS) :
    printSym s = .ok s := by
  unfold printSym
  rw [if_pos h]
  simp

theorem afterNewLine_blank (s : State) (line : List Nat)
    (hsep : ∀ a ∈ line, isSep a = true) :
    (afterNewLine s line []).ch = 0 ∧ (afterNewLine s line []).EOFflag = true
      ∧ (afterNewLine s line []).lineBuffPtr = line.length + 1 := by
  have hdrop : line.dropWhile isSep = [] := List.dropWhile_eq_nil_iff.mpr hsep
  have htake : line.takeWhile isSep = line := List.takeWhile_eq_self_iff.mpr hsep
  refine ⟨?_, rfl, ?_⟩
  · simp only [afterNewLine, hdrop]
    rfl
  · simp only [afterNewLine, htake]

theorem blank_line_refill (c : Config) (fuel : Nat) (s : State) (line : List Nat)
    (hlen : s.lineBuffer.length = c.MAX_LINE_LEN) (hsep : ∀ a ∈ line, isSep a = true)
    (hf : s.file = line ++ [10]) (hfit : line.length < c.MAX_LINE_LEN)
    (hch : s.ch = 0) (heof : s.EOFflag = false) :
    whileLoop (fun s => s.ch = 0 && !s.EOFflag) (newLine c) (fuel + 1)
        { s with varBuffPtr := 0 }
      = .ok (afterNewLine { s with varBuffPtr := 0 } line []) := by
  have h10 : 10 ∉ line := fun h => by have := hsep 10 h; simp [isSep] at this
  have hnl := newLine_line c { s with varBuffPtr := 0 } line [] hlen h10 hf hfit
  have hb := afterNewLine_blank { s with varBuffPtr := 0 } line hsep
  exact whileLoop_once _ _ fuel _ _ (by simp [hch, heof]) hnl (by simp [hb.2.1])

theorem blank_line_stale (s : State) (line : List Nat) (hfit : line.length < s.lineBuffer.length) :
    (afterNewLine s line []).lineBuffer.drop (line.length + 1)
      = s.lineBuffer.drop (line.length + 1) := by
  simp only [afterNewLine, lineRead]
  rw [storeLine_eq line s.lineBuffer 0 (by omega)]
  simp

/-- C18: when the last line of the input is empty or holds only separators, the refill
loop of `nextSym` reads it, sets `EOFflag` and stops with the end-of-line sentinel NUL as
current character, which goes to `getMiscToken`: in the build without `ERROR_HANDLING`
`nextSym` ends in `scanError(0)`; in the build with it `getMiscToken` makes the sentinel
an `UNKNOWN` token after one `scanWarning(0)`, the lexeme being the NUL itself and the
cursor moving to `endOfLine + 2`, and `nextSym` returns that token (or ends in
`scanError(4)` when the warning counter exceeds 10).  The byte `v` after the sentinel,
which becomes the current character, is taken to be in the buffer and, for the result of
`nextSym`, not to be a separator. -/
theorem sentinel_on_blank_last_line (c : Config) (fuel : Nat) (s : State) (line : List Nat)
    (hlen : s.lineBuffer.length = c.MAX_LINE_LEN) (hsep : ∀ a ∈ line, isSep a = true)
    (hf : s.file = line ++ [10]) (hfit : line.length < c.MAX_LINE_LEN)
    (hch : s.ch = 0) (heof : s.EOFflag = false) :
    (∃ s1, whileLoop (fun s => s.ch = 0 && !s.EOFflag) (newLine c) (fuel + 1)
          { s with varBuffPtr := 0 } = .ok s1
        ∧ s1 = afterNewLine { s with varBuffPtr := 0 } line []
        ∧ s1.ch = 0 ∧ s1.EOFflag = true ∧ s1.lineBuffPtr = line.length + 1
        ∧ s1.endOfLine = (line.length : Int))
    ∧ (c.ERROR_HANDLING = false → nextSym c (fuel + 2) s = .error (.scanError 0))
    ∧ (c.ERROR_HANDLING = true → 10 < s.warningCount →
        nextSym c (fuel + 2) s = .error (.scanError 4))
    ∧ (c.ERROR_HANDLING = true → s.warningCount ≤ 10 → ∀ (v : Nat) (rest : List Nat),
        s.lineBuffer.drop (line.length + 1) = v :: rest →
        (∃ t, getMiscToken c (fuel + 1) (afterNewLine { s with varBuffPtr := 0 } line [])
              = .ok t
            ∧ t.sym = UNKNOWN ∧ t.warnings = 0 :: s.warnings
            ∧ t.warningCount = s.warningCount + 1 ∧ t.varBuffer.take 2 = [0, 0]
            ∧ t.varBuffPtr = 1 ∧ t.ch = v ∧ t.EOFflag = true
            ∧ t.endOfLine = (line.length : Int) ∧ t.lineBuffPtr = line.length + 2)
        ∧ (isSep v = false →
          ∃ s2, nextSym c (fuel + 2) s = .ok s2 ∧ s2.sym = UNKNOWN
            ∧ s2.warnings = 0 :: s.warnings ∧ s2.warningCount = s.warningCount + 1
            ∧ s2.varBuffer.take 2 = [0, 0] ∧ s2.varBuffPtr = 1 ∧ s2.ch = v
            ∧ s2.EOFflag = true
            ∧ s2.endOfLine = (line.length : Int) ∧ s2.lineBuffPtr = line.length + 2)) := by
  have hloop := blank_line_refill c fuel s line hlen hsep hf hfit hch heof
  have hb := afterNewLine_blank { s with varBuffPtr := 0 } line hsep
  have hA : isAlpha (afterNewLine { s with varBuffPtr := 0 } line []).ch = false := by
    rw [hb.1]; decide
  have hD : isDigit (afterNewLine { s with varBuffPtr := 0 } line []).ch = false := by
    rw [hb.1]; decide
  refine ⟨⟨_, hloop, rfl, hb.1, hb.2.1, hb.2.2, rfl⟩, ?_, ?_, ?_⟩
  · intro hE
    unfold nextSym
    rw [hloop]
    simp only [hA, hD, Bool.false_eq_true, if_false]
    rw [getMiscToken_sentinel_strict c (fuel + 1) _ hb.1 hE]
  · intro hE hw
    unfold nextSym
    rw [hloop]
    simp only [hA, hD, Bool.false_eq_true, if_false]
    unfold getMiscToken
    rw [miscSwitch_sentinel c (fuel + 1) _ hb.1, hE, if_pos rfl]
    unfold scanWarning
    rw [if_pos (show ({ afterNewLine { s with varBuffPtr := 0 } line [] with
      sym := UNKNOWN } : State).warningCount > 10 from hw)]
  · intro hE hw v rest hv
    have hd1 : (afterNewLine { s with varBuffPtr := 0 } line []).lineBuffer.drop
        (afterNewLine { s with varBuffPtr := 0 } line []).lineBuffPtr = v :: rest := by
      rw [hb.2.2, blank_line_stale { s with varBuffPtr := 0 } line (by rw [hlen]; exact hfit)]
      exact hv
    have hmisc := getMiscToken_sentinel_lenient c (fuel + 1) _ v rest hb.1 hE hw hd1
    have hvb : (unknownDone c (afterNewLine { s with varBuffPtr := 0 } line []) v).varBuffer.take 2
        = [0, 0] := by
      show (setPad (writeRun s.varBuffer 0 [(afterNewLine { s with varBuffPtr := 0 } line []).ch])
        (0 + 1) 0).take 2 = [0, 0]
      rw [hb.1]
      have := lexeme_buffer s.varBuffer [0]
      simp only [List.length_singleton] at this
      rw [Nat.zero_add, this]
      rfl
    have hptr : (unknownDone c (afterNewLine { s with varBuffPtr := 0 } line []) v).lineBuffPtr
        = line.length + 2 := by
      show (afterNewLine { s with varBuffPtr := 0 } line []).lineBuffPtr + 1 = line.length + 2
      rw [hb.2.2]
    constructor
    · exact ⟨_, hmisc, rfl, rfl, rfl, hvb, rfl, rfl, hb.2.1, rfl, hptr⟩
    · intro hvs
      unfold nextSym
      rw [hloop]
      simp only [hA, hD, Bool.false_eq_true, if_false]
      rw [hmisc]
      simp only
      rw [skipSep_none c _ hvs]
      simp only
      rw [if_neg (by
        intro h
        have h1 := h.1
        revert h1
        show ¬ (UNKNOWN = -1)
        decide)]
      rw [printSym_real _ (by
        show 0 ≤ UNKNOWN ∧ UNKNOWN < (NUM_SYMBOLS : Int)
        decide)]
      exact ⟨_, rfl, rfl, rfl, rfl, hvb, rfl, rfl, hb.2.1, rfl, hptr⟩

theorem sentinel_on_blank_last_line_witness :
    nextSym ⟨8, 4, false, false⟩ (0 + 2) (initState ⟨8, 4, false, false⟩ false [32, 10])
        = .error (.scanError 0)
    ∧ ∃ s2, nextSym ⟨8, 4, false, true⟩ (0 + 2) (initState ⟨8, 4, false, true⟩ false [10])
          = .ok s2 ∧ s2.sym = UNKNOWN
        ∧ s2.warnings = 0 :: (initState ⟨8, 4, false, true⟩ false [10]).warnings
        ∧ s2.warningCount = (initState ⟨8, 4, false, true⟩ false [10]).warningCount + 1
        ∧ s2.varBuffer.take 2 = [0, 0] ∧ s2.varBuffPtr = 1 ∧ s2.ch = 0
        ∧ s2.EOFflag = true
        ∧ s2.endOfLine = (([] : List Nat).length : Int)
        ∧ s2.lineBuffPtr = ([] : List Nat).length + 2 :=
  ⟨(sentinel_on_blank_last_line ⟨8, 4, false, false⟩ 0
      (initState ⟨8, 4, false, false⟩ false [32, 10]) [32] (by decide) (by decide) (by decide)
      (by decide) (by decide) (by decide)).2.1 (by decide),
   ((sentinel_on_blank_last_line ⟨8, 4, false, true⟩ 0
      (initState ⟨8, 4, false, true⟩ false [10]) [] (by decide) (by decide) (by decide)
      (by decide) (by decide) (by decide)).2.2.2 (by decide) (by decide) 0 [0, 0, 0, 0, 0, 0]
      (by decide)).2 (by decide)⟩

/-! ### The three characters `(*)` -/

theorem directiveValue_plain (s : State) (v : Nat)
    (hv : readLine s (s.lineBuffPtr + 1) = .ok v) (h : v ≠ 115) :
    directiveValue s = s.enable_output := by
  unfold directiveValue
  rw [hv, if_neg (fun hh => h (Except.ok.inj hh.1)), if_neg (fun hh => h (Except.ok.inj hh.1))]

/-- The first call of `inComment` for a top-level comment whose `(*` is directly followed
by `)`: the skip stops on the star of the opening marker and the `)` is taken for the
close marker. -/
theorem inComment_self_closing (c : Config) (m : Nat) (s : State) (w : Nat) (rest : List Nat)
    (hlen : s.lineBuffer.length ≤ c.MAX_LINE_LEN) (hsym : s.sym = -1)
    (hd : s.lineBuffer.drop s.lineBuffPtr = 42 :: 41 :: w :: rest) :
    ∃ t u, commentSkip c s = .ok t ∧ cursorAt s t 1 42
      ∧ commentCheckClose c t = .ok (-1, u)
      ∧ inComment c (m + 1) s = .ok (-1, u) ∧ cursorAt s u 2 41
      ∧ u.enable_output = s.enable_output := by
  have h1 : readLine s (s.lineBuffPtr + 1) = .ok 41 :=
    readLine_of_drop s _ 41 (w :: rest) (drop_add_of_drop _ _ 1 _ hd)
  have h2 : readLine s (s.lineBuffPtr + 2) = .ok w :=
    readLine_of_drop s _ w rest (drop_add_of_drop _ _ 2 _ hd)
  have hdv : directiveValue s = s.enable_output := directiveValue_plain s 41 h1 (by decide)
  have hself : ({ s with enable_output := directiveValue s } : State) = s := by
    rw [hdv]
  obtain ⟨t, ht, hc⟩ := commentSkip_of_run c [] s 42 (41 :: w :: rest) hlen (by simp) (by simp) hd
  have hdt : t.lineBuffer.drop t.lineBuffPtr = 41 :: w :: rest := by
    rw [hc.2.1, hc.2.2]
    exact drop_add_of_drop _ _ 1 _ hd
  obtain ⟨u, hu, hcu⟩ := commentStep_at c t 41 (w :: rest) hdt
  have hclose : commentCheckClose c t = .ok (-1, u) := by
    unfold commentCheckClose
    rw [readLine_of_drop t _ 41 (w :: rest) hdt]
    simp only [if_true]
    rw [hu]
  have hmode := sameMode_trans (commentSkip_sameMode c s t ht) (commentStep_sameMode c t u hu)
  refine ⟨t, u, ht, ⟨hc.1, hc.2.1, hc.2.2⟩, hclose, ?_,
    ⟨hcu.1, hcu.2.1.trans hc.2.1, by rw [hcu.2.2, hc.2.2]; rfl⟩, hmode.2⟩
  unfold inComment
  rw [if_pos hsym, checkDirective_total s 41 w h1 h2, hself]
  simp only
  rw [ht]
  simp only
  rw [commentNewLine_skip c m t (by rw [hc.1]; decide)]
  simp only [hc.1, if_true]
  exact hclose

/-- Scanning `(*)` at top level: `getMiscToken` returns with the comment closed. -/
theorem getMiscToken_self_closing (c : Config) (fuel : Nat) (s : State) (w : Nat)
    (rest : List Nat) (hlen : s.lineBuffer.length ≤ c.MAX_LINE_LEN)
    (hp : pending s = 40 :: 42 :: 41 :: w :: rest) :
    ∃ s1, getMiscToken c (fuel + 1) s = .ok s1 ∧ s1.sym = -1 ∧ s1.ch = w
      ∧ s1.lineBuffPtr = s.lineBuffPtr + 3 ∧ s1.enable_output = s.enable_output := by
  simp only [pending, List.cons.injEq] at hp
  obtain ⟨h40, hd⟩ := hp
  have h42 : readLine s s.lineBuffPtr = .ok 42 := readLine_of_drop s _ 42 _ hd
  obtain ⟨t, u, -, -, -, hu, hcu, hout⟩ :=
    inComment_self_closing c fuel { s with sym := -1 } w rest hlen rfl hd
  have hdB : ({ u with sym := -1 } : State).lineBuffer.drop
      ({ u with sym := -1 } : State).lineBuffPtr = w :: rest := by
    show u.lineBuffer.drop u.lineBuffPtr = _
    rw [hcu.2.1, hcu.2.2]
    exact drop_add_of_drop _ _ 2 _ hd
  have hloop : commentLoop (inComment c (fuel + 1)) (fuel + 1) { s with sym := -1 }
      = .ok { u with sym := -1 } := by
    unfold commentLoop doWhile assignSym
    rw [hu]
    simp
  unfold getMiscToken
  rw [miscSwitch_comment c (fuel + 1) s h40 h42, hloop]
  simp only
  rw [nextChar_of_drop c _ w rest hdB]
  refine ⟨_, rfl, rfl, rfl, ?_, hout⟩
  show u.lineBuffPtr + 1 = s.lineBuffPtr + 3
  rw [hcu.2.2]

/-- Inside a comment already open (`sym` is not -1) the characters `(*)` open a nested
comment, and the `)` is skipped as comment text: the nested comment is closed by the
next close marker. -/
theorem commentCheckOpen_nested (c : Config) (m : Nat) (s : State) (body : List Nat)
    (w : Nat) (rest : List Nat) (hlen : s.lineBuffer.length ≤ c.MAX_LINE_LEN)
    (hsym : s.sym ≠ -1) (hbody : ∀ a ∈ body, a ≠ 0 ∧ a ≠ 42 ∧ a ≠ 40)
    (hd : s.lineBuffer.drop s.lineBuffPtr = 42 :: 41 :: (body ++ 42 :: 41 :: w :: rest)) :
    ∃ t, commentCheckOpen c (inComment c (m + 1)) (m + 1) s = .ok t ∧ t.sym = -1
      ∧ cursorAt s t (body.length + 4) 41 := by
  obtain ⟨s1, hs1, hc1⟩ := commentStep_at c s 42 _ hd
  have hm1 := commentStep_sameMode c s s1 hs1
  have hd1 : s1.lineBuffer.drop s1.lineBuffPtr = (41 :: body) ++ 42 :: 41 :: w :: rest := by
    rw [hc1.2.1, hc1.2.2]
    exact drop_add_of_drop _ _ 1 _ hd
  obtain ⟨t, ht, hct⟩ := inComment_closing c m s1 (41 :: body) w rest
    (by rw [hc1.2.1]; exact hlen) (by rw [hm1.1]; exact hsym)
    (by
      intro a ha
      rcases List.mem_cons.mp ha with h | h
      · subst h; decide
      · exact hbody a h) hd1
  refine ⟨{ t with sym := -1 }, ?_, rfl, hct.1, hct.2.1.trans hc1.2.1, ?_⟩
  · unfold commentCheckOpen
    rw [readLine_of_drop s _ 42 _ hd]
    simp only [if_true]
    rw [hs1]
    simp only
    unfold commentLoop doWhile assignSym
    rw [ht]
    simp
  · show t.lineBuffPtr = s.lineBuffPtr + (body.length + 4)
    rw [hct.2.2, hc1.2.2]
    simp only [List.length_cons]
    omega

/-- C19: at top level the characters `(*)` are scanned as a complete comment: the first
`commentSkip` stops on the star of the opening marker, `commentCheckClose` finds `)` after
it and returns -1, and `getMiscToken` returns with `sym = -1` and the character after the
`)` as current character; on the line `(*) x` the next token is `Ident` with lexeme `x`.
Inside a comment already open the same characters open a nested comment and the `)` is
passed over as comment text, the nested comment being closed by the next `*)`; on the
line `(* (*) x *) y *) z` the next token is `Ident` with lexeme `z`. -/
theorem self_closing_comment (c : Config) (fuel : Nat) (s : State)
    (hlen : s.lineBuffer.length ≤ c.MAX_LINE_LEN) :
    (∀ (w : Nat) (rest : List Nat), pending s = 40 :: 42 :: 41 :: w :: rest →
      (∃ t u, commentSkip c { s with sym := -1 } = .ok t ∧ cursorAt s t 1 42
        ∧ commentCheckClose c t = .ok (-1, u)
        ∧ inComment c (fuel + 1) { s with sym := -1 } = .ok (-1, u) ∧ cursorAt s u 2 41)
      ∧ ∃ s1, getMiscToken c (fuel + 1) s = .ok s1 ∧ s1.sym = -1 ∧ s1.ch = w
          ∧ s1.lineBuffPtr = s.lineBuffPtr + 3 ∧ s1.enable_output = s.enable_output)
    ∧ (∀ (body : List Nat) (w : Nat) (rest : List Nat), s.sym ≠ -1 →
      (∀ a ∈ body, a ≠ 0 ∧ a ≠ 42 ∧ a ≠ 40) →
      s.lineBuffer.drop s.lineBuffPtr = 42 :: 41 :: (body ++ 42 :: 41 :: w :: rest) →
      ∃ t, commentCheckOpen c (inComment c (fuel + 1)) (fuel + 1) s = .ok t ∧ t.sym = -1
        ∧ cursorAt s t (body.length + 4) 41)
    ∧ (nextSym ⟨16, 8, false, false⟩ 3
        (initState ⟨16, 8, false, false⟩ false [40, 42, 41, 32, 120, 10, 122, 10])).map
        (fun s => (s.sym, s.varBuffer.take 2, s.ch)) = .ok (Ident, [120, 0], 0)
    ∧ (nextSym ⟨24, 8, false, false⟩ 6
        (initState ⟨24, 8, false, false⟩ false
          [40, 42, 32, 40, 42, 41, 32, 120, 32, 42, 41, 32, 121, 32, 42, 41, 32, 122, 10,
           122, 10])).map
        (fun s => (s.sym, s.varBuffer.take 2, s.ch)) = .ok (Ident, [122, 0], 0) := by
  refine ⟨?_, ?_, ?_, ?_⟩
  · intro w rest hp
    refine ⟨?_, getMiscToken_self_closing c fuel s w rest hlen hp⟩
    simp only [pending, List.cons.injEq] at hp
    obtain ⟨t, u, h1, h2, h3, h4, h5, -⟩ :=
      inComment_self_closing c fuel { s with sym := -1 } w rest hlen rfl hp.2
    exact ⟨t, u, h1, h2, h3, h4, h5⟩
  · intro body w rest hsym hbody hd
    exact commentCheckOpen_nested c fuel s body w rest hlen hsym hbody hd
  · decide
  · decide

theorem self_closing_comment_witness :
    ∃ s1, getMiscToken ⟨16, 8, false, false⟩ (0 + 1)
        (afterNewLine (initState ⟨16, 8, false, false⟩ false [40, 42, 41, 32, 120, 10])
          [40, 42, 41, 32, 120] []) = .ok s1
      ∧ s1.sym = -1 ∧ s1.ch = 32
      ∧ s1.lineBuffPtr
          = (afterNewLine (initState ⟨16, 8, false, false⟩ false [40, 42, 41, 32, 120, 10])
              [40, 42, 41, 32, 120] []).lineBuffPtr + 3
      ∧ s1.enable_output
          = (afterNewLine (initState ⟨16, 8, false, false⟩ false [40, 42, 41, 32, 120, 10])
              [40, 42, 41, 32, 120] []).enable_output :=
  ((self_closing_comment ⟨16, 8, false, false⟩ 0
    (afterNewLine (initState ⟨16, 8, false, false⟩ false [40, 42, 41, 32, 120, 10])
      [40, 42, 41, 32, 120] []) (by decide)).1 32
    [120, 0, 0, 0, 0, 0, 0, 0, 0, 0, 0, 0] (by decide)).2

/-! ### Input that ends before a line terminator -/

theorem getc_no_newline (f : List Nat) (h : 10 ∉ f) :
    (getc f).1 ≠ 10 ∧ (getc f).2 = f.drop 1 := by
  cases f with
  | nil => exact ⟨by decide, rfl⟩
  | cons a r => exact ⟨fun ha => h (by rw [getc_cons] at ha; simp [ha.symm]), rfl⟩

theorem setLineBufferLoop_exhausted : ∀ (n i : Nat) (s : State), 10 ∉ s.file →
    (setLineBufferLoop n i s).1 = -1 ∧ (setLineBufferLoop n i s).2.file = s.file.drop n := by
  intro n
  induction n with
  | zero => intro i s _; exact ⟨rfl, rfl⟩
  | succ n ih =>
    intro i s h10
    obtain ⟨hne, hrest⟩ := getc_no_newline s.file h10
    have h2 : 10 ∉ (getc s.file).2 := by
      rw [hrest]; exact fun h => h10 (List.mem_of_mem_drop h)
    have hstep : setLineBufferLoop (n + 1) i s
        = setLineBufferLoop n (i + 1)
            { s with lineBuffer := s.lineBuffer.set i (getc s.file).1, file := (getc s.file).2 } :=
      by simp only [setLineBufferLoop, hne, if_false]
    rw [hstep]
    have := ih (i + 1)
      { s with lineBuffer := s.lineBuffer.set i (getc s.file).1, file := (getc s.file).2 } h2
    refine ⟨this.1, this.2.trans ?_⟩
    show (getc s.file).2.drop n = s.file.drop (n + 1)
    rw [hrest, List.drop_drop, Nat.add_comm]

theorem whileLoop_first_error (cond : State → Bool) (body : State → Except Err State)
    (n : Nat) (s : State) (e : Err) (hc : cond s = true) (hb : body s = .error e) :
    whileLoop cond body (n + 1) s = .error e := by
  simp [whileLoop, hc, hb]

theorem newLine_exhausted (c : Config) (s : State) (h10 : 10 ∉ s.file) :
    newLine c s = .error (.scanError 2) := by
  unfold newLine setLineBuffer
  simp only [(setLineBufferLoop_exhausted c.MAX_LINE_LEN 0 s h10).1, if_true]

/-- C20: when the input left holds no line terminator (it is exhausted, or its last line
has no newline), `setLineBuffer` makes `MAX_LINE_LEN` reads, one per turn of its loop, and
returns -1, and `newLine` ends in `scanError(2)`; so does a refill asked for by
`commentNewLine` inside a comment and one asked for by `nextSym` at the end of a line.
The scanner stops with that error and does not loop: a whole run of `main` on the
unterminated line `x`, and one on the comment `(* a` left open at the end of the input,
end in `scanError(2)`. -/
theorem exhausted_input_fatal (c : Config) (s : State) (h10 : 10 ∉ s.file) :
    (setLineBuffer c s).1 = -1
    ∧ (setLineBuffer c s).2.file = s.file.drop c.MAX_LINE_LEN
    ∧ newLine c s = .error (.scanError 2)
    ∧ (∀ fuel, s.ch = 0 → commentNewLine c (fuel + 1) s = .error (.scanError 2))
    ∧ (∀ fuel, s.ch = 0 → s.EOFflag = false → nextSym c (fuel + 2) s = .error (.scanError 2))
    ∧ mainLoop ⟨8, 4, false, false⟩ 3 (initState ⟨8, 4, false, false⟩ false [120])
        = .error (.scanError 2)
    ∧ mainLoop ⟨8, 4, false, false⟩ 3 (initState ⟨8, 4, false, false⟩ false [40, 42, 32, 97, 10])
        = .error (.scanError 2) := by
  have hn : ∀ t : State, t.file = s.file → newLine c t = .error (.scanError 2) :=
    fun t ht => newLine_exhausted c t (by rw [ht]; exact h10)
  refine ⟨(setLineBufferLoop_exhausted c.MAX_LINE_LEN 0 s h10).1,
    (setLineBufferLoop_exhausted c.MAX_LINE_LEN 0 s h10).2, newLine_exhausted c s h10, ?_, ?_,
    ?_, ?_⟩
  · intro fuel hch
    unfold commentNewLine
    exact whileLoop_first_error _ _ fuel s _ (by simp [hch]) (hn _ (by rfl))
  · intro fuel hch heof
    have hw : whileLoop (fun s => s.ch = 0 && !s.EOFflag) (newLine c) (fuel + 1)
        { s with varBuffPtr := 0 } = .error (.scanError 2) :=
      whileLoop_first_error _ _ fuel _ _ (by simp [hch, heof]) (hn _ (by rfl))
    unfold nextSym
    rw [hw]
  · decide
  · decide

theorem exhausted_input_fatal_witness :
    (setLineBuffer ⟨8, 4, false, false⟩ (initState ⟨8, 4, false, false⟩ false [120, 121])).1 = -1
    ∧ newLine ⟨8, 4, false, false⟩ (initState ⟨8, 4, false, false⟩ false [120, 121])
        = .error (.scanError 2) :=
  ⟨(exhausted_input_fatal ⟨8, 4, false, false⟩
      (initState ⟨8, 4, false, false⟩ false [120, 121]) (by decide)).1,
   (exhausted_input_fatal ⟨8, 4, false, false⟩
      (initState ⟨8, 4, false, false⟩ false [120, 121]) (by decide)).2.2.1⟩

/-! ### The cursor and the end of the line -/

/-- C14, the failing input: in the build with `ERROR_HANDLING`, on the input `x`,
newline, newline (a last line that is empty) the second call of `nextSym` from the
initial state of `main` returns the token `UNKNOWN` for the end-of-line sentinel with
`endOfLine = 0` and `lineBuffPtr = 2`, so the cursor is more than one position past the
terminating NUL; the test `endOfLine + 1 != lineBuffPtr` of the loop of `main` then never
fails, and the run ends in `scanError(4)` after eleven `UNKNOWN` tokens, ten of them read
from beyond the line.  On the input `a b`, newline, newline the fourth call returns
`Ident` with lexeme `b`, read a second time from what the previous line left in the
buffer.  In the build without `ERROR_HANDLING` the second call on the first input ends in
`scanError(0)`. -/
theorem cursor_passes_sentinel :
    (nextSymTimes ⟨16, 8, false, true⟩ 3 2
        (initState ⟨16, 8, false, true⟩ false [120, 10, 10])).map
        (fun s => (s.sym, s.EOFflag, s.endOfLine, s.lineBuffPtr,
          decide ((s.lineBuffPtr : Int) ≤ s.endOfLine + 1)))
      = .ok (UNKNOWN, true, 0, 2, false)
    ∧ (nextSymTimes ⟨16, 8, false, true⟩ 3 1
        (initState ⟨16, 8, false, true⟩ false [120, 10, 10])).map
        (fun s => (s.sym, s.EOFflag, s.endOfLine, s.lineBuffPtr,
          decide ((s.lineBuffPtr : Int) ≤ s.endOfLine + 1)))
      = .ok (Ident, false, 1, 2, true)
    ∧ mainLoop ⟨16, 8, false, true⟩ 14 (initState ⟨16, 8, false, true⟩ false [120, 10, 10])
      = .error (.scanError 4)
    ∧ (nextSymTimes ⟨16, 8, false, true⟩ 3 4
        (initState ⟨16, 8, false, true⟩ false [97, 32, 98, 10, 10])).map
        (fun s => (s.sym, s.varBuffer.take 2, s.endOfLine, s.lineBuffPtr))
      = .ok (Ident, [98, 0], 0, 4)
    ∧ nextSymTimes ⟨16, 8, false, false⟩ 3 2
        (initState ⟨16, 8, false, false⟩ false [120, 10, 10]) = .error (.scanError 0) := by
  refine ⟨?_, ?_, ?_, ?_, ?_⟩
  · decide
  · decide
  · decide
  · decide
  · decide

/-! ### A comment after the last line has been read -/

theorem fetch_eof (s s1 : State) (h : fetch s = .ok s1) : s1.EOFflag = s.EOFflag := by
  obtain ⟨v, rfl⟩ := fetch_ok s s1 h
  rfl

theorem commentStep_eof (c : Config) (s s1 : State) (h : commentStep c s = .ok s1) :
    s1.EOFflag = s.EOFflag := by
  unfold commentStep at h
  by_cases ho : s.enable_output = true
  · rw [if_pos ho] at h
    exact fetch_eof (storeCh c s) s1 h
  · rw [if_neg ho] at h
    exact fetch_eof s s1 h

theorem skipSep_eof (c : Config) (s s1 : State) (h : skipSep c s = .ok s1) :
    s1.EOFflag = s.EOFflag :=
  whileLoop_inv (fun t => t.EOFflag = s.EOFflag) _ _
    (fun t t1 ht hb => (fetch_eof t t1 hb).trans ht) _ s s1 rfl h

/-- Nothing clears `EOFflag`: `setLineBuffer` only ever sets it. -/
theorem setLineBufferLoop_eof : ∀ (n i : Nat) (s : State), s.EOFflag = true →
    (setLineBufferLoop n i s).2.EOFflag = true := by
  intro n
  induction n with
  | zero => intro i s h; exact h
  | succ n ih =>
    intro i s h
    unfold setLineBufferLoop
    simp only
    by_cases h10 : (getc s.file).1 = 10
    · rw [if_pos h10]
      by_cases h255 : (getc (getc s.file).2).1 = 255
      · rw [if_pos h255]
      · rw [if_neg h255]; exact h
    · rw [if_neg h10]
      exact ih _ _ h

theorem newLine_eof (c : Config) (s s1 : State) (hE : s.EOFflag = true)
    (h : newLine c s = .ok s1) : s1.EOFflag = true := by
  unfold newLine at h
  simp only at h
  by_cases he : (setLineBuffer c s).1 = -1
  · rw [if_pos he] at h; cases h
  · rw [if_neg he] at h
    have h0 : (setLineBuffer c s).2.EOFflag = true := setLineBufferLoop_eof _ _ _ hE
    split at h
    · rename_i s3 hf
      rw [skipSep_eof c s3 s1 h, fetch_eof _ _ hf]
      exact h0
    · cases h

theorem commentSkip_eof (c : Config) (s s1 : State) (h : commentSkip c s = .ok s1) :
    s1.EOFflag = s.EOFflag :=
  (doWhile_inv (fun t => t.EOFflag = s.EOFflag) (fun t => t.EOFflag = s.EOFflag) _ _
    (fun t t1 ht hb => (commentStep_eof c t t1 hb).trans ht) (fun _ ht _ => ht) _ s s1 rfl h).1

theorem commentNewLine_eof (c : Config) (fuel : Nat) (s s1 : State) (hE : s.EOFflag = true)
    (h : commentNewLine c fuel s = .ok s1) : s1.EOFflag = true :=
  whileLoop_inv (fun t => t.EOFflag = true) (fun s => s.ch = 0)
    (fun s => newLine c { writeVar c s s.varBuffPtr 0 with varBuffPtr := 0 })
    (fun t t1 ht hb =>
      newLine_eof c { writeVar c t t.varBuffPtr 0 with varBuffPtr := 0 } t1 ht hb)
    fuel s s1 hE h

theorem commentCheckClose_eof (c : Config) (s : State) (r : Int) (s1 : State)
    (h : commentCheckClose c s = .ok (r, s1)) : s1.EOFflag = s.EOFflag := by
  unfold commentCheckClose at h
  split at h
  · cases h
  · split at h
    · split at h
      · rename_i s2 hs
        have := commentStep_eof c s s2 hs
        cases h
        exact this
      · cases h
    · cases h; rfl

/-- Once `EOFflag` is set it stays set through a call of `inComment`. -/
theorem inComment_eof (c : Config) : ∀ (fuel : Nat) (s : State) (r : Int) (s1 : State),
    s.EOFflag = true → inComment c fuel s = .ok (r, s1) → s1.EOFflag = true := by
  intro fuel
  induction fuel with
  | zero => intro s r s1 _ h; cases h
  | succ n ih =>
    intro s r s1 hE h
    unfold inComment at h
    cases hX : (if s.sym = -1 then checkDirective s else Except.ok s) with
    | error e => rw [hX] at h; cases h
    | ok sD =>
      rw [hX] at h
      simp only at h
      have hED : sD.EOFflag = true := by
        by_cases hs : s.sym = -1
        · rw [if_pos hs] at hX
          rw [checkDirective_ok s sD hX]
          exact hE
        · rw [if_neg hs] at hX
          cases hX
          exact hE
      split at h
      · cases h
      · rename_i s2 hskip
        have h2 : s2.EOFflag = true := (commentSkip_eof c sD s2 hskip).trans hED
        split at h
        · cases h
        · rename_i s3 hnl
          have h3 := commentNewLine_eof c n s2 s3 h2 hnl
          split at h
          · rw [commentCheckClose_eof c s3 r s1 h]
            exact h3
          · split at h
            · split at h
              · rename_i s4 hopen
                have e : s4 = s1 := by injection h with h; injection h
                rw [← e]
                unfold commentCheckOpen at hopen
                split at hopen
                · cases hopen
                · split at hopen
                  · split at hopen
                    · rename_i s5 hstep
                      have h5 : s5.EOFflag = true := (commentStep_eof c s3 s5 hstep).trans h3
                      unfold commentLoop at hopen
                      exact (doWhile_inv (fun t => t.EOFflag = true) (fun t => t.EOFflag = true)
                        _ _
                        (fun t t1 ht hb => by
                          unfold assignSym at hb
                          split at hb
                          · rename_i p hp
                            cases hb
                            exact ih t p.1 p.2 ht hp
                          · cases hb)
                        (fun t1 hq _ => hq) n s5 s4 h5 hopen).1
                    · cases hopen
                  · cases hopen
                    exact h3
              · cases h
            · have e : s3 = s1 := by injection h with h; injection h
              rw [← e]; exact h3

theorem getMiscToken_comment_eof (c : Config) (fuel : Nat) (s s1 : State) (h40 : s.ch = 40)
    (h42 : readLine s s.lineBuffPtr = .ok 42) (hE : s.EOFflag = true)
    (h : getMiscToken c fuel s = .ok s1) : s1.EOFflag = true := by
  unfold getMiscToken at h
  rw [miscSwitch_comment c fuel s h40 h42] at h
  split at h
  · cases h
  · rename_i s2 hloop
    split at h
    · cases h
    · rename_i s3 hn
      have e : writeVar c s3 s3.varBuffPtr 0 = s1 := by injection h
      rw [← e]
      show s3.EOFflag = true
      obtain ⟨v, rfl⟩ := fetch_ok _ s3 hn
      show s2.EOFflag = true
      unfold commentLoop at hloop
      exact (doWhile_inv (fun t => t.EOFflag = true) (fun t => t.EOFflag = true)
        (assignSym (inComment c fuel)) (fun s => s.sym ≠ -1)
        (fun t t1 ht hb => by
          unfold assignSym at hb
          split at hb
          · rename_i p hp
            cases hb
            exact inComment_eof c fuel t p.1 p.2 ht hp
          · cases hb)
        (fun t1 hq _ => hq) fuel { s with sym := -1 } s2 hE hloop).1

theorem whileLoop_skip (cond : State → Bool) (body : State → Except Err State)
    (fuel : Nat) (s : State) (hc : cond s = false) : whileLoop cond body fuel s = .ok s := by
  cases fuel <;> simp [whileLoop, hc]

theorem printSym_sentinel (s s1 : State) (hs : s.sym = -1) (h : printSym s = .ok s1) :
    s1 = s ∧ s.enable_output = false := by
  refine ⟨printSym_ok s s1 h, ?_⟩
  unfold printSym at h
  cases ho : s.enable_output with
  | false => rfl
  | true =>
    rw [ho, if_pos rfl, if_neg (by rw [hs]; decide)] at h
    cases h

/-- C2, the defect: once the last line of the input has been read (`EOFflag` set) a call
of `nextSym` at a comment opening that returns leaves `sym = -1`, the in-comment value,
and it returns only with output disabled (with output enabled the call goes on to read
`symbols[-1]`); it does return for a one-line comment without inner markers, also when a
token follows the comment on the line.  On the last line `(* c *) x` the first call
returns -1 and only the second call returns `Ident` with lexeme `x`; with output enabled
the call on the last line `(* c *)` ends in the read of `symbols[-1]`. -/
theorem comment_after_last_line_surfaces (c : Config) (fuel : Nat) (s s1 : State)
    (hE : s.EOFflag = true) (h40 : s.ch = 40) (h42 : readLine s s.lineBuffPtr = .ok 42) :
    (nextSym c fuel s = .ok s1 →
      s1.sym = -1 ∧ s1.EOFflag = true ∧ s1.enable_output = false)
    ∧ (∀ (body : List Nat) (w : Nat) (rest : List Nat),
      s.lineBuffer.length ≤ c.MAX_LINE_LEN → (∀ a ∈ body, a ≠ 0 ∧ a ≠ 42 ∧ a ≠ 40) →
      body.head? ≠ some 41 → pending s = 40 :: 42 :: (body ++ 42 :: 41 :: w :: rest) →
      isSep w = false → directiveValue s = false →
      ∃ s2, nextSym c (fuel + 3) s = .ok s2 ∧ s2.sym = -1 ∧ s2.ch = w)
    ∧ (nextSymTimes ⟨16, 8, false, false⟩ 3 1
        (initState ⟨16, 8, false, false⟩ false [40, 42, 32, 99, 32, 42, 41, 32, 120, 10])).map
        (fun s => (s.sym, s.EOFflag, s.ch)) = .ok (-1, true, 120)
    ∧ (nextSymTimes ⟨16, 8, false, false⟩ 3 2
        (initState ⟨16, 8, false, false⟩ false [40, 42, 32, 99, 32, 42, 41, 32, 120, 10])).map
        (fun s => (s.sym, s.varBuffer.take 2, s.ch)) = .ok (Ident, [120, 0], 0)
    ∧ nextSym ⟨16, 16, false, false⟩ 3
        (initState ⟨16, 16, false, false⟩ true [40, 42, 32, 99, 32, 42, 41, 10])
        = .error (.symbolsRead (-1)) := by
  have hc : (fun t : State => decide (t.ch = 0) && !t.EOFflag) { s with varBuffPtr := 0 }
      = false := by
    simp [h40]
  have hA : isAlpha ({ s with varBuffPtr := 0 } : State).ch = false := by
    show isAlpha s.ch = false
    rw [h40]; decide
  have hD : isDigit ({ s with varBuffPtr := 0 } : State).ch = false := by
    show isDigit s.ch = false
    rw [h40]; decide
  refine ⟨?_, ?_, ?_, ?_, ?_⟩
  · intro h
    cases fuel with
    | zero => cases h
    | succ n =>
      unfold nextSym at h
      rw [whileLoop_skip _ _ n _ hc] at h
      simp only [hA, hD, Bool.false_eq_true, if_false] at h
      cases hg : getMiscToken c n { s with varBuffPtr := 0 } with
      | error e => rw [hg] at h; cases h
      | ok t =>
        rw [hg] at h
        simp only at h
        have hsym := (getMiscToken_comment c n { s with varBuffPtr := 0 } t h40 h42 hg).1
        have hEt := getMiscToken_comment_eof c n { s with varBuffPtr := 0 } t h40 h42 hE hg
        cases hs : skipSep c { t with prevLinePtr := t.lineBuffPtr } with
        | error e => rw [hs] at h; cases h
        | ok u =>
          rw [hs] at h
          simp only at h
          have hum := skipSep_sameMode c _ u hs
          have hue := skipSep_eof c _ u hs
          have husym : u.sym = -1 := hum.1.trans hsym
          have hueof : u.EOFflag = true := hue.trans hEt
          rw [if_neg (by rw [hueof]; simp)] at h
          obtain ⟨e, ho⟩ := printSym_sentinel u s1 husym h
          rw [e]
          exact ⟨husym, hueof, ho⟩
  · intro body w rest hlen hbody hb0 hp hw hdv
    obtain ⟨t, hg, hch⟩ := getMiscToken_simple_comment c (fuel + 2) { s with varBuffPtr := 0 }
      body w rest hlen hbody hb0 hp (by omega)
    obtain ⟨hsym, hout⟩ := getMiscToken_comment c (fuel + 2) { s with varBuffPtr := 0 } t h40 h42 hg
    have hEt := getMiscToken_comment_eof c (fuel + 2) { s with varBuffPtr := 0 } t h40 h42 hE hg
    have hout2 : t.enable_output = false := by
      rw [hout]
      exact hdv
    unfold nextSym
    rw [whileLoop_skip _ _ (fuel + 2) _ hc]
    simp only [hA, hD, Bool.false_eq_true, if_false]
    rw [hg]
    simp only
    rw [skipSep_none c _ (by show isSep t.ch = false; rw [hch]; exact hw)]
    simp only
    rw [if_neg (by rw [hEt]; simp)]
    unfold printSym
    rw [if_neg (by
      show ¬ (t.enable_output = true)
      rw [hout2]; simp)]
    exact ⟨_, rfl, hsym, hch⟩
  · decide
  · decide
  · decide

theorem comment_after_last_line_surfaces_witness :
    nextSym ⟨16, 8, false, false⟩ 3
        (afterNewLine (initState ⟨16, 8, false, false⟩ false
          [40, 42, 32, 99, 32, 42, 41, 32, 120, 10]) [40, 42, 32, 99, 32, 42, 41, 32, 120] [])
      = .ok (resultOr (nextSym ⟨16, 8, false, false⟩ 3
          (afterNewLine (initState ⟨16, 8, false, false⟩ false
            [40, 42, 32, 99, 32, 42, 41, 32, 120, 10]) [40, 42, 32, 99, 32, 42, 41, 32, 120] []))
          (initState ⟨16, 8, false, false⟩ false []))
    ∧ (resultOr (nextSym ⟨16, 8, false, false⟩ 3
          (afterNewLine (initState ⟨16, 8, false, false⟩ false
            [40, 42, 32, 99, 32, 42, 41, 32, 120, 10]) [40, 42, 32, 99, 32, 42, 41, 32, 120] []))
          (initState ⟨16, 8, false, false⟩ false [])).sym = -1 :=
  ⟨by decide,
   ((comment_after_last_line_surfaces ⟨16, 8, false, false⟩ 3
      (afterNewLine (initState ⟨16, 8, false, false⟩ false
        [40, 42, 32, 99, 32, 42, 41, 32, 120, 10]) [40, 42, 32, 99, 32, 42, 41, 32, 120] [])
      (resultOr (nextSym ⟨16, 8, false, false⟩ 3
          (afterNewLine (initState ⟨16, 8, false, false⟩ false
            [40, 42, 32, 99, 32, 42, 41, 32, 120, 10]) [40, 42, 32, 99, 32, 42, 41, 32, 120] []))
          (initState ⟨16, 8, false, false⟩ false []))
      (by decide) (by decide) (by decide)).1 (by decide)).1⟩

end Oberon
